import Mathlib

/-! # Terminal driver: `kernel/dev/tty/tty.c`

A shallow embedding of the pseudo-terminal driver.  The functions of `tty.c`
are translated one by one, keeping their names.  The header `tty_priv.h`
(structure layouts, the ring-buffer macros, the constants) is not among the
sources; what is taken from it is marked `Modelled from the spec:`.

Conventions of the embedding.

* A kernel semaphore is represented by its count, stored in the field that
  holds the semaphore id in C (`read_sem`, `write_sem`).
* The mutexes delimit atomic sections; the model is sequential, so
  `mutex_lock` / `mutex_unlock` have no counterpart.
* `ASSERT` and `panic` halt the system: the call has the outcome `panic`.
* `ref_count` is a C `int` of 32 bits; an increment or decrement that leaves
  its range wraps around (`wrap_int`), as the compiled code does.
* A pointer to a terminal of the pool is the index of its slot.
-/

namespace Tty

/-! ## Constants -/

/-- Modelled from the spec: the "invalid argument" outcome; `newos/errors.h` is not among
the sources, the value is the one of `ERR_GENERAL-3`. -/
def ERR_INVALID_ARGS : Int := -4

/-- Modelled from the spec: the "interrupted" outcome of a cancelled wait; `newos/errors.h`
is not among the sources, the value is the one of `ERR_SEM_GENERAL-5`. -/
def ERR_SEM_INTERRUPTED : Int := -1029

/-- Modelled from the spec: translation state `Normal` (`tty_priv.h` is missing). -/
def TTY_STATE_NORMAL : Nat := 0
/-- Modelled from the spec: translation state `PendingCR` (`tty_priv.h` is missing). -/
def TTY_STATE_WRITE_CR : Nat := 1
/-- Modelled from the spec: translation state `PendingLF` (`tty_priv.h` is missing). -/
def TTY_STATE_WRITE_LF : Nat := 2

/-- Modelled from the spec: flag `Canonical` (`tty_priv.h` is missing). -/
def TTY_FLAG_CANON : Nat := 1
/-- Modelled from the spec: flag `TranslateNLtoCRLF` (`tty_priv.h` is missing). -/
def TTY_FLAG_NLCR : Nat := 2
/-- Modelled from the spec: flag `Echo` (`tty_priv.h` is missing). -/
def TTY_FLAG_ECHO : Nat := 4

/-- Modelled from the spec: the master-to-slave buffer is written by the master and read
by the slave (`tty_priv.h` is missing). -/
def ENDPOINT_MASTER_WRITE : Nat := 0
/-- Modelled from the spec: the reading end of the master-to-slave buffer. -/
def ENDPOINT_SLAVE_READ : Nat := 0
/-- Modelled from the spec: the slave-to-master buffer is written by the slave and read
by the master (`tty_priv.h` is missing). -/
def ENDPOINT_SLAVE_WRITE : Nat := 1
/-- Modelled from the spec: the reading end of the slave-to-master buffer. -/
def ENDPOINT_MASTER_READ : Nat := 1

/-- Modelled from the spec: control sub-command get-index (`newos/tty_priv.h` is missing). -/
def _TTY_IOCTL_GET_TTY_NUM : Int := 0
/-- Modelled from the spec: control sub-command get-flags (`newos/tty_priv.h` is missing). -/
def _TTY_IOCTL_GET_TTY_FLAGS : Int := 1
/-- Modelled from the spec: control sub-command set-flags (`newos/tty_priv.h` is missing). -/
def _TTY_IOCTL_SET_TTY_FLAGS : Int := 2

/-! ## Data model -/

/-- Modelled from the spec: `struct line_buffer` of `tty_priv.h` (missing): the ring buffer
of one direction.  `read_sem` and `write_sem` hold the counts of the data-available and
space-available semaphores. -/
@[ext] structure line_buffer where
  head : Nat
  tail : Nat
  line_start : Nat
  len : Nat
  read_sem : Nat
  write_sem : Nat
  buffer : List Nat
  flags : Nat
  state : Nat
deriving DecidableEq, Repr

/-- Modelled from the spec: `tty_desc` of `tty_priv.h` (missing): one terminal of the pool with
its two directional buffers `buf[0]` and `buf[1]`. -/
structure tty_desc where
  inuse : Bool
  index : Nat
  ref_count : Int
  buf0 : line_buffer
  buf1 : line_buffer
deriving DecidableEq, Repr

/-- Modelled from the spec: `tty_global` of `tty_priv.h` (missing): the fixed table of terminals;
`NUM_TTYS` is the length of the table. -/
structure tty_global where
  ttys : List tty_desc
deriving DecidableEq, Repr

/-- Outcome of a call: it returns a value, or the system halts in `ASSERT` / `panic`,
or the caller stays suspended on a semaphore (with the state in which it is suspended),
or the model ran out of fuel. -/
inductive outcome (α : Type) where
  | ret : α → outcome α
  | panic : outcome α
  | blocked : α → outcome α
  | out_of_fuel : outcome α
deriving DecidableEq, Repr

/-! ## Terminal pool -/

/-- The loop `for(i=0; i<NUM_TTYS; i++)` of `allocate_new_tty`; `n` counts the
iterations left, `i` is the loop variable. -/
def allocate_loop (g : tty_global) : Nat → Nat → outcome (Option Nat × tty_global)
  | 0, _ => .ret (none, g)
  | n + 1, i =>
    match g.ttys.get? i with
    | none => .panic
    | some t =>
      if t.inuse == false then
        if t.ref_count == 0 then
          .ret (some i, { g with ttys := g.ttys.set i { t with inuse := true, ref_count := 1 } })
        else .panic
      else allocate_loop g n (i + 1)

/-- The function `allocate_new_tty`: the returned pointer is the index of the slot,
`none` is `NULL`. -/
def allocate_new_tty (g : tty_global) : outcome (Option Nat × tty_global) :=
  allocate_loop g g.ttys.length 0

/-- Modelled from the spec: the largest value of the C `int` of this target, the type of
the field `ref_count` (`tty_priv.h` is missing). -/
def INT_MAX : Int := 2147483647

/-- Modelled from the spec: the smallest value of the C `int` of this target. -/
def INT_MIN : Int := -2147483648

/-- Modelled from the spec: the value the compiled code stores for the result `x` of an
`int` operation: `x` itself from `INT_MIN` to `INT_MAX`, and `x` brought back into that
range modulo `2^32` (two's complement) on overflow. -/
def wrap_int (x : Int) : Int := (x + 2147483648) % 4294967296 - 2147483648

/-- The function `inc_tty_ref` on the terminal its argument points to; `ref_count++` is
an `int` increment. -/
def inc_tty_ref (tty : tty_desc) : tty_desc :=
  let tty := { tty with ref_count := wrap_int (tty.ref_count + 1) }
  if tty.ref_count == 1 then { tty with inuse := true } else tty

/-- The function `dec_tty_ref` on the terminal its argument points to; `ref_count--` is
an `int` decrement. -/
def dec_tty_ref (tty : tty_desc) : tty_desc :=
  let tty := { tty with ref_count := wrap_int (tty.ref_count - 1) }
  if tty.ref_count == 0 then { tty with inuse := false } else tty

/-- Apply a function to the terminal in slot `i` of the pool (a call through
`&thetty.ttys[i]`). -/
def on_slot (f : tty_desc → tty_desc) (g : tty_global) (i : Nat) : tty_global :=
  match g.ttys.get? i with
  | none => g
  | some t => { g with ttys := g.ttys.set i (f t) }

/-- The initial state of one directional buffer in `tty_dev_init`. -/
def init_line_buffer (TTY_BUFFER_SIZE j : Nat) : line_buffer :=
  { head := 0, tail := 0, line_start := 0, len := TTY_BUFFER_SIZE,
    read_sem := 0, write_sem := 1,
    buffer := List.replicate TTY_BUFFER_SIZE 0,
    flags :=
      if j == ENDPOINT_SLAVE_WRITE then TTY_FLAG_NLCR
      else if j == ENDPOINT_MASTER_WRITE then TTY_FLAG_CANON ||| TTY_FLAG_ECHO ||| TTY_FLAG_NLCR
      else 0,
    state := TTY_STATE_NORMAL }

/-- The initial state of terminal `i` in `tty_dev_init`. -/
def init_tty_desc (TTY_BUFFER_SIZE i : Nat) : tty_desc :=
  { inuse := false, index := i, ref_count := 0,
    buf0 := init_line_buffer TTY_BUFFER_SIZE 0,
    buf1 := init_line_buffer TTY_BUFFER_SIZE 1 }

/-- The pool set up by `tty_dev_init`; the constants `NUM_TTYS` and `TTY_BUFFER_SIZE` of
`tty_priv.h` are parameters.  Creating the locks and semaphores is taken to succeed. -/
def tty_dev_init (NUM_TTYS TTY_BUFFER_SIZE : Nat) : tty_global :=
  { ttys := (List.range NUM_TTYS).map (init_tty_desc TTY_BUFFER_SIZE) }

/-- A call of one of the three pool functions. -/
inductive pool_call where
  | allocate : pool_call
  | inc : Nat → pool_call
  | dec : Nat → pool_call
deriving DecidableEq, Repr

/-- The pool after one call; `none` when the call halts the system. -/
def pool_step (g : tty_global) : pool_call → Option tty_global
  | .allocate =>
    match allocate_new_tty g with
    | .ret (_, g1) => some g1
    | _ => none
  | .inc i => some (on_slot inc_tty_ref g i)
  | .dec i => some (on_slot dec_tty_ref g i)

/-- The pool after a sequence of calls. -/
def pool_run (g : tty_global) : List pool_call → Option tty_global
  | [] => some g
  | c :: cs =>
    match pool_step g c with
    | none => none
    | some g1 => pool_run g1 cs

/-- The call does not overflow an `int`: `inc_tty_ref` is not applied to a count at
`INT_MAX` and `dec_tty_ref` not to a count at `INT_MIN`. -/
def call_in_range (g : tty_global) : pool_call → Bool
  | .allocate => true
  | .inc i =>
    match g.ttys.get? i with
    | none => true
    | some t => t.ref_count != INT_MAX
  | .dec i =>
    match g.ttys.get? i with
    | none => true
    | some t => t.ref_count != INT_MIN

/-- No call of the sequence overflows an `int`. -/
def run_in_range (g : tty_global) : List pool_call → Bool
  | [] => true
  | c :: cs =>
    call_in_range g c &&
      match pool_step g c with
      | none => true
      | some g1 => run_in_range g1 cs

/-- Allocate `n` times in a row; the result lists the returned slots. -/
def allocate_many : Nat → tty_global → outcome (List (Option Nat) × tty_global)
  | 0, g => .ret ([], g)
  | n + 1, g =>
    match allocate_new_tty g with
    | .ret (r, g1) =>
      match allocate_many n g1 with
      | .ret (rs, g2) => .ret (r :: rs, g2)
      | _ => .panic
    | _ => .panic

/-! ## Ring buffer -/

/-- Modelled from the spec: macro `AVAILABLE_READ` of `tty_priv.h` (missing):
`available_to_read() = (head - tail) mod C`. -/
def AVAILABLE_READ (lbuf : line_buffer) : Int :=
  ((lbuf.head : Int) - (lbuf.tail : Int)) % (lbuf.len : Int)

/-- Modelled from the spec: macro `AVAILABLE_WRITE` of `tty_priv.h` (missing):
`available_to_write() = C - 1 - available_to_read()`. -/
def AVAILABLE_WRITE (lbuf : line_buffer) : Int :=
  (lbuf.len : Int) - 1 - AVAILABLE_READ lbuf

/-- Modelled from the spec: macro `INC_HEAD` of `tty_priv.h` (missing): advances `head` mod `C`. -/
def INC_HEAD (lbuf : line_buffer) : line_buffer :=
  { lbuf with head := (lbuf.head + 1) % lbuf.len }

/-- Modelled from the spec: macro `DEC_HEAD` of `tty_priv.h` (missing): retreats `head` by one
(mod `C`). -/
def DEC_HEAD (lbuf : line_buffer) : line_buffer :=
  { lbuf with head := (((lbuf.head : Int) - 1) % (lbuf.len : Int)).toNat }

/-- The kernel call `sem_release(lbuf->read_sem, 1)` (external): one more permit. -/
def release_read_sem (lbuf : line_buffer) : line_buffer :=
  { lbuf with read_sem := lbuf.read_sem + 1 }

/-- The kernel call `sem_release(lbuf->write_sem, 1)` (external): one more permit. -/
def release_write_sem (lbuf : line_buffer) : line_buffer :=
  { lbuf with write_sem := lbuf.write_sem + 1 }

/-- The assignment `lbuf->tail = t`. -/
def set_tail (lbuf : line_buffer) (t : Nat) : line_buffer :=
  { lbuf with tail := t }

/-- The assignment `lbuf->state = st`. -/
def set_state (lbuf : line_buffer) (st : Nat) : line_buffer :=
  { lbuf with state := st }

/-- The function `tty_insert_char`. -/
def tty_insert_char (lbuf : line_buffer) (c : Nat) (move_line_start : Bool) : line_buffer :=
  let was_empty := AVAILABLE_READ lbuf == 0
  let lbuf := { lbuf with buffer := lbuf.buffer.set lbuf.head c }
  let lbuf := INC_HEAD lbuf
  let lbuf := if move_line_start then { lbuf with line_start := lbuf.head } else lbuf
  if was_empty && decide (AVAILABLE_READ lbuf > 0) then release_read_sem lbuf
  else lbuf

/-- The bytes a reader would get, oldest first: `buffer[tail]`, `buffer[tail+1 mod C]`, ...,
`available_to_read()` of them. -/
def readable (lbuf : line_buffer) : List Nat :=
  (List.range (AVAILABLE_READ lbuf).toNat).map
    (fun k => lbuf.buffer.getD ((lbuf.tail + k) % lbuf.len) 0)

/-- The element `buf[endpoint]` of a terminal. -/
def get_buf (tty : tty_desc) (endpoint : Nat) : line_buffer :=
  if endpoint == 0 then tty.buf0 else tty.buf1

/-- Store into `buf[endpoint]` of a terminal. -/
def set_buf (tty : tty_desc) (endpoint : Nat) (lbuf : line_buffer) : tty_desc :=
  if endpoint == 0 then { tty with buf0 := lbuf } else { tty with buf1 := lbuf }

/-! ## Semaphores -/

/-- What happens to a caller suspended on a semaphore: the wait is cancelled, or other
threads run (changing the terminal) and the wait is tried again. -/
inductive wait_event where
  | interrupted : wait_event
  | wake : (tty_desc → tty_desc) → wait_event

/-- Which of the two semaphores of a buffer. -/
inductive sem_sel where
  | read_sem : sem_sel
  | write_sem : sem_sel
deriving DecidableEq, Repr

/-- The count of a semaphore of `buf[endpoint]`. -/
def sem_count (tty : tty_desc) (endpoint : Nat) : sem_sel → Nat
  | .read_sem => (get_buf tty endpoint).read_sem
  | .write_sem => (get_buf tty endpoint).write_sem

/-- One permit less on the data-available semaphore. -/
def take_read_sem (lbuf : line_buffer) : line_buffer :=
  { lbuf with read_sem := lbuf.read_sem - 1 }

/-- One permit less on the space-available semaphore. -/
def take_write_sem (lbuf : line_buffer) : line_buffer :=
  { lbuf with write_sem := lbuf.write_sem - 1 }

/-- Take one permit of a semaphore of `buf[endpoint]`. -/
def sem_take (tty : tty_desc) (endpoint : Nat) : sem_sel → tty_desc
  | .read_sem => set_buf tty endpoint (take_read_sem (get_buf tty endpoint))
  | .write_sem => set_buf tty endpoint (take_write_sem (get_buf tty endpoint))

/-- Result of `sem_acquire_etc`. -/
inductive acquire_result where
  | acquired : tty_desc → List wait_event → acquire_result
  | interrupted : tty_desc → List wait_event → acquire_result
  | blocked : tty_desc → acquire_result

/-- The kernel call `sem_acquire_etc(sem, 1, SEM_FLAG_INTERRUPTABLE, 0, NULL)` (external):
a permit that is there is taken at once; otherwise the caller is suspended and the
events say what happens to it. -/
def sem_acquire_etc (endpoint : Nat) (sel : sem_sel) :
    tty_desc → List wait_event → acquire_result
  | tty, [] =>
    if sem_count tty endpoint sel > 0 then .acquired (sem_take tty endpoint sel) []
    else .blocked tty
  | tty, e :: evs =>
    if sem_count tty endpoint sel > 0 then .acquired (sem_take tty endpoint sel) (e :: evs)
    else
      match e with
      | .interrupted => .interrupted tty evs
      | .wake f => sem_acquire_etc endpoint sel (f tty) evs

/-! ## Control -/

/-- Modelled from the spec: `struct tty_flags` of `newos/tty_priv.h` (missing): the pair of flag sets. -/
structure tty_flags where
  input_flags : Nat
  output_flags : Nat
deriving DecidableEq, Repr

/-- The function `tty_ioctl`.  `copy_err` is the result of `user_memcpy` (negative when
the copy fails), `ubuf` the pair of flag sets at the caller's address; the result is the
return value, the terminal and the caller's pair afterwards. -/
def tty_ioctl (tty : tty_desc) (op : Int) (copy_err : Int) (ubuf : tty_flags) :
    Int × tty_desc × tty_flags :=
  if op == _TTY_IOCTL_GET_TTY_NUM then ((tty.index : Int), tty, ubuf)
  else if op == _TTY_IOCTL_GET_TTY_FLAGS then
    let flags : tty_flags :=
      { input_flags := (get_buf tty ENDPOINT_MASTER_WRITE).flags,
        output_flags := (get_buf tty ENDPOINT_SLAVE_WRITE).flags }
    if copy_err < 0 then (copy_err, tty, ubuf)
    else (0, tty, flags)
  else if op == _TTY_IOCTL_SET_TTY_FLAGS then
    if copy_err < 0 then (copy_err, tty, ubuf)
    else
      let tty := set_buf tty ENDPOINT_MASTER_WRITE
        { get_buf tty ENDPOINT_MASTER_WRITE with flags := ubuf.input_flags }
      let tty := set_buf tty ENDPOINT_SLAVE_WRITE
        { get_buf tty ENDPOINT_SLAVE_WRITE with flags := ubuf.output_flags }
      (0, tty, ubuf)
  else (ERR_INVALID_ARGS, tty, ubuf)

/-! ## Read -/

/-- How the copy loop of `tty_read` ends. -/
inductive read_exit where
  | done : line_buffer → Int → List Nat → read_exit
  | fault : line_buffer → Int → List Nat → read_exit
  | out_of_fuel : read_exit
deriving DecidableEq, Repr

/-- The loop `while(len > 0)` of `tty_read`.  `copy_ok off n` says whether the
`user_memcpy` of `n` bytes to offset `off` of the caller's buffer succeeds; `out` is
what the caller's buffer holds so far. -/
def tty_read_loop (copy_ok : Int → Int → Bool) :
    Nat → line_buffer → Int → Int → List Nat → read_exit
  | fuel, lbuf, len, bytes_read, out =>
    if len > 0 then
      match fuel with
      | 0 => .out_of_fuel
      | fuel + 1 =>
        let copy_len : Int :=
          if (lbuf.tail : Int) + len > (lbuf.len : Int) then (lbuf.len : Int) - (lbuf.tail : Int)
          else len
        if copy_ok bytes_read copy_len then
          let out := out ++ (List.range copy_len.toNat).map
            (fun k => lbuf.buffer.getD (lbuf.tail + k) 0)
          let lbuf :=
            set_tail lbuf (Int.tmod ((lbuf.tail : Int) + copy_len) (lbuf.len : Int)).toNat
          tty_read_loop copy_ok fuel lbuf (len - copy_len) (bytes_read + copy_len) out
        else .fault lbuf bytes_read out
    else .done lbuf bytes_read out

/-- The end of `tty_read`: the data-available semaphore is released when data remains,
the space-available semaphore when the buffer was full (`data_len == lbuf->len - 1`). -/
def tty_read_signal (lbuf : line_buffer) (data_len : Int) : line_buffer :=
  let lbuf := if AVAILABLE_READ lbuf > 0 then release_read_sem lbuf else lbuf
  if data_len == (lbuf.len : Int) - 1 then release_write_sem lbuf else lbuf

/-- The function `tty_read`; the result is the return value, the terminal and the bytes
delivered to the caller's buffer. -/
def tty_read (tty : tty_desc) (copy_ok : Int → Int → Bool) (len : Int) (endpoint : Nat)
    (evs : List wait_event) : outcome (Int × tty_desc × List Nat) :=
  if len < 0 then .ret (ERR_INVALID_ARGS, tty, [])
  else if len == 0 then .ret (0, tty, [])
  else if !(endpoint == ENDPOINT_MASTER_READ || endpoint == ENDPOINT_SLAVE_READ) then .panic
  else
    match sem_acquire_etc endpoint .read_sem tty evs with
    | .blocked tty => .blocked (0, tty, [])
    | .interrupted tty _ => .ret (ERR_SEM_INTERRUPTED, tty, [])
    | .acquired tty _ =>
      let lbuf := get_buf tty endpoint
      if !(decide (lbuf.len > 0) && decide (lbuf.head < lbuf.len)
            && decide (lbuf.tail < lbuf.len) && decide (lbuf.line_start < lbuf.len)) then .panic
      else
        let data_len := AVAILABLE_READ lbuf
        let len := min data_len len
        if !(decide (len > 0)) then .panic
        else
          match tty_read_loop copy_ok len.toNat lbuf len 0 [] with
          | .out_of_fuel => .out_of_fuel
          | .fault lbuf bytes_read out =>
            .ret (bytes_read, set_buf tty endpoint (release_read_sem lbuf), out)
          | .done lbuf bytes_read out =>
            .ret (bytes_read, set_buf tty endpoint (tty_read_signal lbuf data_len), out)

/-! ## Write -/

/-- The buffers and the locals `buf_pos`, `bytes_written` of `tty_write` while the
terminal is locked. -/
@[ext] structure wstate where
  lbuf : line_buffer
  other_lbuf : line_buffer
  buf_pos : Int
  bytes_written : Int
deriving DecidableEq, Repr

/-- Assignment through the pointer `lbuf`. -/
def set_lbuf (s : wstate) (l : line_buffer) : wstate := { s with lbuf := l }

/-- Assignment through the pointer `other_lbuf`. -/
def set_other (s : wstate) (o : line_buffer) : wstate := { s with other_lbuf := o }

/-- The statements `buf_pos++; bytes_written++;`. -/
def advance (s : wstate) : wstate :=
  { s with buf_pos := s.buf_pos + 1, bytes_written := s.bytes_written + 1 }

/-- How a part of the body of `tty_write` is left. -/
inductive wexit where
  | fallthrough : wstate → wexit
  | exit_loop : wstate → wexit
  | fault : wstate → wexit
  | panic : wexit
  | out_of_fuel : wexit
deriving DecidableEq, Repr

/-- The block `if(wrote_char) { if(lbuf->flags & TTY_FLAG_ECHO) { ... } }` that ends both
loops of `tty_write`.  The test `AVAILABLE_WRITE(other_lbuf) == 0` has an empty body. -/
def tty_write_echo (s : wstate) (c : Nat) (wrote_char : Bool) : wstate :=
  if wrote_char then
    if s.lbuf.flags &&& TTY_FLAG_ECHO != 0 then
      set_other s (tty_insert_char s.other_lbuf c true)
    else s
  else s

/-- The loop `while(lbuf->state != TTY_STATE_NORMAL)` at the label
`tty_write_special_state`. -/
def tty_write_special_state : Nat → wstate → wexit
  | fuel, s =>
    if s.lbuf.state != TTY_STATE_NORMAL then
      match fuel with
      | 0 => .out_of_fuel
      | fuel + 1 =>
        if s.lbuf.state == TTY_STATE_WRITE_CR then
          let s := set_lbuf s (set_state (tty_insert_char s.lbuf 13 false) TTY_STATE_WRITE_LF)
          let s := tty_write_echo s 13 true
          if AVAILABLE_WRITE s.lbuf == 0 then .exit_loop s
          else tty_write_special_state fuel s
        else if s.lbuf.state == TTY_STATE_WRITE_LF then
          let s := set_lbuf s (set_state (tty_insert_char s.lbuf 10 true) TTY_STATE_NORMAL)
          let s := tty_write_echo s 10 true
          if AVAILABLE_WRITE s.lbuf == 0 then .exit_loop s
          else tty_write_special_state fuel s
        else .panic
    else .fallthrough s

/-- One byte `c` of the request in the loop `while(buf_pos < len)`, after `buf_pos` and
`bytes_written` were advanced: the two `switch` statements and the echo.  The result
`fallthrough` stands for `goto tty_write_special_state`, `exit_loop` for the end of the
loop body. -/
def tty_write_char (s : wstate) (c : Nat) : wexit :=
  if s.lbuf.flags &&& TTY_FLAG_CANON != 0 then
    if c == 10 && s.lbuf.flags &&& TTY_FLAG_NLCR != 0 then
      .fallthrough (set_lbuf s (set_state s.lbuf TTY_STATE_WRITE_CR))
    else if c == 8 then
      if s.lbuf.head != s.lbuf.line_start then
        .exit_loop (tty_write_echo (set_lbuf s (DEC_HEAD s.lbuf)) c true)
      else .exit_loop (tty_write_echo s c false)
    else if c == 13 || c == 0 then .exit_loop (tty_write_echo s c false)
    else
      .exit_loop (tty_write_echo (set_lbuf s (tty_insert_char s.lbuf c false)) c true)
  else
    if c == 10 && s.lbuf.flags &&& TTY_FLAG_NLCR != 0 then
      .fallthrough (set_lbuf s (set_state s.lbuf TTY_STATE_WRITE_CR))
    else
      .exit_loop (tty_write_echo (set_lbuf s (tty_insert_char s.lbuf c true)) c true)

/-- The loop `while(buf_pos < len)` of `tty_write`, with the jumps back to
`tty_write_special_state`.  `buf k` is the byte at offset `k` of the caller's buffer,
`none` when `user_memcpy` fails there. -/
def tty_write_regular (buf : Nat → Option Nat) (len : Int) : Nat → wstate → wexit
  | fuel, s =>
    if s.buf_pos < len then
      match fuel with
      | 0 => .out_of_fuel
      | fuel + 1 =>
        if AVAILABLE_WRITE s.lbuf == 0 then .exit_loop s
        else
          match buf s.buf_pos.toNat with
          | none => .fault s
          | some c =>
            match tty_write_char (advance s) c with
            | .exit_loop s => tty_write_regular buf len fuel s
            | .fallthrough s =>
              match tty_write_special_state 2 s with
              | .fallthrough s => tty_write_regular buf len fuel s
              | r => r
            | r => r
    else .exit_loop s

/-- The body of `tty_write` between `mutex_lock` and the label `exit_loop`. -/
def tty_write_locked (buf : Nat → Option Nat) (len : Int) (s : wstate) : wexit :=
  if !(decide (s.lbuf.len > 0) && decide (s.lbuf.head < s.lbuf.len)
        && decide (s.lbuf.tail < s.lbuf.len) && decide (s.lbuf.line_start < s.lbuf.len)) then
    .panic
  else if AVAILABLE_WRITE s.lbuf == 0 then .exit_loop s
  else
    match tty_write_special_state 2 s with
    | .fallthrough s => tty_write_regular buf len (len - s.buf_pos).toNat s
    | r => r

/-- The other write endpoint. -/
def other_endpoint (endpoint : Nat) : Nat :=
  if endpoint == ENDPOINT_MASTER_WRITE then ENDPOINT_SLAVE_WRITE else ENDPOINT_MASTER_WRITE

/-- Store the two buffers back into the terminal. -/
def wstate_store (tty : tty_desc) (endpoint : Nat) (s : wstate) : tty_desc :=
  set_buf (set_buf tty (other_endpoint endpoint) s.other_lbuf) endpoint s.lbuf

/-- The two buffers of the terminal, with the locals `buf_pos` and `bytes_written`. -/
def wstate_load (tty : tty_desc) (endpoint : Nat) (buf_pos bytes_written : Int) : wstate :=
  { lbuf := get_buf tty endpoint, other_lbuf := get_buf tty (other_endpoint endpoint),
    buf_pos := buf_pos, bytes_written := bytes_written }

/-- The statement at the label `exit_loop`: `if(AVAILABLE_WRITE(lbuf) > 0)
sem_release(lbuf->write_sem, 1);`. -/
def finish (s : wstate) : wstate :=
  if AVAILABLE_WRITE s.lbuf > 0 then set_lbuf s (release_write_sem s.lbuf) else s

/-- The function `tty_write` from the label `restart` on; `fuel` bounds the number of
passes through `restart`. -/
def tty_write_restart (buf : Nat → Option Nat) (len : Int) (endpoint : Nat) :
    Nat → tty_desc → Int → Int → List wait_event → outcome (Int × tty_desc)
  | 0, _, _, _, _ => .out_of_fuel
  | fuel + 1, tty, buf_pos, bytes_written, evs =>
    match sem_acquire_etc endpoint .write_sem tty evs with
    | .blocked tty => .blocked (bytes_written, tty)
    | .interrupted tty _ => .ret (ERR_SEM_INTERRUPTED, tty)
    | .acquired tty evs =>
      match tty_write_locked buf len (wstate_load tty endpoint buf_pos bytes_written) with
      | .panic => .panic
      | .out_of_fuel => .out_of_fuel
      | .fault s =>
        let s := set_lbuf s (release_write_sem s.lbuf)
        .ret (s.bytes_written, wstate_store tty endpoint s)
      | .fallthrough s => .ret (s.bytes_written, wstate_store tty endpoint s)
      | .exit_loop s =>
        let s := finish s
        if s.buf_pos < len then
          tty_write_restart buf len endpoint fuel (wstate_store tty endpoint s)
            s.buf_pos s.bytes_written evs
        else .ret (s.bytes_written, wstate_store tty endpoint s)

/-- The function `tty_write`. -/
def tty_write (fuel : Nat) (tty : tty_desc) (buf : Nat → Option Nat) (len : Int)
    (endpoint : Nat) (evs : List wait_event) : outcome (Int × tty_desc) :=
  if len < 0 then .ret (ERR_INVALID_ARGS, tty)
  else if len == 0 then .ret (0, tty)
  else if !(endpoint == ENDPOINT_MASTER_WRITE || endpoint == ENDPOINT_SLAVE_WRITE) then .panic
  else tty_write_restart buf len endpoint fuel tty 0 0 evs

/-- The caller's buffer holding the bytes `l` (every offset outside faults). -/
def user_bytes (l : List Nat) : Nat → Option Nat := fun k => l.get? k

/-- The pool invariant on one terminal: in use exactly when referenced. -/
def slot_ok (t : tty_desc) : Prop := t.inuse = true ↔ t.ref_count > 0

instance (t : tty_desc) : Decidable (slot_ok t) := by
  unfold slot_ok
  infer_instance

/-- The pool of `tty_dev_init` after its first `k` slots were allocated once each. -/
def pool_after (NUM_TTYS TTY_BUFFER_SIZE k : Nat) : tty_global :=
  { ttys := (List.range NUM_TTYS).map (fun i =>
      if i < k then { init_tty_desc TTY_BUFFER_SIZE i with inuse := true, ref_count := 1 }
      else init_tty_desc TTY_BUFFER_SIZE i) }

/-- Well-formed ring buffer: the sanity checks of `tty_read` and `tty_write` hold and the
storage has `len` cells. -/
def wf (l : line_buffer) : Prop :=
  0 < l.len ∧ l.head < l.len ∧ l.tail < l.len ∧ l.line_start < l.len ∧ l.buffer.length = l.len

instance (l : line_buffer) : Decidable (wf l) := by
  unfold wf
  infer_instance

/-- The cyclic distance from index `b` up to index `a` in a ring of `n` cells. -/
def cyc (a b n : Nat) : Nat := if b ≤ a then a - b else a + n - b

/-- The buffer `l` holds the bytes `data`, the last `k` of them forming the line still
open to erasure (`k` is the distance from `line_start` to `head`).  A `k` larger than
the content says that nothing is known about `line_start`. -/
def holds (l : line_buffer) (data : List Nat) (k : Nat) : Prop :=
  wf l ∧ readable l = data ∧ cyc l.head l.tail l.len = data.length ∧
    (k ≤ data.length → cyc l.head l.line_start l.len = k)

instance (l : line_buffer) (data : List Nat) (k : Nat) : Decidable (holds l data k) := by
  unfold holds
  infer_instance

/-- The echo of one inserted byte `c` as seen from the source buffer `l`: the opposite
buffer after the block `if(wrote_char) ...` of `tty_write`. -/
def echo_into (l o : line_buffer) (c : Nat) : line_buffer :=
  if l.flags &&& TTY_FLAG_ECHO != 0 then tty_insert_char o c true else o

/-- One byte of the request processed to the end of the loop body of `tty_write`,
the CR/LF pair of a translated newline included. -/
def wchar (s : wstate) (c : Nat) : wstate :=
  match tty_write_char (advance s) c with
  | .exit_loop s1 => s1
  | .fallthrough s1 =>
    match tty_write_special_state 2 s1 with
    | .fallthrough s2 => s2
    | .exit_loop s2 => s2
    | _ => s1
  | _ => s

/-- The number of slots a byte of the request can take: two for a translated newline,
one otherwise. -/
def cost (flags c : Nat) : Nat :=
  if c == 10 && flags &&& TTY_FLAG_NLCR != 0 then 2 else 1

/-- The number of slots a request can take. -/
def need (flags : Nat) (inp : List Nat) : Nat := (inp.map (cost flags)).sum

/-- The effect of one written byte on the content of a buffer: `st.1` is the readable
content, `st.2` the number of bytes of the line still open to erasure. -/
def line_edit (flags : Nat) (st : List Nat × Nat) (c : Nat) : List Nat × Nat :=
  if flags &&& TTY_FLAG_CANON != 0 then
    if c == 10 && flags &&& TTY_FLAG_NLCR != 0 then (st.1 ++ [13, 10], 0)
    else if c == 8 then
      if st.2 ≠ 0 then (st.1.dropLast, st.2 - 1) else st
    else if c == 13 || c == 0 then st
    else (st.1 ++ [c], st.2 + 1)
  else
    if c == 10 && flags &&& TTY_FLAG_NLCR != 0 then (st.1 ++ [13, 10], 0)
    else (st.1 ++ [c], 0)

/-- The source buffer holds `data` with `k` bytes open to erasure and no translation is
pending. -/
def settled (s : wstate) (data : List Nat) (k : Nat) : Prop :=
  holds s.lbuf data k ∧ s.lbuf.state = TTY_STATE_NORMAL

instance (s : wstate) (data : List Nat) (k : Nat) : Decidable (settled s data k) := by
  unfold settled
  infer_instance

/-- The bytes that processing the byte `c` of the request passes to the echo, when `k`
bytes of the line are open to erasure. -/
def echoed (flags k c : Nat) : List Nat :=
  if c == 10 && flags &&& TTY_FLAG_NLCR != 0 then [13, 10]
  else if flags &&& TTY_FLAG_CANON != 0 then
    if c == 8 then
      if k ≠ 0 then [8] else []
    else if c == 13 || c == 0 then []
    else [c]
  else [c]

/-- The bytes a request passes to the echo, in order; `st` is the content of the source
buffer and the number of bytes open to erasure when the request starts. -/
def echo_list (flags : Nat) : List Nat × Nat → List Nat → List Nat
  | _, [] => []
  | st, c :: rest => echoed flags st.2 c ++ echo_list flags (line_edit flags st c) rest


/-- An ordinary byte: none of `'\n'`, `'\r'`, NUL and backspace. -/
def ordinary (c : Nat) : Prop := c ≠ 10 ∧ c ≠ 13 ∧ c ≠ 0 ∧ c ≠ 8

instance (c : Nat) : Decidable (ordinary c) := by
  unfold ordinary
  infer_instance

/-- The terminal a call of `tty_write` returned with (`d` when it did not return). -/
def ret_tty (o : outcome (Int × tty_desc)) (d : tty_desc) : tty_desc :=
  match o with
  | .ret (_, t) => t
  | _ => d

/-- The state with which a part of `tty_write` reached `exit_loop` (`d` when it did
not). -/
def exit_state (r : wexit) (d : wstate) : wstate :=
  match r with
  | .exit_loop s => s
  | _ => d

/-- The terminal after set-flags with the pair `(p, q)`: the flags of the two buffers are
replaced, nothing else. -/
def with_flags (tty : tty_desc) (p q : Nat) : tty_desc :=
  { tty with buf0 := { tty.buf0 with flags := p }, buf1 := { tty.buf1 with flags := q } }

/-- A run of `tty_insert_char` calls, one per pair of a byte and the `move_line_start`
argument. -/
def insert_all (l : line_buffer) (cs : List (Nat × Bool)) : line_buffer :=
  cs.foldl (fun b x => tty_insert_char b x.1 x.2) l

/-- The terminal a call of `tty_read` returned with (`d` when it did not return). -/
def ret_tty_read (o : outcome (Int × tty_desc × List Nat)) (d : tty_desc) : tty_desc :=
  match o with
  | .ret (_, t, _) => t
  | _ => d

/-- The bytes that the byte `c` of a request puts into the written buffer, a backspace
apart: `'\r'` and `'\n'` for a translated newline, nothing for the bytes that canonical
mode eats, the byte itself otherwise. -/
def translate_char (flags c : Nat) : List Nat :=
  if c == 10 && flags &&& TTY_FLAG_NLCR != 0 then [13, 10]
  else if flags &&& TTY_FLAG_CANON != 0 && (c == 13 || c == 0) then []
  else [c]

/-- The bytes that a request without backspace puts into the written buffer, in order. -/
def translate (flags : Nat) : List Nat → List Nat
  | [] => []
  | c :: cs => translate_char flags c ++ translate flags cs

/-- The bytes of a CR/LF pair that are still to be inserted in translation state `st`. -/
def pending (st : Nat) : List Nat :=
  if st == TTY_STATE_WRITE_CR then [13, 10]
  else if st == TTY_STATE_WRITE_LF then [10]
  else []

/-- A thread that runs while the writer waits: one `tty_read` of up to `m` bytes from
`buf[endpoint]`, with a succeeding user copy. -/
def reader (endpoint m : Nat) : wait_event :=
  .wake (fun t => ret_tty_read (tty_read t (fun _ _ => true) (m : Int) endpoint []) t)

/-- The buffer `l` holds the bytes `data`, whatever its `line_start`, and a reader finds
a permit on the data-available gate when it is not empty. -/
def queued (l : line_buffer) (data : List Nat) : Prop :=
  holds l data (data.length + 1) ∧ (data ≠ [] → 0 < l.read_sem)

instance (l : line_buffer) (data : List Nat) : Decidable (queued l data) := by
  unfold queued
  infer_instance

/-- The number of bytes that readers asking for `ms` bytes take, one after the other,
from a buffer of capacity `C` that is full each time. -/
def drained (C : Nat) (ms : List Nat) : Nat := (ms.map (fun m => min m (C - 1))).sum

/-! # Theorems -/

/-! ## Pool: lemmas -/


theorem wrap_int_id (x : Int) (h1 : INT_MIN ≤ x) (h2 : x ≤ INT_MAX) : wrap_int x = x := by
  unfold wrap_int
  unfold INT_MIN at h1
  unfold INT_MAX at h2
  omega

theorem wrap_int_succ (x : Int) : wrap_int (wrap_int x + 1) = wrap_int (x + 1) := by
  unfold wrap_int
  omega

theorem wrap_int_pred (x : Int) : wrap_int (wrap_int x - 1) = wrap_int (x - 1) := by
  unfold wrap_int
  omega

theorem wrap_int_eq_zero (x : Int) (h1 : 0 ≤ x) (h2 : x < 4294967296) :
    wrap_int x = 0 ↔ x = 0 := by
  unfold wrap_int
  omega

theorem inc_tty_ref_count (t : tty_desc) :
    (inc_tty_ref t).ref_count = wrap_int (t.ref_count + 1) := by
  unfold inc_tty_ref
  dsimp only
  split <;> rfl

theorem dec_tty_ref_count (t : tty_desc) :
    (dec_tty_ref t).ref_count = wrap_int (t.ref_count - 1) := by
  unfold dec_tty_ref
  dsimp only
  split <;> rfl

theorem inc_tty_ref_inuse (t : tty_desc) :
    (inc_tty_ref t).inuse = (wrap_int (t.ref_count + 1) == 1 || t.inuse) := by
  unfold inc_tty_ref
  dsimp only
  split
  · rename_i h
    simp only [h, Bool.true_or]
  · rename_i h
    simp only [h, Bool.false_or]

theorem dec_tty_ref_inuse (t : tty_desc) :
    (dec_tty_ref t).inuse = (!(wrap_int (t.ref_count - 1) == 0) && t.inuse) := by
  unfold dec_tty_ref
  dsimp only
  split
  · rename_i h
    simp only [h, Bool.not_true, Bool.false_and]
  · rename_i h
    simp only [h, Bool.not_false, Bool.true_and]

/-- Without overflow `inc_tty_ref` keeps the invariant and the range. -/
theorem inc_tty_ref_ok (t : tty_desc) (h : slot_ok t) (h1 : INT_MIN ≤ t.ref_count)
    (h2 : t.ref_count < INT_MAX) :
    slot_ok (inc_tty_ref t) ∧ (inc_tty_ref t).ref_count = t.ref_count + 1 := by
  have hw : wrap_int (t.ref_count + 1) = t.ref_count + 1 :=
    wrap_int_id _ (by omega) (by omega)
  unfold slot_ok at *
  rw [inc_tty_ref_count, inc_tty_ref_inuse, hw]
  refine ⟨?_, rfl⟩
  simp only [Bool.or_eq_true, beq_iff_eq, h]
  omega

/-- Without overflow `dec_tty_ref` keeps the invariant and the range. -/
theorem dec_tty_ref_ok (t : tty_desc) (h : slot_ok t) (h1 : INT_MIN < t.ref_count)
    (h2 : t.ref_count ≤ INT_MAX) :
    slot_ok (dec_tty_ref t) ∧ (dec_tty_ref t).ref_count = t.ref_count - 1 := by
  have hw : wrap_int (t.ref_count - 1) = t.ref_count - 1 :=
    wrap_int_id _ (by omega) (by omega)
  unfold slot_ok at *
  rw [dec_tty_ref_count, dec_tty_ref_inuse, hw]
  refine ⟨?_, rfl⟩
  simp only [Bool.and_eq_true, Bool.not_eq_true', beq_eq_false_iff_ne, ne_eq, h]
  omega

/-- After `n` calls of `inc_tty_ref` on a free terminal the count is `n` as an `int` and
the terminal is in use as soon as `n > 0`. -/
theorem iterate_inc (n : Nat) (t : tty_desc) (hcount : t.ref_count = 0)
    (hfree : t.inuse = false) :
    (Nat.iterate inc_tty_ref n t).ref_count = wrap_int n ∧
    ((Nat.iterate inc_tty_ref n t).inuse = true ↔ 0 < n) := by
  induction n with
  | zero =>
    refine ⟨?_, ?_⟩
    · rw [Function.iterate_zero, id_eq, hcount]
      decide
    · simp [hfree]
  | succ n ih =>
    rw [Function.iterate_succ_apply', inc_tty_ref_count, inc_tty_ref_inuse, ih.1, wrap_int_succ]
    refine ⟨by push_cast; rfl, ?_⟩
    simp only [Bool.or_eq_true, beq_iff_eq, ih.2, Nat.zero_lt_succ, iff_true]
    rcases Nat.eq_zero_or_pos n with h | h
    · left
      rw [h]
      decide
    · exact Or.inr h

/-- From a count `m < 2^32` (as an `int`), `k <= m` calls of `dec_tty_ref` leave the
terminal in use exactly when `k < m`. -/
theorem iterate_dec (k : Nat) : ∀ (t : tty_desc) (m : Nat), t.ref_count = wrap_int m →
    (t.inuse = true ↔ 0 < m) → k ≤ m → m < 4294967296 →
    (Nat.iterate dec_tty_ref k t).ref_count = wrap_int ((m : Int) - k) ∧
    ((Nat.iterate dec_tty_ref k t).inuse = true ↔ k < m) := by
  induction k with
  | zero =>
    intro t m hm hin _ _
    simp only [Function.iterate_zero, id_eq, hm, Nat.cast_zero, sub_zero, hin, and_self]
  | succ k ih =>
    intro t m hm hin hk hlt
    rw [Function.iterate_succ_apply]
    have hc : (dec_tty_ref t).ref_count = wrap_int ((m - 1 : Nat) : Int) := by
      rw [dec_tty_ref_count, hm, wrap_int_pred]
      congr 1
      omega
    have hz : wrap_int ((m : Int) - 1) = 0 ↔ (m : Int) - 1 = 0 :=
      wrap_int_eq_zero _ (by omega) (by omega)
    have hi : (dec_tty_ref t).inuse = true ↔ 0 < m - 1 := by
      rw [dec_tty_ref_inuse, hm, wrap_int_pred]
      simp only [Bool.and_eq_true, Bool.not_eq_true', beq_eq_false_iff_ne, ne_eq, hz, hin]
      omega
    obtain ⟨r1, r2⟩ := ih (dec_tty_ref t) (m - 1) hc hi (by omega) (by omega)
    refine ⟨?_, ?_⟩
    · rw [r1]
      congr 1
      push_cast
      omega
    · rw [r2]
      omega

theorem slot_ok_init (C i : Nat) : slot_ok (init_tty_desc C i) := by
  simp [slot_ok, init_tty_desc]

theorem on_slot_pres (P : tty_desc → Prop) (f : tty_desc → tty_desc) (g : tty_global)
    (i : Nat) (hf : ∀ t, g.ttys.get? i = some t → P t → P (f t))
    (hg : ∀ t ∈ g.ttys, P t) :
    ∀ t ∈ (on_slot f g i).ttys, P t := by
  unfold on_slot
  split
  · exact hg
  · rename_i u hu
    intro t ht
    rcases List.mem_or_eq_of_mem_set ht with h | h
    · exact hg t h
    · rw [h]
      exact hf u hu (hg u (List.get?_mem hu))

theorem allocate_loop_pres (P : tty_desc → Prop)
    (hP : ∀ t : tty_desc, P { t with inuse := true, ref_count := 1 })
    (g : tty_global) (hg : ∀ t ∈ g.ttys, P t) (n i : Nat)
    (r : Option Nat) (g1 : tty_global) (h : allocate_loop g n i = .ret (r, g1)) :
    ∀ t ∈ g1.ttys, P t := by
  induction n generalizing i with
  | zero =>
    simp only [allocate_loop, outcome.ret.injEq, Prod.mk.injEq] at h
    rw [← h.2]
    exact hg
  | succ n ih =>
    unfold allocate_loop at h
    split at h
    · exact absurd h (by simp)
    · rename_i u hu
      split at h
      · split at h
        · simp only [outcome.ret.injEq, Prod.mk.injEq] at h
          rw [← h.2]
          intro t ht
          rcases List.mem_or_eq_of_mem_set ht with h1 | h1
          · exact hg t h1
          · rw [h1]
            exact hP u
        · exact absurd h (by simp)
      · exact ih (i + 1) h

/-- The invariant together with the range of `int`. -/
theorem pool_step_ok (g g1 : tty_global) (c : pool_call)
    (hg : ∀ t ∈ g.ttys, slot_ok t ∧ INT_MIN ≤ t.ref_count ∧ t.ref_count ≤ INT_MAX)
    (hr : call_in_range g c = true) (h : pool_step g c = some g1) :
    ∀ t ∈ g1.ttys, slot_ok t ∧ INT_MIN ≤ t.ref_count ∧ t.ref_count ≤ INT_MAX := by
  cases c with
  | allocate =>
    simp only [pool_step] at h
    split at h
    · rename_i r g2 h2
      simp only [Option.some.injEq] at h
      rw [← h]
      exact allocate_loop_pres _
        (fun t => ⟨by simp [slot_ok], by simp only [INT_MIN]; omega,
          by simp only [INT_MAX]; omega⟩) g hg _ _ _ _ h2
    · exact absurd h (by simp)
  | inc i =>
    simp only [pool_step, Option.some.injEq] at h
    rw [← h]
    refine on_slot_pres _ _ g i ?_ hg
    intro t ht ⟨p1, p2, p3⟩
    simp only [call_in_range, ht, bne_iff_ne, ne_eq] at hr
    obtain ⟨q1, q2⟩ := inc_tty_ref_ok t p1 p2 (lt_of_le_of_ne p3 hr)
    refine ⟨q1, ?_, ?_⟩
    · rw [q2]; omega
    · rw [q2]
      have := lt_of_le_of_ne p3 hr
      omega
  | dec i =>
    simp only [pool_step, Option.some.injEq] at h
    rw [← h]
    refine on_slot_pres _ _ g i ?_ hg
    intro t ht ⟨p1, p2, p3⟩
    simp only [call_in_range, ht, bne_iff_ne, ne_eq] at hr
    obtain ⟨q1, q2⟩ := dec_tty_ref_ok t p1 (lt_of_le_of_ne p2 (Ne.symm hr)) p3
    refine ⟨q1, ?_, ?_⟩
    · rw [q2]
      have := lt_of_le_of_ne p2 (Ne.symm hr)
      omega
    · rw [q2]; omega

theorem pool_run_ok (calls : List pool_call) (g g1 : tty_global)
    (hg : ∀ t ∈ g.ttys, slot_ok t ∧ INT_MIN ≤ t.ref_count ∧ t.ref_count ≤ INT_MAX)
    (hr : run_in_range g calls = true) (h : pool_run g calls = some g1) :
    ∀ t ∈ g1.ttys, slot_ok t ∧ INT_MIN ≤ t.ref_count ∧ t.ref_count ≤ INT_MAX := by
  induction calls generalizing g with
  | nil =>
    simp only [pool_run, Option.some.injEq] at h
    rw [← h]
    exact hg
  | cons c cs ih =>
    simp only [pool_run] at h
    simp only [run_in_range, Bool.and_eq_true] at hr
    split at h
    · exact absurd h (by simp)
    · rename_i g2 h2
      rw [h2] at hr
      exact ih g2 (pool_step_ok g g2 c hg hr.1 h2) hr.2 h

/-- A sequence of calls that is too short to reach the ends of the range of `int`
overflows nowhere: after `m` calls every count lies between `-m` and `m`. -/
theorem short_run_in_range (calls : List pool_call) : ∀ (g : tty_global) (m : Nat),
    (∀ t ∈ g.ttys, -(m : Int) ≤ t.ref_count ∧ t.ref_count ≤ (m : Int)) →
    m + calls.length < 2147483648 → run_in_range g calls = true := by
  induction calls with
  | nil => intro _ _ _ _; rfl
  | cons c cs ih =>
    intro g m hg hlen
    simp only [List.length_cons] at hlen
    simp only [run_in_range, Bool.and_eq_true]
    constructor
    · cases c with
      | allocate => rfl
      | inc i =>
        simp only [call_in_range]
        split
        · rfl
        · rename_i t ht
          have := hg t (List.get?_mem ht)
          simp only [bne_iff_ne, ne_eq, INT_MAX]
          omega
      | dec i =>
        simp only [call_in_range]
        split
        · rfl
        · rename_i t ht
          have := hg t (List.get?_mem ht)
          simp only [bne_iff_ne, ne_eq, INT_MIN]
          omega
    · split
      · rfl
      · rename_i g1 h1
        refine ih g1 (m + 1) ?_ (by omega)
        cases c with
        | allocate =>
          simp only [pool_step] at h1
          split at h1
          · rename_i r g2 h2
            simp only [Option.some.injEq] at h1
            rw [← h1]
            refine allocate_loop_pres
              (fun t => -((m + 1 : Nat) : Int) ≤ t.ref_count ∧ t.ref_count ≤ ((m + 1 : Nat) : Int))
              (fun t => ⟨by simp only; omega, by simp only; omega⟩) g ?_ _ _ _ _ h2
            intro t ht
            have := hg t ht
            constructor <;> omega
          · exact absurd h1 (by simp)
        | inc i =>
          simp only [pool_step, Option.some.injEq] at h1
          rw [← h1]
          refine on_slot_pres
            (fun t => -((m + 1 : Nat) : Int) ≤ t.ref_count ∧ t.ref_count ≤ ((m + 1 : Nat) : Int))
            _ g i ?_ ?_
          · intro t ht _
            have := hg t (List.get?_mem ht)
            simp only [inc_tty_ref_count]
            rw [wrap_int_id _ (by simp only [INT_MIN]; omega) (by simp only [INT_MAX]; omega)]
            constructor <;> omega
          · intro t ht
            have := hg t ht
            constructor <;> omega
        | dec i =>
          simp only [pool_step, Option.some.injEq] at h1
          rw [← h1]
          refine on_slot_pres
            (fun t => -((m + 1 : Nat) : Int) ≤ t.ref_count ∧ t.ref_count ≤ ((m + 1 : Nat) : Int))
            _ g i ?_ ?_
          · intro t ht _
            have := hg t (List.get?_mem ht)
            simp only [dec_tty_ref_count]
            rw [wrap_int_id _ (by simp only [INT_MIN]; omega) (by simp only [INT_MAX]; omega)]
            constructor <;> omega
          · intro t ht
            have := hg t ht
            constructor <;> omega

theorem tty_dev_init_ok (N C : Nat) : ∀ t ∈ (tty_dev_init N C).ttys,
    slot_ok t ∧ t.ref_count = 0 := by
  intro t ht
  simp only [tty_dev_init, List.mem_map] at ht
  obtain ⟨i, _, hi⟩ := ht
  rw [← hi]
  exact ⟨slot_ok_init C i, rfl⟩

/-- The pool of one terminal under `n` calls of `inc_tty_ref` in a row. -/
theorem pool_run_inc (n : Nat) : ∀ t : tty_desc,
    pool_run { ttys := [t] } (List.replicate n (pool_call.inc 0))
      = some { ttys := [Nat.iterate inc_tty_ref n t] } := by
  induction n with
  | zero => intro t; rfl
  | succ n ih =>
    intro t
    rw [List.replicate_succ, Function.iterate_succ_apply]
    show pool_run { ttys := [inc_tty_ref t] } (List.replicate n (pool_call.inc 0)) = _
    exact ih (inc_tty_ref t)

/-- C2 as stated fails: the count is an `int` of 32 bits; after `2^32 + 5` calls of
`inc_tty_ref` on a free terminal it is 5 again, and 5 calls of `dec_tty_ref`, fewer than
the references taken, leave `inuse == false`. -/
theorem ref_count_balance_wraps :
    (5 : Nat) < 4294967301 ∧
    (Nat.iterate dec_tty_ref 5 (Nat.iterate inc_tty_ref 4294967301 (init_tty_desc 8 0))).inuse
      = false := by
  refine ⟨by decide, ?_⟩
  obtain ⟨h1, h2⟩ := iterate_inc 4294967301 (init_tty_desc 8 0) rfl rfl
  have h3 := (iterate_dec 5 _ 5 (h1.trans (by decide)) (by rw [h2]; decide)
    (Nat.le_refl 5) (by decide)).2
  cases h4 : (Nat.iterate dec_tty_ref 5
      (Nat.iterate inc_tty_ref 4294967301 (init_tty_desc 8 0))).inuse
  · rfl
  · exact absurd (h3.mp h4) (by decide)

/-- C2 (amended): starting from a free terminal (`ref_count == 0`, `inuse == false`), `n`
calls of `inc_tty_ref` with `n` below `2^32` (the count is an `int` of 32 bits; every
`n >= 1` up to `INT_MAX` is covered) followed by `k <= n` calls of `dec_tty_ref` leave
`inuse == false` exactly when `k == n`, and `inuse == true` exactly when `k < n`. -/
theorem ref_count_balance (tty : tty_desc) (n k : Nat)
    (hcount : tty.ref_count = 0) (hfree : tty.inuse = false) (hk : k ≤ n)
    (hn : n < 4294967296) :
    ((Nat.iterate dec_tty_ref k (Nat.iterate inc_tty_ref n tty)).inuse = false ↔ k = n) ∧
    ((Nat.iterate dec_tty_ref k (Nat.iterate inc_tty_ref n tty)).inuse = true ↔ k < n) := by
  obtain ⟨h1, h2⟩ := iterate_inc n tty hcount hfree
  have h3 := (iterate_dec k _ n h1 h2 hk hn).2
  refine ⟨?_, h3⟩
  constructor
  · intro h4
    rcases Nat.lt_or_ge k n with h5 | h5
    · rw [h3.mpr h5] at h4
      exact absurd h4 (by simp)
    · omega
  · intro h4
    cases h5 : (Nat.iterate dec_tty_ref k (Nat.iterate inc_tty_ref n tty)).inuse
    · rfl
    · have := h3.mp h5
      omega

/-- C2 at the spec's figures: three references taken and three released free the
terminal, three taken and two released keep it in use. -/
theorem ref_count_balance_witness :
    (Nat.iterate dec_tty_ref 3 (Nat.iterate inc_tty_ref 3 (init_tty_desc 8 0))).inuse = false ∧
    (Nat.iterate dec_tty_ref 2 (Nat.iterate inc_tty_ref 3 (init_tty_desc 8 0))).inuse = true :=
  ⟨(ref_count_balance (init_tty_desc 8 0) 3 3 rfl rfl (by decide) (by decide)).1.mpr rfl,
   (ref_count_balance (init_tty_desc 8 0) 3 2 rfl rfl (by decide) (by decide)).2.mpr
    (by decide)⟩

/-- C3 as stated fails: on the pool of one terminal, `2^31` calls of `inc_tty_ref` on
slot 0 take the count of 32 bits from `INT_MAX` to `INT_MIN`; the terminal is in use and
its `ref_count` is not above 0. -/
theorem pool_invariant_wraps :
    ∃ g t, pool_run (tty_dev_init 1 8) (List.replicate 2147483648 (pool_call.inc 0)) = some g ∧
      g.ttys = [t] ∧ t.inuse = true ∧ t.ref_count = -2147483648 ∧
      ¬ (t.inuse = true ↔ t.ref_count > 0) := by
  obtain ⟨h1, h2⟩ := iterate_inc 2147483648 (init_tty_desc 8 0) rfl rfl
  have h3 : (Nat.iterate inc_tty_ref 2147483648 (init_tty_desc 8 0)).ref_count
      = -2147483648 := h1.trans (by decide)
  have h4 : (Nat.iterate inc_tty_ref 2147483648 (init_tty_desc 8 0)).inuse = true :=
    h2.mpr (by decide)
  refine ⟨_, _, pool_run_inc 2147483648 (init_tty_desc 8 0), rfl, h4, h3, ?_⟩
  rw [h3, h4]
  decide

/-- C3 (amended): in every pool state reached from the initial state of `tty_dev_init` by
a sequence of `allocate_new_tty`, `inc_tty_ref` and `dec_tty_ref` calls, on any slots and
in any order, in which no call overflows the `int` count (no `inc_tty_ref` at `INT_MAX`,
no `dec_tty_ref` at `INT_MIN`; every sequence of fewer than `2^31` calls is such), every
terminal has `inuse == true` if and only if `ref_count > 0`. -/
theorem pool_invariant (NUM_TTYS TTY_BUFFER_SIZE : Nat) (calls : List pool_call)
    (g : tty_global)
    (h : pool_run (tty_dev_init NUM_TTYS TTY_BUFFER_SIZE) calls = some g)
    (hr : run_in_range (tty_dev_init NUM_TTYS TTY_BUFFER_SIZE) calls = true
      ∨ calls.length < 2147483648) :
    ∀ t ∈ g.ttys, (t.inuse = true ↔ t.ref_count > 0) := by
  have hr1 : run_in_range (tty_dev_init NUM_TTYS TTY_BUFFER_SIZE) calls = true := by
    rcases hr with hr | hr
    · exact hr
    · refine short_run_in_range calls _ 0 ?_ (by omega)
      intro t ht
      have := (tty_dev_init_ok NUM_TTYS TTY_BUFFER_SIZE t ht).2
      constructor <;> omega
  intro t ht
  refine (pool_run_ok calls _ g ?_ hr1 h t ht).1
  intro u hu
  obtain ⟨p1, p2⟩ := tty_dev_init_ok NUM_TTYS TTY_BUFFER_SIZE u hu
  refine ⟨p1, ?_, ?_⟩
  · rw [p2]; decide
  · rw [p2]; decide

/-- C3 on a pool of two terminals after a mixed sequence of calls. -/
theorem pool_invariant_witness :
    ∃ g, pool_run (tty_dev_init 2 4)
        [.allocate, .inc 0, .allocate, .dec 1, .dec 0, .dec 0, .inc 1, .dec 1, .dec 1] = some g ∧
      g.ttys.map (fun t => (t.inuse, t.ref_count)) = [(false, 0), (false, -1)] ∧
      ∀ t ∈ g.ttys, (t.inuse = true ↔ t.ref_count > 0) :=
  ⟨_, rfl, by decide,
    pool_invariant 2 4
      [.allocate, .inc 0, .allocate, .dec 1, .dec 0, .dec 0, .inc 1, .dec 1, .dec 1] _ rfl
      (Or.inl (by decide))⟩

theorem allocate_loop_found (g : tty_global) (k : Nat) (t : tty_desc) :
    ∀ (n i : Nat), k < n → g.ttys.get? (i + k) = some t → t.inuse = false →
      (∀ j u, j < k → g.ttys.get? (i + j) = some u → u.inuse = true) →
      allocate_loop g n i
        = if t.ref_count = 0 then
            .ret (some (i + k),
              { g with ttys := g.ttys.set (i + k) { t with inuse := true, ref_count := 1 } })
          else .panic := by
  induction k with
  | zero =>
    intro n i hn ht hfree _
    obtain ⟨m, rfl⟩ : ∃ m, n = m + 1 := ⟨n - 1, by omega⟩
    simp only [Nat.add_zero] at ht ⊢
    unfold allocate_loop
    simp only [ht]
    simp [hfree]
  | succ k ih =>
    intro n i hn ht hfree hused
    obtain ⟨m, rfl⟩ : ∃ m, n = m + 1 := ⟨n - 1, by omega⟩
    have hlen : i + (k + 1) < g.ttys.length := by
      rcases Nat.lt_or_ge (i + (k + 1)) g.ttys.length with h | h
      · exact h
      · rw [List.get?_eq_none.mpr h] at ht
        exact absurd ht (by simp)
    have hi : i < g.ttys.length := by omega
    obtain ⟨u, hu⟩ : ∃ u, g.ttys.get? i = some u := ⟨g.ttys.get ⟨i, hi⟩, List.get?_eq_get hi⟩
    have hu1 : u.inuse = true := hused 0 u (by omega) (by simpa using hu)
    have e : i + (k + 1) = (i + 1) + k := by omega
    unfold allocate_loop
    simp only [hu, hu1]
    rw [e] at ht ⊢
    simp only [Bool.true_eq_false, beq_iff_eq, if_false]
    apply ih m (i + 1) (by omega) ht hfree
    intro j v hj hv
    have e2 : i + 1 + j = i + (j + 1) := by omega
    rw [e2] at hv
    exact hused (j + 1) v (by omega) hv

theorem allocate_loop_null (g : tty_global) :
    ∀ (n i : Nat) (g1 : tty_global),
      (allocate_loop g n i = .ret (none, g1) ↔
        (g1 = g ∧ ∀ j, j < n → ∃ u, g.ttys.get? (i + j) = some u ∧ u.inuse = true)) := by
  intro n
  induction n with
  | zero =>
    intro i g1
    simp only [allocate_loop, outcome.ret.injEq, Prod.mk.injEq, true_and]
    constructor
    · intro h
      exact ⟨h.symm, fun j hj => absurd hj (by omega)⟩
    · intro h
      exact h.1.symm
  | succ n ih =>
    intro i g1
    unfold allocate_loop
    constructor
    · intro h
      split at h
      · exact absurd h (by simp)
      · rename_i u hu
        split at h
        · split at h <;> exact absurd h (by simp)
        · rename_i hin
          have hin1 : u.inuse = true := by simpa using hin
          obtain ⟨h1, h2⟩ := (ih (i + 1) g1).mp h
          refine ⟨h1, ?_⟩
          intro j hj
          cases j with
          | zero => exact ⟨u, by simpa using hu, hin1⟩
          | succ j =>
            obtain ⟨v, hv, hv1⟩ := h2 j (by omega)
            have e2 : i + 1 + j = i + (j + 1) := by omega
            rw [e2] at hv
            exact ⟨v, hv, hv1⟩
    · rintro ⟨h1, h2⟩
      obtain ⟨u, hu, hu1⟩ := h2 0 (by omega)
      simp only [Nat.add_zero] at hu
      simp only [hu, hu1, Bool.true_eq_false, beq_iff_eq, if_false]
      apply (ih (i + 1) g1).mpr
      refine ⟨h1, ?_⟩
      intro j hj
      obtain ⟨v, hv, hv1⟩ := h2 (j + 1) (by omega)
      have e2 : i + 1 + j = i + (j + 1) := by omega
      rw [e2]
      exact ⟨v, hv, hv1⟩

theorem allocate_new_tty_null (g g1 : tty_global) :
    allocate_new_tty g = .ret (none, g1) ↔ (g1 = g ∧ ∀ t ∈ g.ttys, t.inuse = true) := by
  unfold allocate_new_tty
  rw [allocate_loop_null]
  constructor
  · rintro ⟨h1, h2⟩
    refine ⟨h1, ?_⟩
    intro t ht
    obtain ⟨j, hj⟩ := List.mem_iff_get?.mp ht
    have hlen : j < g.ttys.length := by
      rcases Nat.lt_or_ge j g.ttys.length with h | h
      · exact h
      · rw [List.get?_eq_none.mpr h] at hj
        exact absurd hj (by simp)
    obtain ⟨u, hu, hu1⟩ := h2 j hlen
    simp only [Nat.zero_add] at hu
    rw [hj] at hu
    cases hu
    exact hu1
  · rintro ⟨h1, h2⟩
    refine ⟨h1, ?_⟩
    intro j hj
    refine ⟨g.ttys.get ⟨j, hj⟩, ?_, h2 _ (List.get_mem _ _ _)⟩
    simp only [Nat.zero_add]
    exact List.get?_eq_get hj

theorem allocate_new_tty_lowest (g : tty_global) (i : Nat) (t : tty_desc)
    (ht : g.ttys.get? i = some t) (hfree : t.inuse = false)
    (hused : ∀ j u, j < i → g.ttys.get? j = some u → u.inuse = true) :
    allocate_new_tty g
      = if t.ref_count = 0 then
          .ret (some i, { ttys := g.ttys.set i { t with inuse := true, ref_count := 1 } })
        else .panic := by
  have hlen : i < g.ttys.length := by
    rcases Nat.lt_or_ge i g.ttys.length with h | h
    · exact h
    · rw [List.get?_eq_none.mpr h] at ht
      exact absurd ht (by simp)
  have := allocate_loop_found g i t g.ttys.length 0 hlen (by simpa using ht) hfree
    (by
      intro j u hj hu
      simp only [Nat.zero_add] at hu
      exact hused j u hj hu)
  simpa [allocate_new_tty] using this

theorem allocate_new_tty_found (g : tty_global) (i : Nat) (t : tty_desc)
    (ht : g.ttys.get? i = some t) (hfree : t.inuse = false) (hcount : t.ref_count = 0)
    (hused : ∀ j u, j < i → g.ttys.get? j = some u → u.inuse = true) :
    allocate_new_tty g
      = .ret (some i, { ttys := g.ttys.set i { t with inuse := true, ref_count := 1 } }) := by
  rw [allocate_new_tty_lowest g i t ht hfree hused, if_pos hcount]

theorem pool_after_zero (N C : Nat) : pool_after N C 0 = tty_dev_init N C := by
  simp [pool_after, tty_dev_init]

theorem pool_after_get (N C k i : Nat) (hi : i < N) :
    (pool_after N C k).ttys.get? i
      = some (if i < k then { init_tty_desc C i with inuse := true, ref_count := 1 }
              else init_tty_desc C i) := by
  simp [pool_after, List.getElem?_range hi, hi]

theorem pool_after_length (N C k : Nat) : (pool_after N C k).ttys.length = N := by
  simp [pool_after]

theorem pool_after_alloc (N C k : Nat) (hk : k < N) :
    allocate_new_tty (pool_after N C k) = .ret (some k, pool_after N C (k + 1)) := by
  have h1 := allocate_new_tty_found (pool_after N C k) k (init_tty_desc C k)
    (by rw [pool_after_get N C k k hk]; simp) rfl rfl
    (by
      intro j u hj hu
      rw [pool_after_get N C k j (by omega)] at hu
      simp only [hj, if_true, Option.some.injEq] at hu
      rw [← hu])
  rw [h1]
  congr 2
  have : ∀ a b : tty_global, a.ttys = b.ttys → a = b := by
    intro a b h
    cases a; cases b; simp_all
  apply this
  apply List.ext_get?
  intro m
  simp only [List.get?_eq_getElem?, List.getElem?_set]
  split
  · rename_i hkm
    subst hkm
    simp [pool_after, List.getElem?_range hk, hk]
  · rename_i hkm
    rcases Nat.lt_or_ge m N with hm | hm
    · have e1 := pool_after_get N C k m hm
      have e2 := pool_after_get N C (k + 1) m hm
      simp only [List.get?_eq_getElem?] at e1 e2
      rw [e1, e2]
      have : (m < k) ↔ (m < k + 1) := by omega
      simp only [this]
    · rw [List.getElem?_eq_none (by rw [pool_after_length]; exact hm),
        List.getElem?_eq_none (by rw [pool_after_length]; exact hm)]

theorem allocate_many_fresh (N C : Nat) : ∀ (m k : Nat), k + m ≤ N →
    allocate_many m (pool_after N C k)
      = .ret ((List.range' k m).map some, pool_after N C (k + m)) := by
  intro m
  induction m with
  | zero =>
    intro k _
    simp [allocate_many]
  | succ m ih =>
    intro k hk
    unfold allocate_many
    rw [pool_after_alloc N C k (by omega)]
    simp only
    rw [ih (k + 1) (by omega)]
    simp only [List.range'_succ, List.map_cons]
    have : k + 1 + m = k + (m + 1) := by omega
    rw [this]

theorem pool_after_full (N C : Nat) :
    allocate_new_tty (pool_after N C N) = .ret (none, pool_after N C N) := by
  rw [allocate_new_tty_null]
  refine ⟨rfl, ?_⟩
  intro t ht
  simp only [pool_after, List.mem_map, List.mem_range] at ht
  obtain ⟨i, hi, rfl⟩ := ht
  simp [hi]

theorem pool_after_release (N C j : Nat) (hj : j < N) :
    allocate_new_tty (on_slot dec_tty_ref (pool_after N C N) j)
      = .ret (some j, pool_after N C N) := by
  have hg : (pool_after N C N).ttys.get? j
      = some { init_tty_desc C j with inuse := true, ref_count := 1 } := by
    rw [pool_after_get N C N j hj]; simp [hj]
  have hlen : j < (pool_after N C N).ttys.length := by rw [pool_after_length]; exact hj
  have hs : on_slot dec_tty_ref (pool_after N C N) j
      = { ttys := (pool_after N C N).ttys.set j (init_tty_desc C j) } := by
    have w0 : wrap_int 0 = 0 := by decide
    unfold on_slot
    rw [hg]
    simp [dec_tty_ref, init_tty_desc, w0]
  rw [hs]
  have h1 := allocate_new_tty_found
    { ttys := (pool_after N C N).ttys.set j (init_tty_desc C j) } j (init_tty_desc C j)
    (by simp only [List.get?_eq_getElem?, List.getElem?_set]; simp [hlen]) rfl rfl
    (by
      intro i u hi hu
      simp only [List.get?_eq_getElem?] at hu
      rw [List.getElem?_set_ne (by omega)] at hu
      have e := pool_after_get N C N i (by omega)
      simp only [List.get?_eq_getElem?] at e
      rw [e] at hu
      simp only [show i < N by omega, if_true, Option.some.injEq] at hu
      rw [← hu])
  rw [h1]
  congr 2
  have : ∀ a b : tty_global, a.ttys = b.ttys → a = b := by
    intro a b h
    cases a; cases b; simp_all
  apply this
  simp only [List.set_set]
  apply List.ext_get?
  intro m
  simp only [List.get?_eq_getElem?, List.getElem?_set]
  split
  · rename_i hjm
    subst hjm
    simp only [List.get?_eq_getElem?] at hg
    rw [hg]
  · rfl
/-- C1 as stated fails: after `dec_tty_ref` on a free terminal its slot has
`inuse == false` with `ref_count == -1`; it is the lowest free slot, and
`allocate_new_tty` does not return it: `ASSERT(ref_count == 0)` halts the system. -/
theorem allocate_new_tty_stale_count :
    ¬ (∀ (g : tty_global) (i : Nat) (t : tty_desc), g.ttys.get? i = some t →
        t.inuse = false → (∀ j u, j < i → g.ttys.get? j = some u → u.inuse = true) →
        allocate_new_tty g
          = .ret (some i,
              { ttys := g.ttys.set i { t with inuse := true, ref_count := 1 } })) := by
  intro h
  have h1 := h (on_slot dec_tty_ref (tty_dev_init 2 4) 0) 0
    { init_tty_desc 4 0 with ref_count := -1 } rfl rfl (fun j u hj _ => absurd hj (by omega))
  have h2 : allocate_new_tty (on_slot dec_tty_ref (tty_dev_init 2 4) 0) = .panic := rfl
  rw [h2] at h1
  exact absurd h1 (by simp)

/-- C1 (amended): for every pool state, if the lowest-index slot with `inuse == false` has
`ref_count == 0`, `allocate_new_tty` returns that slot after setting its `inuse` to true
and its `ref_count` to 1, every other slot unchanged (with another `ref_count` the
assertion halts the system); it returns `NULL` exactly when all `NUM_TTYS` slots are in
use, and then the pool is unchanged.  After `NUM_TTYS` allocations from the fresh pool,
which return the slots in order, the next one returns `NULL`; after one slot is
released the next allocation returns that slot with `ref_count == 1`. -/
theorem allocate_new_tty_contract (g : tty_global) (NUM_TTYS TTY_BUFFER_SIZE : Nat) :
    (∀ i t, g.ttys.get? i = some t → t.inuse = false →
        (∀ j u, j < i → g.ttys.get? j = some u → u.inuse = true) →
        allocate_new_tty g
          = if t.ref_count = 0 then
              .ret (some i, { ttys := g.ttys.set i { t with inuse := true, ref_count := 1 } })
            else .panic) ∧
    (∀ g1, allocate_new_tty g = .ret (none, g1) ↔ (g1 = g ∧ ∀ t ∈ g.ttys, t.inuse = true)) ∧
    (∃ gfull,
      allocate_many NUM_TTYS (tty_dev_init NUM_TTYS TTY_BUFFER_SIZE)
        = .ret ((List.range NUM_TTYS).map some, gfull) ∧
      allocate_new_tty gfull = .ret (none, gfull) ∧
      ∀ j, j < NUM_TTYS →
        ∃ g2 t, allocate_new_tty (on_slot dec_tty_ref gfull j) = .ret (some j, g2) ∧
          g2.ttys.get? j = some t ∧ t.ref_count = 1 ∧ t.inuse = true) := by
  refine ⟨fun i t ht hfree hused => allocate_new_tty_lowest g i t ht hfree hused,
    fun g1 => allocate_new_tty_null g g1, pool_after NUM_TTYS TTY_BUFFER_SIZE NUM_TTYS, ?_,
    pool_after_full NUM_TTYS TTY_BUFFER_SIZE, ?_⟩
  · have h := allocate_many_fresh NUM_TTYS TTY_BUFFER_SIZE NUM_TTYS 0 (by omega)
    rw [pool_after_zero, Nat.zero_add] at h
    rw [h, List.range_eq_range']
  · intro j hj
    refine ⟨_, _, pool_after_release NUM_TTYS TTY_BUFFER_SIZE j hj,
      pool_after_get NUM_TTYS TTY_BUFFER_SIZE NUM_TTYS j hj, ?_⟩
    simp [hj]

/-- C1 on a pool of three terminals: slot 0 is in use, slot 1 is the lowest free one
and is the one returned. -/
theorem allocate_new_tty_contract_witness :
    allocate_new_tty (pool_after 3 4 1)
      = .ret (some 1,
          { ttys := (pool_after 3 4 1).ttys.set 1
              { init_tty_desc 4 1 with inuse := true, ref_count := 1 } }) :=
  (allocate_new_tty_contract (pool_after 3 4 1) 3 4).1 1 (init_tty_desc 4 1) rfl rfl
    (fun j u hj hu => by
      have e : j = 0 := by omega
      subst e
      have e2 : u = { init_tty_desc 4 0 with inuse := true, ref_count := 1 } :=
        (Option.some.inj hu).symm
      rw [e2])

/-! ## Ring buffer: lemmas -/

theorem emod_cyc (a b n : Nat) (ha : a < n) (hb : b < n) :
    ((a : Int) - (b : Int)) % (n : Int) = (cyc a b n : Int) := by
  unfold cyc
  split
  · rename_i h
    rw [Int.emod_eq_of_lt (by omega) (by omega)]
    omega
  · rename_i h
    rw [← Int.add_emod_self, Int.emod_eq_of_lt (by omega) (by omega)]
    omega

theorem AVAILABLE_READ_eq (l : line_buffer) (h : wf l) :
    AVAILABLE_READ l = (cyc l.head l.tail l.len : Int) :=
  emod_cyc _ _ _ h.2.1 h.2.2.1

theorem AVAILABLE_WRITE_eq (l : line_buffer) (h : wf l) :
    AVAILABLE_WRITE l = (l.len : Int) - 1 - (cyc l.head l.tail l.len : Int) := by
  unfold AVAILABLE_WRITE
  rw [AVAILABLE_READ_eq l h]

theorem cyc_lt (a b n : Nat) (ha : a < n) (hb : b < n) : cyc a b n < n := by
  unfold cyc
  split <;> omega

theorem succ_mod (a n : Nat) (ha : a < n) :
    (a + 1) % n = if a + 1 = n then 0 else a + 1 := by
  split
  · rename_i h
    rw [h, Nat.mod_self]
  · exact Nat.mod_eq_of_lt (by omega)

theorem add_mod_cases (a k n : Nat) (ha : a < n) (hk : k < n) :
    (a + k) % n = if a + k < n then a + k else a + k - n := by
  split
  · rename_i h
    exact Nat.mod_eq_of_lt h
  · rename_i h
    rw [Nat.mod_eq_sub_mod (by omega), Nat.mod_eq_of_lt (by omega)]

theorem pred_mod (a n : Nat) (ha : a < n) :
    (((a : Int) - 1) % (n : Int)).toNat = if a = 0 then n - 1 else a - 1 := by
  split
  · rename_i h0
    subst h0
    have h1 : ((0 : Nat) : Int) - 1 = -1 := by omega
    rw [h1, ← Int.add_emod_self, Int.emod_eq_of_lt (by omega) (by omega)]
    omega
  · rename_i h0
    rw [Int.emod_eq_of_lt (by omega) (by omega)]
    omega

theorem getD_set (l : List Nat) (i j c : Nat) (hi : i < l.length) :
    (l.set i c).getD j 0 = if i = j then c else l.getD j 0 := by
  simp only [List.getD_eq_getElem?_getD, List.getElem?_set]
  split
  · simp [hi]
  · rfl

theorem readable_eq (l : line_buffer) (h : wf l) :
    readable l = (List.range (cyc l.head l.tail l.len)).map
      (fun k => l.buffer.getD ((l.tail + k) % l.len) 0) := by
  unfold readable
  rw [AVAILABLE_READ_eq l h]
  rfl

theorem cyc_index_ne (h t n k : Nat) (hh : h < n) (ht : t < n) (hk : k < cyc h t n) :
    (t + k) % n ≠ h := by
  have hc := cyc_lt h t n hh ht
  rw [add_mod_cases t k n ht (by omega)]
  unfold cyc at hk
  split at hk <;> split <;> omega

theorem cyc_index_eq (h t n : Nat) (hh : h < n) (ht : t < n) :
    (t + cyc h t n) % n = h := by
  have hc := cyc_lt h t n hh ht
  rw [add_mod_cases t _ n ht hc]
  unfold cyc
  split <;> split <;> omega

@[simp] theorem insert_head (l : line_buffer) (c : Nat) (m : Bool) :
    (tty_insert_char l c m).head = (l.head + 1) % l.len := by
  unfold tty_insert_char INC_HEAD
  dsimp only
  split <;> split <;> rfl

@[simp] theorem insert_tail (l : line_buffer) (c : Nat) (m : Bool) :
    (tty_insert_char l c m).tail = l.tail := by
  unfold tty_insert_char INC_HEAD
  dsimp only
  split <;> split <;> rfl

@[simp] theorem insert_len (l : line_buffer) (c : Nat) (m : Bool) :
    (tty_insert_char l c m).len = l.len := by
  unfold tty_insert_char INC_HEAD
  dsimp only
  split <;> split <;> rfl

@[simp] theorem insert_flags (l : line_buffer) (c : Nat) (m : Bool) :
    (tty_insert_char l c m).flags = l.flags := by
  unfold tty_insert_char INC_HEAD
  dsimp only
  split <;> split <;> rfl

@[simp] theorem insert_state (l : line_buffer) (c : Nat) (m : Bool) :
    (tty_insert_char l c m).state = l.state := by
  unfold tty_insert_char INC_HEAD
  dsimp only
  split <;> split <;> rfl

@[simp] theorem insert_write_sem (l : line_buffer) (c : Nat) (m : Bool) :
    (tty_insert_char l c m).write_sem = l.write_sem := by
  unfold tty_insert_char INC_HEAD
  dsimp only
  split <;> split <;> rfl

@[simp] theorem insert_buffer (l : line_buffer) (c : Nat) (m : Bool) :
    (tty_insert_char l c m).buffer = l.buffer.set l.head c := by
  unfold tty_insert_char INC_HEAD
  dsimp only
  split <;> split <;> rfl

@[simp] theorem insert_line_start (l : line_buffer) (c : Nat) (m : Bool) :
    (tty_insert_char l c m).line_start
      = if m = true then (l.head + 1) % l.len else l.line_start := by
  unfold tty_insert_char INC_HEAD
  dsimp only
  split <;> split <;> rfl

theorem insert_wf (l : line_buffer) (c : Nat) (m : Bool) (h : wf l) :
    wf (tty_insert_char l c m) := by
  obtain ⟨h1, h2, h3, h4, h5⟩ := h
  have hm : (l.head + 1) % l.len < l.len := Nat.mod_lt _ h1
  refine ⟨by simpa using h1, by simpa using hm, by simpa using h3, ?_, by simpa using h5⟩
  rw [insert_line_start, insert_len]
  split
  · exact hm
  · exact h4

theorem insert_cyc (l : line_buffer) (c : Nat) (m : Bool) (h : wf l)
    (hroom : cyc l.head l.tail l.len + 1 < l.len) :
    cyc (tty_insert_char l c m).head (tty_insert_char l c m).tail (tty_insert_char l c m).len
      = cyc l.head l.tail l.len + 1 := by
  obtain ⟨h1, h2, h3, h4, h5⟩ := h
  simp only [insert_head, insert_tail, insert_len]
  rw [succ_mod _ _ h2]
  unfold cyc at *
  split at hroom <;> split <;> split <;> omega

theorem insert_readable (l : line_buffer) (c : Nat) (m : Bool) (h : wf l)
    (hroom : cyc l.head l.tail l.len + 1 < l.len) :
    readable (tty_insert_char l c m) = readable l ++ [c] := by
  rw [readable_eq _ (insert_wf l c m h), insert_cyc l c m h hroom, readable_eq l h]
  obtain ⟨h1, h2, h3, h4, h5⟩ := h
  simp only [insert_tail, insert_len, insert_buffer]
  rw [List.range_succ, List.map_append]
  congr 1
  · apply List.map_congr_left
    intro k hk
    rw [getD_set _ _ _ _ (by omega)]
    have := cyc_index_ne l.head l.tail l.len k h2 h3 (List.mem_range.mp hk)
    rw [if_neg (fun e => this e.symm)]
  · simp only [List.map_cons, List.map_nil]
    rw [cyc_index_eq _ _ _ h2 h3, getD_set _ _ _ _ (by omega)]
    simp

theorem insert_holds (l : line_buffer) (c : Nat) (m : Bool) (data : List Nat) (k : Nat)
    (h : holds l data k) (hroom : data.length + 1 < l.len) :
    holds (tty_insert_char l c m) (data ++ [c]) (if m = true then 0 else k + 1) := by
  obtain ⟨hw, hr, hc, hk⟩ := h
  have hroom1 : cyc l.head l.tail l.len + 1 < l.len := by omega
  refine ⟨insert_wf l c m hw, ?_, ?_, ?_⟩
  · rw [insert_readable l c m hw hroom1, hr]
  · rw [insert_cyc l c m hw hroom1, hc]
    simp
  · obtain ⟨h1, h2, h3, h4, h5⟩ := hw
    simp only [insert_head, insert_line_start, insert_len, List.length_append,
      List.length_singleton]
    rw [succ_mod _ _ h2]
    split
    · intro _
      unfold cyc
      split <;> split <;> omega
    · intro hle
      have hk1 := hk (by omega)
      unfold cyc at *
      split at hk1 <;> split at hc <;> split <;> split <;> omega

@[simp] theorem dec_head_tail (l : line_buffer) : (DEC_HEAD l).tail = l.tail := rfl
@[simp] theorem dec_head_len (l : line_buffer) : (DEC_HEAD l).len = l.len := rfl
@[simp] theorem dec_head_flags (l : line_buffer) : (DEC_HEAD l).flags = l.flags := rfl
@[simp] theorem dec_head_state (l : line_buffer) : (DEC_HEAD l).state = l.state := rfl
@[simp] theorem dec_head_write_sem (l : line_buffer) :
    (DEC_HEAD l).write_sem = l.write_sem := rfl
@[simp] theorem dec_head_buffer (l : line_buffer) : (DEC_HEAD l).buffer = l.buffer := rfl
@[simp] theorem dec_head_line_start (l : line_buffer) :
    (DEC_HEAD l).line_start = l.line_start := rfl

theorem dec_head_head (l : line_buffer) (h : wf l) :
    (DEC_HEAD l).head = if l.head = 0 then l.len - 1 else l.head - 1 := by
  unfold DEC_HEAD
  exact pred_mod l.head l.len h.2.1

theorem dec_head_holds (l : line_buffer) (data : List Nat) (k : Nat)
    (h : holds l data k) (hk0 : k ≠ 0) (hle : k ≤ data.length) :
    holds (DEC_HEAD l) data.dropLast (k - 1) := by
  obtain ⟨hw, hr, hc, hk⟩ := h
  have hk := hk hle
  have hw0 := hw
  obtain ⟨h1, h2, h3, h4, h5⟩ := hw
  have hh := dec_head_head l hw0
  have hw1 : wf (DEC_HEAD l) := by
    refine ⟨h1, ?_, h3, h4, h5⟩
    rw [hh, dec_head_len]
    split <;> omega
  have hc1 : cyc (DEC_HEAD l).head (DEC_HEAD l).tail (DEC_HEAD l).len
      = cyc l.head l.tail l.len - 1 := by
    rw [hh, dec_head_tail, dec_head_len]
    unfold cyc at *
    split at hk <;> split at hc <;> split <;> split <;> omega
  refine ⟨hw1, ?_, ?_, ?_⟩
  · rw [readable_eq _ hw1, hc1, ← hr, readable_eq l hw0]
    simp only [dec_head_tail, dec_head_len, dec_head_buffer]
    obtain ⟨n, hn⟩ : ∃ n, cyc l.head l.tail l.len = n + 1 := ⟨data.length - 1, by omega⟩
    rw [hn, List.range_succ, List.map_append]
    simp
  · rw [hc1, hc]
    simp
  · intro _
    rw [hh, dec_head_line_start, dec_head_len]
    unfold cyc at *
    split at hk <;> split at hc <;> split <;> split <;> omega

/-! ## Write: lemmas -/

@[simp] theorem set_state_state (l : line_buffer) (st : Nat) : (set_state l st).state = st := rfl
@[simp] theorem set_state_flags (l : line_buffer) (st : Nat) :
    (set_state l st).flags = l.flags := rfl
@[simp] theorem set_state_len (l : line_buffer) (st : Nat) : (set_state l st).len = l.len := rfl
@[simp] theorem set_state_head (l : line_buffer) (st : Nat) :
    (set_state l st).head = l.head := rfl
@[simp] theorem set_state_tail (l : line_buffer) (st : Nat) :
    (set_state l st).tail = l.tail := rfl
@[simp] theorem set_state_line_start (l : line_buffer) (st : Nat) :
    (set_state l st).line_start = l.line_start := rfl
@[simp] theorem set_state_write_sem (l : line_buffer) (st : Nat) :
    (set_state l st).write_sem = l.write_sem := rfl
@[simp] theorem set_state_avail (l : line_buffer) (st : Nat) :
    AVAILABLE_WRITE (set_state l st) = AVAILABLE_WRITE l := rfl
@[simp] theorem set_state_readable (l : line_buffer) (st : Nat) :
    readable (set_state l st) = readable l := rfl
theorem set_state_holds (l : line_buffer) (st : Nat) (data : List Nat) (k : Nat)
    (h : holds l data k) : holds (set_state l st) data k := h

@[simp] theorem set_lbuf_lbuf (s : wstate) (l : line_buffer) : (set_lbuf s l).lbuf = l := rfl
@[simp] theorem set_lbuf_other (s : wstate) (l : line_buffer) :
    (set_lbuf s l).other_lbuf = s.other_lbuf := rfl
@[simp] theorem set_lbuf_buf_pos (s : wstate) (l : line_buffer) :
    (set_lbuf s l).buf_pos = s.buf_pos := rfl
@[simp] theorem set_lbuf_bytes_written (s : wstate) (l : line_buffer) :
    (set_lbuf s l).bytes_written = s.bytes_written := rfl
@[simp] theorem set_other_lbuf (s : wstate) (o : line_buffer) : (set_other s o).lbuf = s.lbuf := rfl
@[simp] theorem set_other_other (s : wstate) (o : line_buffer) :
    (set_other s o).other_lbuf = o := rfl
@[simp] theorem set_other_buf_pos (s : wstate) (o : line_buffer) :
    (set_other s o).buf_pos = s.buf_pos := rfl
@[simp] theorem set_other_bytes_written (s : wstate) (o : line_buffer) :
    (set_other s o).bytes_written = s.bytes_written := rfl
@[simp] theorem advance_lbuf (s : wstate) : (advance s).lbuf = s.lbuf := rfl
@[simp] theorem advance_other (s : wstate) : (advance s).other_lbuf = s.other_lbuf := rfl
@[simp] theorem advance_buf_pos (s : wstate) : (advance s).buf_pos = s.buf_pos + 1 := rfl
@[simp] theorem advance_bytes_written (s : wstate) :
    (advance s).bytes_written = s.bytes_written + 1 := rfl

@[simp] theorem set_state_avail_read (l : line_buffer) (st : Nat) :
    AVAILABLE_READ (set_state l st) = AVAILABLE_READ l := rfl
@[simp] theorem set_state_read_sem (l : line_buffer) (st : Nat) :
    (set_state l st).read_sem = l.read_sem := rfl
@[simp] theorem set_state_buffer (l : line_buffer) (st : Nat) :
    (set_state l st).buffer = l.buffer := rfl

theorem insert_read_sem (l : line_buffer) (c : Nat) (m : Bool) :
    (tty_insert_char l c m).read_sem
      = if (AVAILABLE_READ l == 0 && decide (AVAILABLE_READ (INC_HEAD l) > 0)) = true
        then l.read_sem + 1 else l.read_sem := by
  unfold tty_insert_char
  dsimp only
  cases m
  · simp only [Bool.false_eq_true, if_false]
    split
    · rename_i h
      have h1 : (AVAILABLE_READ l == 0 && decide (AVAILABLE_READ (INC_HEAD l) > 0)) = true := h
      rw [if_pos h1]
      rfl
    · rename_i h
      have h1 : ¬ (AVAILABLE_READ l == 0 && decide (AVAILABLE_READ (INC_HEAD l) > 0)) = true := h
      rw [if_neg h1]
      rfl
  · simp only [if_true]
    split
    · rename_i h
      have h1 : (AVAILABLE_READ l == 0 && decide (AVAILABLE_READ (INC_HEAD l) > 0)) = true := h
      rw [if_pos h1]
      rfl
    · rename_i h
      have h1 : ¬ (AVAILABLE_READ l == 0 && decide (AVAILABLE_READ (INC_HEAD l) > 0)) = true := h
      rw [if_neg h1]
      rfl

theorem insert_set_state (l : line_buffer) (c st : Nat) (m : Bool) :
    tty_insert_char (set_state l st) c m = set_state (tty_insert_char l c m) st := by
  apply line_buffer.ext
  · simp
  · simp
  · simp
  · simp
  · simp only [insert_read_sem, set_state_read_sem, set_state_avail_read]
    rfl
  · simp
  · simp
  · simp
  · simp

theorem set_state_twice (l : line_buffer) (a b : Nat) :
    set_state (set_state l a) b = set_state l b := rfl

theorem echo_eq (s : wstate) (c : Nat) :
    tty_write_echo s c true = set_other s (echo_into s.lbuf s.other_lbuf c) := by
  unfold tty_write_echo echo_into
  simp only [if_true]
  split <;> rfl

theorem echo_false (s : wstate) (c : Nat) : tty_write_echo s c false = s := by
  simp [tty_write_echo]

theorem echo_into_flags (l1 l2 o : line_buffer) (c : Nat) (h : l1.flags = l2.flags) :
    echo_into l1 o c = echo_into l2 o c := by
  unfold echo_into
  rw [h]

theorem AVAILABLE_WRITE_zero_iff (l : line_buffer) (data : List Nat) (k : Nat)
    (h : holds l data k) : (AVAILABLE_WRITE l == 0) = decide (data.length + 1 = l.len) := by
  obtain ⟨hw, _, hc, _⟩ := h
  rw [AVAILABLE_WRITE_eq l hw, hc]
  have := hw.1
  by_cases e : data.length + 1 = l.len
  · simp only [e, decide_True, beq_iff_eq]
    omega
  · simp only [e, decide_False, beq_eq_false_iff_ne, ne_eq]
    omega

theorem special_normal (n : Nat) (s : wstate) (h : s.lbuf.state = TTY_STATE_NORMAL) :
    tty_write_special_state n s = .fallthrough s := by
  unfold tty_write_special_state
  simp [h]

/-- The state after the CR/LF pair of a translated newline. -/
theorem special_lf (n : Nat) (s : wstate) (data : List Nat) (k : Nat) (h : holds s.lbuf data k)
    (hst : s.lbuf.state = TTY_STATE_WRITE_LF) (hroom : data.length + 1 < s.lbuf.len) :
    ∃ s2, (tty_write_special_state (n + 1) s = .fallthrough s2 ∨
            (tty_write_special_state (n + 1) s = .exit_loop s2 ∧
              data.length + 2 = s.lbuf.len)) ∧
      s2 = set_other (set_lbuf s (set_state (tty_insert_char s.lbuf 10 true) TTY_STATE_NORMAL))
            (echo_into s.lbuf s.other_lbuf 10) := by
  have h2 := insert_holds s.lbuf 10 true data k h hroom
  have a2 := AVAILABLE_WRITE_zero_iff _ _ _ h2
  simp only [List.length_append, List.length_singleton, insert_len] at a2
  refine ⟨_, ?_, rfl⟩
  unfold tty_write_special_state
  simp only [hst, TTY_STATE_WRITE_LF, TTY_STATE_WRITE_CR, TTY_STATE_NORMAL, bne_iff_ne, ne_eq,
    OfNat.ofNat_ne_zero, not_false_eq_true, if_true, echo_eq, beq_self_eq_true,
    OfNat.ofNat_ne_one, beq_iff_eq, if_false, set_lbuf_lbuf, set_lbuf_other, set_other_lbuf,
    set_state_avail, a2, decide_eq_true_eq]
  have ef : echo_into (set_state (tty_insert_char s.lbuf 10 true) 0) s.other_lbuf 10
      = echo_into s.lbuf s.other_lbuf 10 := echo_into_flags _ _ _ _ (by simp)
  rw [ef]
  by_cases e2 : data.length + 1 + 1 = s.lbuf.len
  · refine Or.inr ⟨?_, by omega⟩
    simp only [e2, if_true]
  · left
    simp only [e2, if_false]
    rw [special_normal _ _ rfl]
theorem special_cr (s : wstate) (data : List Nat) (k : Nat) (h : holds s.lbuf data k)
    (hst : s.lbuf.state = TTY_STATE_WRITE_CR) (hroom : data.length + 2 < s.lbuf.len) :
    ∃ s2, (tty_write_special_state 2 s = .fallthrough s2 ∨
            (tty_write_special_state 2 s = .exit_loop s2 ∧
              data.length + 3 = s.lbuf.len)) ∧
      s2 = set_other
            (set_lbuf s (set_state
              (tty_insert_char (tty_insert_char s.lbuf 13 false) 10 true) TTY_STATE_NORMAL))
            (echo_into s.lbuf (echo_into s.lbuf s.other_lbuf 13) 10) := by
  have h1 := insert_holds s.lbuf 13 false data k h (by omega)
  have a1 := AVAILABLE_WRITE_zero_iff _ _ _ h1
  simp only [List.length_append, List.length_singleton, insert_len] at a1
  have e1 : ¬ (data.length + 1 + 1 = s.lbuf.len) := by omega
  simp only [e1, decide_False] at a1
  obtain ⟨s2, hs2, hs2e⟩ := special_lf 0
    (set_other (set_lbuf s (set_state (tty_insert_char s.lbuf 13 false) TTY_STATE_WRITE_LF))
      (echo_into s.lbuf s.other_lbuf 13))
    (data ++ [13]) _ (set_state_holds _ TTY_STATE_WRITE_LF _ _ h1) rfl
    (by simp only [List.length_append, List.length_singleton, set_other_lbuf, set_lbuf_lbuf,
          set_state_len, insert_len]; omega)
  have ef : echo_into (set_state (tty_insert_char s.lbuf 13 false) TTY_STATE_WRITE_LF)
      s.other_lbuf 13 = echo_into s.lbuf s.other_lbuf 13 := echo_into_flags _ _ _ _ (by simp)
  have ef2 : ∀ o, echo_into (set_state (tty_insert_char s.lbuf 13 false) TTY_STATE_WRITE_LF)
      o 10 = echo_into s.lbuf o 10 := fun o => echo_into_flags _ _ _ _ (by simp)
  have step : tty_write_special_state 2 s = tty_write_special_state 1
      (set_other (set_lbuf s (set_state (tty_insert_char s.lbuf 13 false) TTY_STATE_WRITE_LF))
        (echo_into s.lbuf s.other_lbuf 13)) := by
    conv => lhs; unfold tty_write_special_state
    simp only [hst, TTY_STATE_WRITE_CR, TTY_STATE_NORMAL, bne_iff_ne, ne_eq, one_ne_zero,
      not_false_eq_true, if_true, beq_self_eq_true, echo_eq, set_lbuf_lbuf, set_lbuf_other,
      set_other_lbuf, set_state_avail, a1, Bool.false_eq_true, if_false]
    rw [ef]
  refine ⟨s2, ?_, ?_⟩
  · rw [step]
    simp only [List.length_append, List.length_singleton, set_other_lbuf, set_lbuf_lbuf,
      set_state_len, insert_len] at hs2
    rcases hs2 with h3 | ⟨h3, h4⟩
    · exact Or.inl h3
    · exact Or.inr ⟨h3, by omega⟩
  · rw [hs2e]
    simp only [set_other_lbuf, set_lbuf_lbuf, set_other_other, ef2, insert_set_state,
      set_state_twice]
    rfl

theorem cyc_eq_zero (a b n : Nat) (_ : a < n) (hb : b < n) : cyc a b n = 0 ↔ a = b := by
  unfold cyc
  split <;> omega

theorem echo_lbuf (s : wstate) (c : Nat) (w : Bool) : (tty_write_echo s c w).lbuf = s.lbuf := by
  cases w
  · rw [echo_false]
  · rw [echo_eq]; rfl

theorem echo_buf_pos (s : wstate) (c : Nat) (w : Bool) :
    (tty_write_echo s c w).buf_pos = s.buf_pos := by
  cases w
  · rw [echo_false]
  · rw [echo_eq]; rfl

theorem echo_bytes_written (s : wstate) (c : Nat) (w : Bool) :
    (tty_write_echo s c w).bytes_written = s.bytes_written := by
  cases w
  · rw [echo_false]
  · rw [echo_eq]; rfl

/-- What one byte of the request does when the buffer has room for it. -/
theorem char_step (s : wstate) (c : Nat) (data : List Nat) (k : Nat)
    (h : settled s data k) (hroom : data.length + cost s.lbuf.flags c < s.lbuf.len)
    (hv : k ≤ data.length ∨ c ≠ 8) :
    settled (wchar s c) (line_edit s.lbuf.flags (data, k) c).1
        (line_edit s.lbuf.flags (data, k) c).2 ∧
      (wchar s c).lbuf.flags = s.lbuf.flags ∧ (wchar s c).lbuf.len = s.lbuf.len ∧
      (wchar s c).lbuf.write_sem = s.lbuf.write_sem ∧
      (wchar s c).buf_pos = s.buf_pos + 1 ∧
      (wchar s c).bytes_written = s.bytes_written + 1 ∧
      (line_edit s.lbuf.flags (data, k) c).1.length ≤ data.length + cost s.lbuf.flags c ∧
      (k ≤ data.length →
        (line_edit s.lbuf.flags (data, k) c).2 ≤ (line_edit s.lbuf.flags (data, k) c).1.length) ∧
      (wchar s c).other_lbuf
        = (echoed s.lbuf.flags k c).foldl (echo_into s.lbuf) s.other_lbuf ∧
      (tty_write_char (advance s) c = .exit_loop (wchar s c) ∨
        (∃ s1, tty_write_char (advance s) c = .fallthrough s1 ∧
          (tty_write_special_state 2 s1 = .fallthrough (wchar s c) ∨
            (tty_write_special_state 2 s1 = .exit_loop (wchar s c) ∧
              (line_edit s.lbuf.flags (data, k) c).1.length + 1 = s.lbuf.len)))) := by
  obtain ⟨hh, hst⟩ := h
  by_cases hnl : (c == 10 && s.lbuf.flags &&& TTY_FLAG_NLCR != 0) = true
  · -- translated newline
    have hcost : cost s.lbuf.flags c = 2 := by simp only [cost, hnl, if_true]
    rw [hcost] at hroom
    have hchar : tty_write_char (advance s) c
        = .fallthrough (set_lbuf (advance s) (set_state s.lbuf TTY_STATE_WRITE_CR)) := by
      unfold tty_write_char
      simp only [advance_lbuf, hnl, if_true, ite_self]
    obtain ⟨s2, hs2, hs2e⟩ := special_cr
      (set_lbuf (advance s) (set_state s.lbuf TTY_STATE_WRITE_CR)) data k
      (set_state_holds _ _ _ _ hh) rfl (by simpa using hroom)
    have hw : wchar s c = s2 := by
      unfold wchar
      rw [hchar]
      rcases hs2 with h3 | ⟨h3, _⟩ <;> simp only [h3]
    have hedit : line_edit s.lbuf.flags (data, k) c = (data ++ [13, 10], 0) := by
      unfold line_edit
      simp only [hnl, if_true, ite_self]
    have h1 := insert_holds s.lbuf 13 false data k hh (by omega)
    have h2 := insert_holds (tty_insert_char s.lbuf 13 false) 10 true _ _ h1
      (by simp only [List.length_append, List.length_singleton, insert_len]; omega)
    simp only [Bool.false_eq_true, if_false, if_true, List.append_assoc,
      List.singleton_append] at h2
    have hecho : echoed s.lbuf.flags k c = [13, 10] := by
      unfold echoed
      rw [if_pos hnl]
    rw [hw, hedit, hs2e, hecho]
    simp only [set_other_lbuf, set_lbuf_lbuf, set_state_flags, insert_flags, set_state_len,
      insert_len, set_state_write_sem, insert_write_sem, set_other_buf_pos, set_lbuf_buf_pos,
      advance_buf_pos, set_other_bytes_written, set_lbuf_bytes_written, advance_bytes_written,
      insert_set_state, set_state_twice, advance_lbuf, hcost]
    refine ⟨⟨set_state_holds _ _ _ _ h2, rfl⟩, trivial, trivial, trivial, trivial, trivial,
      by simp, fun _ => by simp, ?_, Or.inr ⟨_, hchar, ?_⟩⟩
    · simp only [set_other_other, set_lbuf_other, advance_other, List.foldl_cons,
        List.foldl_nil]
      rw [echo_into_flags (set_state s.lbuf TTY_STATE_WRITE_CR) s.lbuf _ 13 rfl,
        echo_into_flags (set_state s.lbuf TTY_STATE_WRITE_CR) s.lbuf _ 10 rfl]
    rw [hs2e] at hs2
    simp only [set_lbuf_lbuf, set_state_len, insert_set_state, set_state_twice,
      List.length_append, List.length_cons, List.length_nil, advance_lbuf] at hs2 ⊢
    rcases hs2 with h3 | ⟨h3, h4⟩
    · exact Or.inl h3
    · exact Or.inr ⟨h3, by omega⟩
  · have hcost : cost s.lbuf.flags c = 1 := by
      unfold cost
      rw [if_neg hnl]
    rw [hcost] at hroom
    have hnl' : (c == 10 && s.lbuf.flags &&& TTY_FLAG_NLCR != 0) = false := by
      simpa using hnl
    by_cases hcanon : (s.lbuf.flags &&& TTY_FLAG_CANON != 0) = true
    · by_cases hbs : (c == 8) = true
      · by_cases hne : (s.lbuf.head != s.lbuf.line_start) = true
        · -- backspace that erases
          have hc8 : c = 8 := by simpa using hbs
          have hkle : k ≤ data.length := by
            rcases hv with h0 | h0
            · exact h0
            · exact absurd hc8 h0
          have hk0 : k ≠ 0 := by
            obtain ⟨hw, _, _, hk⟩ := hh
            have hk := hk hkle
            intro e
            rw [e] at hk
            have := (cyc_eq_zero _ _ _ hw.2.1 hw.2.2.2.1).mp hk
            simp [this] at hne
          have hchar : tty_write_char (advance s) c
              = .exit_loop (tty_write_echo (set_lbuf (advance s) (DEC_HEAD s.lbuf)) c true) := by
            unfold tty_write_char
            simp only [advance_lbuf, hnl', hcanon, hbs, hne, if_true, Bool.false_eq_true, if_false]
          have hw : wchar s c = tty_write_echo (set_lbuf (advance s) (DEC_HEAD s.lbuf)) c true := by
            unfold wchar
            rw [hchar]
          have hedit : line_edit s.lbuf.flags (data, k) c = (data.dropLast, k - 1) := by
            unfold line_edit
            simp only [hnl', hcanon, hbs, if_true, Bool.false_eq_true, if_false, ne_eq, hk0,
              not_false_eq_true]
          have hecho : echoed s.lbuf.flags k c = [8] := by
            unfold echoed
            simp only [hnl', hcanon, hbs, if_true, Bool.false_eq_true, if_false, ne_eq, hk0,
              not_false_eq_true]
          rw [hw, hedit, hecho]
          simp only [echo_lbuf, echo_buf_pos, echo_bytes_written, set_lbuf_lbuf, dec_head_flags,
            dec_head_len, dec_head_write_sem, set_lbuf_buf_pos, advance_buf_pos,
            set_lbuf_bytes_written, advance_bytes_written, hcost]
          refine ⟨⟨?_, ?_⟩, trivial, trivial, trivial, trivial, trivial,
            by simp only [List.length_dropLast]; omega,
            fun _ => by simp only [List.length_dropLast]; omega, ?_, Or.inl hchar⟩
          · rw [echo_lbuf, set_lbuf_lbuf]
            exact dec_head_holds _ _ _ hh hk0 hkle
          · rw [echo_lbuf, set_lbuf_lbuf, dec_head_state, hst]
          · rw [echo_eq, hc8]
            simp only [set_other_other, set_lbuf_lbuf, set_lbuf_other, advance_other,
              List.foldl_cons, List.foldl_nil]
            exact echo_into_flags _ _ _ _ rfl
        · -- backspace at the start of the line
          have hc8 : c = 8 := by simpa using hbs
          have hkle : k ≤ data.length := by
            rcases hv with h0 | h0
            · exact h0
            · exact absurd hc8 h0
          have hk0 : k = 0 := by
            obtain ⟨hw, _, _, hk⟩ := hh
            have hk := hk hkle
            have e : s.lbuf.head = s.lbuf.line_start := by simpa using hne
            rw [← hk]
            exact (cyc_eq_zero _ _ _ hw.2.1 hw.2.2.2.1).mpr e
          have hne' : (s.lbuf.head != s.lbuf.line_start) = false := by simpa using hne
          have hchar : tty_write_char (advance s) c
              = .exit_loop (tty_write_echo (advance s) c false) := by
            unfold tty_write_char
            simp only [advance_lbuf, hnl', hcanon, hbs, hne', if_true, Bool.false_eq_true,
              if_false]
          have hw : wchar s c = tty_write_echo (advance s) c false := by
            unfold wchar
            rw [hchar]
          have hedit : line_edit s.lbuf.flags (data, k) c = (data, k) := by
            unfold line_edit
            simp only [hnl', hcanon, hbs, if_true, Bool.false_eq_true, if_false, ne_eq, hk0,
              not_true_eq_false]
          have hecho : echoed s.lbuf.flags k c = [] := by
            unfold echoed
            simp only [hnl', hcanon, hbs, hk0, if_true, Bool.false_eq_true, if_false, ne_eq,
              not_true_eq_false]
          rw [hw, hedit, hecho]
          simp only [echo_lbuf, echo_buf_pos, echo_bytes_written, advance_lbuf, advance_buf_pos,
            advance_bytes_written, hcost]
          exact ⟨⟨hh, hst⟩, trivial, trivial, trivial, trivial, trivial, by omega,
            fun h0 => h0, by rw [echo_false]; rfl, Or.inl hchar⟩
      · have hbs' : (c == 8) = false := by simpa using hbs
        by_cases heat : (c == 13 || c == 0) = true
        · -- CR and NUL are eaten
          have hchar : tty_write_char (advance s) c
              = .exit_loop (tty_write_echo (advance s) c false) := by
            unfold tty_write_char
            simp only [advance_lbuf, hnl', hcanon, hbs', heat, if_true, Bool.false_eq_true,
              if_false]
          have hw : wchar s c = tty_write_echo (advance s) c false := by
            unfold wchar
            rw [hchar]
          have hedit : line_edit s.lbuf.flags (data, k) c = (data, k) := by
            unfold line_edit
            simp only [hnl', hcanon, hbs', heat, if_true, Bool.false_eq_true, if_false]
          have hecho : echoed s.lbuf.flags k c = [] := by
            unfold echoed
            simp only [hnl', hcanon, hbs', heat, if_true, Bool.false_eq_true, if_false, ne_eq,
              not_true_eq_false]
          rw [hw, hedit, hecho]
          simp only [echo_lbuf, echo_buf_pos, echo_bytes_written, advance_lbuf, advance_buf_pos,
            advance_bytes_written, hcost]
          exact ⟨⟨hh, hst⟩, trivial, trivial, trivial, trivial, trivial, by omega,
            fun h0 => h0, by rw [echo_false]; rfl, Or.inl hchar⟩
        · -- an ordinary byte in canonical mode
          have heat' : (c == 13 || c == 0) = false := by simpa using heat
          have hchar : tty_write_char (advance s) c
              = .exit_loop
                  (tty_write_echo (set_lbuf (advance s) (tty_insert_char s.lbuf c false)) c true) := by
            unfold tty_write_char
            simp only [advance_lbuf, hnl', hcanon, hbs', heat', if_true, Bool.false_eq_true,
              if_false]
          have hw : wchar s c
              = tty_write_echo (set_lbuf (advance s) (tty_insert_char s.lbuf c false)) c true := by
            unfold wchar
            rw [hchar]
          have hedit : line_edit s.lbuf.flags (data, k) c = (data ++ [c], k + 1) := by
            unfold line_edit
            simp only [hnl', hcanon, hbs', heat', if_true, Bool.false_eq_true, if_false]
          have h1 := insert_holds s.lbuf c false data k hh hroom
          simp only [Bool.false_eq_true, if_false] at h1
          have hecho : echoed s.lbuf.flags k c = [c] := by
            unfold echoed
            simp only [hnl', hcanon, hbs', heat', if_true, Bool.false_eq_true, if_false]
          rw [hw, hedit, hecho]
          simp only [echo_lbuf, echo_buf_pos, echo_bytes_written, set_lbuf_lbuf, insert_flags,
            insert_len, insert_write_sem, set_lbuf_buf_pos, advance_buf_pos,
            set_lbuf_bytes_written, advance_bytes_written, hcost]
          refine ⟨⟨?_, ?_⟩, trivial, trivial, trivial, trivial, trivial, by simp,
            fun h0 => by simp only [List.length_append, List.length_singleton]; omega, ?_,
            Or.inl hchar⟩
          · rw [echo_lbuf, set_lbuf_lbuf]
            exact h1
          · rw [echo_lbuf, set_lbuf_lbuf, insert_state, hst]
          · rw [echo_eq]
            simp only [set_other_other, set_lbuf_lbuf, set_lbuf_other, advance_other,
              List.foldl_cons, List.foldl_nil]
            exact echo_into_flags _ _ _ _ (by simp)
    · -- no line editing
      have hcanon' : (s.lbuf.flags &&& TTY_FLAG_CANON != 0) = false := by simpa using hcanon
      have hchar : tty_write_char (advance s) c
          = .exit_loop
              (tty_write_echo (set_lbuf (advance s) (tty_insert_char s.lbuf c true)) c true) := by
        unfold tty_write_char
        simp only [advance_lbuf, hnl', hcanon', if_true, Bool.false_eq_true, if_false]
      have hw : wchar s c
          = tty_write_echo (set_lbuf (advance s) (tty_insert_char s.lbuf c true)) c true := by
        unfold wchar
        rw [hchar]
      have hedit : line_edit s.lbuf.flags (data, k) c = (data ++ [c], 0) := by
        unfold line_edit
        simp only [hnl', hcanon', if_true, Bool.false_eq_true, if_false]
      have h1 := insert_holds s.lbuf c true data k hh hroom
      simp only [if_true] at h1
      have hecho : echoed s.lbuf.flags k c = [c] := by
        unfold echoed
        simp only [hnl', hcanon', if_true, Bool.false_eq_true, if_false]
      rw [hw, hedit, hecho]
      simp only [echo_lbuf, echo_buf_pos, echo_bytes_written, set_lbuf_lbuf, insert_flags,
        insert_len, insert_write_sem, set_lbuf_buf_pos, advance_buf_pos,
        set_lbuf_bytes_written, advance_bytes_written, hcost]
      refine ⟨⟨?_, ?_⟩, trivial, trivial, trivial, trivial, trivial, by simp,
        fun _ => by simp, ?_, Or.inl hchar⟩
      · rw [echo_lbuf, set_lbuf_lbuf]
        exact h1
      · rw [echo_lbuf, set_lbuf_lbuf, insert_state, hst]
      · rw [echo_eq]
        simp only [set_other_other, set_lbuf_lbuf, set_lbuf_other, advance_other,
          List.foldl_cons, List.foldl_nil]
        exact echo_into_flags _ _ _ _ (by simp)

theorem cost_pos (flags c : Nat) : 1 ≤ cost flags c := by
  unfold cost
  split <;> omega

theorem need_cons (flags c : Nat) (rest : List Nat) :
    need flags (c :: rest) = cost flags c + need flags rest := by
  simp [need]

theorem need_eq_zero (flags : Nat) (rest : List Nat) (h : need flags rest = 0) : rest = [] := by
  cases rest with
  | nil => rfl
  | cons c rest =>
    rw [need_cons] at h
    have := cost_pos flags c
    omega

/-- A request processed byte by byte while the buffer has room. -/
theorem fold_settled (rest : List Nat) : ∀ (s : wstate) (data : List Nat) (k : Nat),
    settled s data k → data.length + need s.lbuf.flags rest < s.lbuf.len →
    (k ≤ data.length ∨ 8 ∉ rest) →
    settled (rest.foldl wchar s) (rest.foldl (line_edit s.lbuf.flags) (data, k)).1
        (rest.foldl (line_edit s.lbuf.flags) (data, k)).2 ∧
      (rest.foldl wchar s).lbuf.flags = s.lbuf.flags ∧
      (rest.foldl wchar s).lbuf.len = s.lbuf.len ∧
      (rest.foldl wchar s).lbuf.write_sem = s.lbuf.write_sem ∧
      (rest.foldl wchar s).buf_pos = s.buf_pos + rest.length ∧
      (rest.foldl wchar s).bytes_written = s.bytes_written + rest.length ∧
      (rest.foldl (line_edit s.lbuf.flags) (data, k)).1.length
        ≤ data.length + need s.lbuf.flags rest ∧
      (rest.foldl wchar s).other_lbuf
        = (echo_list s.lbuf.flags (data, k) rest).foldl (echo_into s.lbuf) s.other_lbuf := by
  induction rest with
  | nil =>
    intro s data k h _ _
    simp only [List.foldl_nil, List.length_nil, Nat.cast_zero, add_zero]
    exact ⟨h, trivial, trivial, trivial, trivial, trivial, by simp [need], rfl⟩
  | cons c rest ih =>
    intro s data k h hroom hv
    rw [need_cons] at hroom
    have hv1 : k ≤ data.length ∨ c ≠ 8 := by
      rcases hv with h0 | h0
      · exact Or.inl h0
      · exact Or.inr (fun e => h0 (by simp [e]))
    obtain ⟨h1, hf, hl, hw, hp, hb, hle, hvk, ho, _⟩ := char_step s c data k h (by omega) hv1
    have hv2 : (line_edit s.lbuf.flags (data, k) c).2
        ≤ (line_edit s.lbuf.flags (data, k) c).1.length ∨ 8 ∉ rest := by
      rcases hv with h0 | h0
      · exact Or.inl (hvk h0)
      · exact Or.inr (fun e => h0 (List.mem_cons_of_mem _ e))
    have := ih (wchar s c) _ _ h1 (by rw [hf, hl]; omega) hv2
    rw [hf, hl, hw, hp, hb] at this
    obtain ⟨i1, i2, i3, i4, i5, i6, i7, i8⟩ := this
    simp only [List.foldl_cons, List.length_cons, Nat.cast_add, Nat.cast_one]
    refine ⟨i1, i2, i3, i4, ?_, ?_, ?_, ?_⟩
    · rw [i5]; ring
    · rw [i6]; ring
    · rw [need_cons]
      have e : line_edit s.lbuf.flags (data, k) c
          = ((line_edit s.lbuf.flags (data, k) c).1, (line_edit s.lbuf.flags (data, k) c).2) :=
        rfl
      rw [e]
      omega
    · rw [i8, ho]
      have ef : echo_into (wchar s c).lbuf = echo_into s.lbuf := by
        funext o b
        exact echo_into_flags _ _ _ _ hf
      rw [ef]
      simp only [echo_list, List.foldl_append]

theorem user_bytes_drop (inp : List Nat) (p c : Nat) (rest : List Nat)
    (h : inp.drop p = c :: rest) :
    user_bytes inp p = some c ∧ inp.drop (p + 1) = rest ∧ p < inp.length := by
  have hp : p < inp.length := by
    rcases Nat.lt_or_ge p inp.length with h1 | h1
    · exact h1
    · rw [List.drop_eq_nil_of_le h1] at h
      exact absurd h (by simp)
  refine ⟨?_, ?_, hp⟩
  · unfold user_bytes
    have := List.drop_eq_getElem_cons hp
    rw [h] at this
    simp only [List.cons.injEq] at this
    rw [List.get?_eq_getElem?, List.getElem?_eq_getElem hp, this.1]
  · have := List.drop_eq_getElem_cons hp
    rw [h] at this
    simp only [List.cons.injEq] at this
    exact this.2.symm

/-- The loop `while(buf_pos < len)` on a request that fits: it ends at `exit_loop` with
every byte processed. -/
theorem regular_run (inp : List Nat) (rest : List Nat) :
    ∀ (p fuel : Nat) (s : wstate) (data : List Nat) (k : Nat),
      inp.drop p = rest → s.buf_pos = (p : Int) → settled s data k →
      data.length + need s.lbuf.flags rest < s.lbuf.len →
      (k ≤ data.length ∨ 8 ∉ rest) → rest.length ≤ fuel →
      tty_write_regular (user_bytes inp) (inp.length : Int) fuel s
        = .exit_loop (rest.foldl wchar s) := by
  induction rest with
  | nil =>
    intro p fuel s data k hdrop hpos _ _ _ _
    have hp : inp.length ≤ p := List.drop_eq_nil_iff.mp hdrop
    unfold tty_write_regular
    have : ¬ (s.buf_pos < (inp.length : Int)) := by rw [hpos]; omega
    simp only [this, if_false, List.foldl_nil]
  | cons c rest ih =>
    intro p fuel s data k hdrop hpos h hroom hv hfuel
    have hv1 : k ≤ data.length ∨ c ≠ 8 := by
      rcases hv with h0 | h0
      · exact Or.inl h0
      · exact Or.inr (fun e => h0 (by simp [e]))
    obtain ⟨hb, hdrop1, hp⟩ := user_bytes_drop inp p c rest hdrop
    obtain ⟨fuel1, rfl⟩ : ∃ f, fuel = f + 1 := ⟨fuel - 1, by simp at hfuel; omega⟩
    rw [need_cons] at hroom
    have hc1 := cost_pos s.lbuf.flags c
    have haw : (AVAILABLE_WRITE s.lbuf == 0) = false := by
      rw [AVAILABLE_WRITE_zero_iff _ _ _ h.1]
      simp only [decide_eq_false_iff_not]
      omega
    obtain ⟨h1, hf, hl, hw, hp1, hb1, hle, hvk, _, hstep⟩ :=
      char_step s c data k h (by omega) hv1
    have hv2 : (line_edit s.lbuf.flags (data, k) c).2
        ≤ (line_edit s.lbuf.flags (data, k) c).1.length ∨ 8 ∉ rest := by
      rcases hv with h0 | h0
      · exact Or.inl (hvk h0)
      · exact Or.inr (fun e => h0 (List.mem_cons_of_mem _ e))
    have hlt : s.buf_pos < (inp.length : Int) := by rw [hpos]; omega
    have hrec := ih (p + 1) fuel1 (wchar s c) _ _ hdrop1 (by rw [hp1, hpos]; simp) h1
      (by rw [hf, hl]; omega) hv2 (by simp at hfuel; omega)
    have hidx : s.buf_pos.toNat = p := by rw [hpos]; simp
    unfold tty_write_regular
    simp only [hlt, if_true, haw, Bool.false_eq_true, if_false, hidx, hb, List.foldl_cons]
    rcases hstep with h2 | ⟨s1, h2, h3⟩
    · simp only [h2]
      exact hrec
    · simp only [h2]
      rcases h3 with h4 | ⟨h4, h5⟩
      · simp only [h4]
        exact hrec
      · simp only [h4]
        have : need s.lbuf.flags rest = 0 := by omega
        rw [need_eq_zero _ _ this]
        rfl

theorem get_set_buf (tty : tty_desc) (ep : Nat) (l : line_buffer) :
    get_buf (set_buf tty ep l) ep = l := by
  unfold get_buf set_buf
  split <;> rfl

theorem get_set_buf_other (tty : tty_desc) (ep : Nat) (l : line_buffer)
    (hep : ep = ENDPOINT_MASTER_WRITE ∨ ep = ENDPOINT_SLAVE_WRITE) :
    get_buf (set_buf tty ep l) (other_endpoint ep) = get_buf tty (other_endpoint ep) := by
  rcases hep with rfl | rfl <;> rfl

theorem get_set_other_buf (tty : tty_desc) (ep : Nat) (l : line_buffer)
    (hep : ep = ENDPOINT_MASTER_WRITE ∨ ep = ENDPOINT_SLAVE_WRITE) :
    get_buf (set_buf tty (other_endpoint ep) l) ep = get_buf tty ep := by
  rcases hep with rfl | rfl <;> rfl

theorem store_lbuf (tty : tty_desc) (ep : Nat) (s : wstate) :
    get_buf (wstate_store tty ep s) ep = s.lbuf := by
  unfold wstate_store
  rw [get_set_buf]

theorem store_other (tty : tty_desc) (ep : Nat) (s : wstate)
    (hep : ep = ENDPOINT_MASTER_WRITE ∨ ep = ENDPOINT_SLAVE_WRITE) :
    get_buf (wstate_store tty ep s) (other_endpoint ep) = s.other_lbuf := by
  unfold wstate_store
  rw [get_set_buf_other _ _ _ hep, get_set_buf]

theorem sem_acquire_ready (ep : Nat) (sel : sem_sel) (tty : tty_desc) (evs : List wait_event)
    (h : 0 < sem_count tty ep sel) :
    sem_acquire_etc ep sel tty evs = .acquired (sem_take tty ep sel) evs := by
  cases evs with
  | nil => simp [sem_acquire_etc, h]
  | cons e evs => simp [sem_acquire_etc, h]

theorem finish_lbuf (s : wstate) :
    (finish s).lbuf = s.lbuf ∨ (finish s).lbuf = release_write_sem s.lbuf := by
  unfold finish
  split
  · right; rfl
  · left; rfl

theorem finish_other (s : wstate) : (finish s).other_lbuf = s.other_lbuf := by
  unfold finish
  split <;> rfl

theorem finish_buf_pos (s : wstate) : (finish s).buf_pos = s.buf_pos := by
  unfold finish
  split <;> rfl

theorem finish_bytes_written (s : wstate) : (finish s).bytes_written = s.bytes_written := by
  unfold finish
  split <;> rfl

theorem holds_wf_checks (l : line_buffer) (data : List Nat) (k : Nat) (h : holds l data k) :
    (decide (l.len > 0) && decide (l.head < l.len) && decide (l.tail < l.len)
      && decide (l.line_start < l.len)) = true := by
  obtain ⟨⟨h1, h2, h3, h4, _⟩, _⟩ := h
  simp [h1, h2, h3, h4]

/-- One pass of `tty_write` between `mutex_lock` and `exit_loop` on a request that
fits. -/
theorem locked_run (inp : List Nat) (s : wstate) (data : List Nat) (k : Nat)
    (hpos : s.buf_pos = 0) (h : settled s data k) (hne : inp ≠ [])
    (hroom : data.length + need s.lbuf.flags inp < s.lbuf.len)
    (hv : k ≤ data.length ∨ 8 ∉ inp) :
    tty_write_locked (user_bytes inp) (inp.length : Int) s = .exit_loop (inp.foldl wchar s) := by
  unfold tty_write_locked
  have hn : 1 ≤ need s.lbuf.flags inp := by
    cases inp with
    | nil => exact absurd rfl hne
    | cons c rest =>
      rw [need_cons]
      have := cost_pos s.lbuf.flags c
      omega
  have haw : (AVAILABLE_WRITE s.lbuf == 0) = false := by
    rw [AVAILABLE_WRITE_zero_iff _ _ _ h.1]
    simp only [decide_eq_false_iff_not]
    omega
  simp only [holds_wf_checks _ _ _ h.1, Bool.not_true, Bool.false_eq_true, if_false, haw,
    special_normal _ _ h.2]
  exact regular_run inp inp 0 _ s data k rfl (by rw [hpos]; rfl) h hroom hv
    (by rw [hpos]; simp)

/-- A request that fits into the buffer is processed in one pass: `tty_write` returns
its length, the written buffer holds what `line_edit` makes of the request and the
opposite buffer received the echo. -/
theorem tty_write_fits (tty : tty_desc) (ep : Nat) (inp data : List Nat) (k fuel : Nat)
    (evs : List wait_event)
    (hep : ep = ENDPOINT_MASTER_WRITE ∨ ep = ENDPOINT_SLAVE_WRITE)
    (h : holds (get_buf tty ep) data k) (hst : (get_buf tty ep).state = TTY_STATE_NORMAL)
    (hsem : 0 < (get_buf tty ep).write_sem)
    (hroom : data.length + need (get_buf tty ep).flags inp < (get_buf tty ep).len)
    (hv : k ≤ data.length ∨ 8 ∉ inp) :
    ∃ tty1, tty_write (fuel + 1) tty (user_bytes inp) (inp.length : Int) ep evs
        = .ret ((inp.length : Int), tty1) ∧
      holds (get_buf tty1 ep) (inp.foldl (line_edit (get_buf tty ep).flags) (data, k)).1
        (inp.foldl (line_edit (get_buf tty ep).flags) (data, k)).2 ∧
      (get_buf tty1 ep).state = TTY_STATE_NORMAL ∧
      (get_buf tty1 ep).flags = (get_buf tty ep).flags ∧
      (get_buf tty1 ep).len = (get_buf tty ep).len ∧
      get_buf tty1 (other_endpoint ep)
        = (echo_list (get_buf tty ep).flags (data, k) inp).foldl
            (echo_into (get_buf tty ep)) (get_buf tty (other_endpoint ep)) := by
  by_cases hne : inp = []
  · subst hne
    refine ⟨tty, ?_, h, hst, rfl, rfl, rfl⟩
    simp [tty_write]
  · have hlen : ¬ ((inp.length : Int) < 0) := by omega
    have hlen0 : ((inp.length : Int) == 0) = false := by
      have : inp.length ≠ 0 := fun e => hne (List.length_eq_zero.mp e)
      simp only [beq_eq_false_iff_ne, ne_eq]
      omega
    have hepb : (!(ep == ENDPOINT_MASTER_WRITE || ep == ENDPOINT_SLAVE_WRITE)) = false := by
      rcases hep with rfl | rfl <;> rfl
    have hacq := sem_acquire_ready ep .write_sem tty evs hsem
    have hl0 : (wstate_load (sem_take tty ep .write_sem) ep 0 0).lbuf
        = take_write_sem (get_buf tty ep) := by
      simp only [wstate_load, sem_take, get_set_buf]
    have ho0 : (wstate_load (sem_take tty ep .write_sem) ep 0 0).other_lbuf
        = get_buf tty (other_endpoint ep) := by
      simp only [wstate_load, sem_take, get_set_buf_other _ _ _ hep]
    have hs0 : settled (wstate_load (sem_take tty ep .write_sem) ep 0 0) data k := by
      unfold settled
      rw [hl0]
      exact ⟨h, hst⟩
    have hroom0 : data.length
        + need (wstate_load (sem_take tty ep .write_sem) ep 0 0).lbuf.flags inp
        < (wstate_load (sem_take tty ep .write_sem) ep 0 0).lbuf.len := by
      rw [hl0]
      exact hroom
    have hrun := locked_run inp _ data k rfl hs0 hne hroom0 hv
    obtain ⟨f1, f2, f3, _, f5, f6, _, f8⟩ := fold_settled inp _ data k hs0 hroom0 hv
    rw [hl0] at f1 f2 f3 f8
    rw [ho0] at f8
    have hflags : (take_write_sem (get_buf tty ep)).flags = (get_buf tty ep).flags := rfl
    rw [hflags] at f1 f2 f8
    have hnlt : ¬ ((finish (inp.foldl wchar
        (wstate_load (sem_take tty ep .write_sem) ep 0 0))).buf_pos < (inp.length : Int)) := by
      rw [finish_buf_pos, f5]
      simp [wstate_load]
    refine ⟨wstate_store (sem_take tty ep .write_sem) ep
      (finish (inp.foldl wchar (wstate_load (sem_take tty ep .write_sem) ep 0 0))), ?_, ?_⟩
    · unfold tty_write
      simp only [hlen, if_false, hlen0, Bool.false_eq_true, hepb]
      unfold tty_write_restart
      simp only [hacq, hrun, hnlt, if_false, finish_bytes_written, f6]
      simp [wstate_load]
    · rw [store_lbuf, store_other _ _ _ hep, finish_other]
      rcases finish_lbuf (inp.foldl wchar (wstate_load (sem_take tty ep .write_sem) ep 0 0))
        with e | e
      · rw [e]
        exact ⟨f1.1, f1.2, f2, f3, f8⟩
      · rw [e]
        exact ⟨f1.1, f1.2, f2, f3, f8⟩

/-! ## Requests of ordinary bytes -/

theorem need_append (flags : Nat) (a b : List Nat) :
    need flags (a ++ b) = need flags a + need flags b := by
  simp [need]

theorem echo_list_append (flags : Nat) (a b : List Nat) : ∀ (st : List Nat × Nat),
    echo_list flags st (a ++ b)
      = echo_list flags st a ++ echo_list flags (a.foldl (line_edit flags) st) b := by
  induction a with
  | nil => intro st; simp [echo_list]
  | cons c a ih =>
    intro st
    show echoed flags st.2 c ++ echo_list flags (line_edit flags st c) (a ++ b) = _
    rw [ih]
    simp [echo_list]

theorem ordinary_edit (flags c : Nat) (st : List Nat × Nat) (hc : ordinary c)
    (hcanon : (flags &&& TTY_FLAG_CANON != 0) = true) :
    line_edit flags st c = (st.1 ++ [c], st.2 + 1) ∧ echoed flags st.2 c = [c] ∧
      cost flags c = 1 := by
  obtain ⟨h1, h2, h3, h4⟩ := hc
  have e1 : (c == 10) = false := by simpa using h1
  have e2 : (c == 8) = false := by simpa using h4
  have e3 : (c == 13 || c == 0) = false := by simp [h2, h3]
  refine ⟨?_, ?_, ?_⟩
  · unfold line_edit
    simp only [hcanon, e1, e2, e3, if_true, Bool.false_and, Bool.false_eq_true, if_false]
  · unfold echoed
    simp only [hcanon, e1, e2, e3, if_true, Bool.false_and, Bool.false_eq_true, if_false]
  · unfold cost
    simp only [e1, Bool.false_and, Bool.false_eq_true, if_false]

theorem ordinary_fold (flags : Nat) (hcanon : (flags &&& TTY_FLAG_CANON != 0) = true)
    (s : List Nat) : ∀ (st : List Nat × Nat), (∀ c ∈ s, ordinary c) →
    s.foldl (line_edit flags) st = (st.1 ++ s, st.2 + s.length) ∧
      echo_list flags st s = s ∧ need flags s = s.length := by
  induction s with
  | nil => intro st _; simp [echo_list, need]
  | cons c s ih =>
    intro st hs
    obtain ⟨e1, e2, e3⟩ := ordinary_edit flags c st (hs c (List.mem_cons_self _ _)) hcanon
    obtain ⟨i1, i2, i3⟩ := ih (st.1 ++ [c], st.2 + 1)
      (fun d hd => hs d (List.mem_cons_of_mem _ hd))
    refine ⟨?_, ?_, ?_⟩
    · rw [List.foldl_cons, e1, i1]
      simp only [List.append_assoc, List.singleton_append, List.length_cons, Prod.mk.injEq,
        true_and]
      omega
    · simp only [echo_list, e1, e2, i2, List.singleton_append]
    · rw [need_cons, e3, i3, List.length_cons]
      omega

theorem newline_edit (flags : Nat) (st : List Nat × Nat)
    (hnlcr : (flags &&& TTY_FLAG_NLCR != 0) = true) :
    line_edit flags st 10 = (st.1 ++ [13, 10], 0) ∧ echoed flags st.2 10 = [13, 10] ∧
      cost flags 10 = 2 := by
  refine ⟨?_, ?_, ?_⟩
  · unfold line_edit
    simp only [hnlcr, beq_self_eq_true, Bool.and_self, if_true, ite_self]
  · unfold echoed
    simp only [hnlcr, beq_self_eq_true, Bool.and_self, if_true]
  · unfold cost
    simp only [hnlcr, beq_self_eq_true, Bool.and_self, if_true]

theorem holds_empty (l : line_buffer) (hw : wf l) (he : AVAILABLE_READ l = 0) :
    holds l [] 1 := by
  have hc : cyc l.head l.tail l.len = 0 := by
    have := AVAILABLE_READ_eq l hw
    rw [he] at this
    omega
  refine ⟨hw, ?_, by simpa using hc, fun h => absurd h (by simp)⟩
  rw [readable_eq l hw, hc]
  rfl

theorem echo_fold_readable (l : line_buffer) (hecho : (l.flags &&& TTY_FLAG_ECHO != 0) = true)
    (bytes : List Nat) : ∀ (o : line_buffer) (od : List Nat) (ok : Nat), holds o od ok →
    od.length + bytes.length < o.len →
    readable (bytes.foldl (echo_into l) o) = od ++ bytes := by
  induction bytes with
  | nil =>
    intro o od ok h _
    simpa using h.2.1
  | cons c bytes ih =>
    intro o od ok h hroom
    simp only [List.length_cons] at hroom
    have h1 := insert_holds o c true od ok h (by omega)
    have e : echo_into l o c = tty_insert_char o c true := by
      unfold echo_into
      rw [if_pos hecho]
    rw [List.foldl_cons, e, ih _ _ _ h1 (by
      simp only [List.length_append, List.length_singleton, insert_len]; omega)]
    simp

/-- C4: for every string `s` of ordinary bytes, writing `s` followed by `'\n'` with
`tty_write` into a buffer with the flags Canonical, Echo and TranslateNLtoCRLF, when that
buffer and the opposite buffer are empty, the written one in Normal state, both with
room for `len(s)+2` bytes (and the space-available gate holds a permit, so the call does
not wait), returns `len(s)+1` and leaves the written buffer containing exactly
`s ++ "\r\n"` and the opposite buffer containing exactly `s ++ "\r\n"`. -/
theorem echo_round_trip (tty : tty_desc) (ep : Nat) (s : List Nat) (fuel : Nat)
    (evs : List wait_event)
    (hep : ep = ENDPOINT_MASTER_WRITE ∨ ep = ENDPOINT_SLAVE_WRITE)
    (hcanon : (get_buf tty ep).flags &&& TTY_FLAG_CANON ≠ 0)
    (hecho : (get_buf tty ep).flags &&& TTY_FLAG_ECHO ≠ 0)
    (hnlcr : (get_buf tty ep).flags &&& TTY_FLAG_NLCR ≠ 0)
    (hs : ∀ c ∈ s, c ≠ 10 ∧ c ≠ 13 ∧ c ≠ 0 ∧ c ≠ 8)
    (hw : wf (get_buf tty ep)) (hwo : wf (get_buf tty (other_endpoint ep)))
    (hempty : AVAILABLE_READ (get_buf tty ep) = 0)
    (hoempty : AVAILABLE_READ (get_buf tty (other_endpoint ep)) = 0)
    (hst : (get_buf tty ep).state = TTY_STATE_NORMAL)
    (hroom : (s.length : Int) + 2 ≤ AVAILABLE_WRITE (get_buf tty ep))
    (horoom : (s.length : Int) + 2 ≤ AVAILABLE_WRITE (get_buf tty (other_endpoint ep)))
    (hsem : 0 < (get_buf tty ep).write_sem) :
    ∃ tty1, tty_write (fuel + 1) tty (user_bytes (s ++ [10])) ((s.length : Int) + 1) ep evs
        = .ret ((s.length : Int) + 1, tty1) ∧
      readable (get_buf tty1 ep) = s ++ [13, 10] ∧
      readable (get_buf tty1 (other_endpoint ep)) = s ++ [13, 10] := by
  have hcanon1 : ((get_buf tty ep).flags &&& TTY_FLAG_CANON != 0) = true := by simpa using hcanon
  have hecho1 : ((get_buf tty ep).flags &&& TTY_FLAG_ECHO != 0) = true := by simpa using hecho
  have hnlcr1 : ((get_buf tty ep).flags &&& TTY_FLAG_NLCR != 0) = true := by simpa using hnlcr
  obtain ⟨f1, f2, f3⟩ := ordinary_fold _ hcanon1 s ([], 1) hs
  obtain ⟨n1, n2, n3⟩ := newline_edit (get_buf tty ep).flags ([] ++ s, 1 + s.length) hnlcr1
  have hneed : need (get_buf tty ep).flags (s ++ [10]) = s.length + 2 := by
    rw [need_append, f3, need_cons, n3]
    simp [need]
  have hr1 : s.length + 2 < (get_buf tty ep).len := by
    rw [AVAILABLE_WRITE, hempty] at hroom
    omega
  have hr2 : s.length + 2 < (get_buf tty (other_endpoint ep)).len := by
    rw [AVAILABLE_WRITE, hoempty] at horoom
    omega
  have h8 : 8 ∉ s ++ [10] := by
    intro h
    rcases List.mem_append.mp h with h | h
    · exact (hs 8 h).2.2.2 rfl
    · simp at h
  obtain ⟨tty1, t1, t2, _, _, _, t6⟩ := tty_write_fits tty ep (s ++ [10]) [] 1 fuel evs hep
    (holds_empty _ hw hempty) hst hsem (by rw [hneed]; simpa using hr1) (Or.inr h8)
  have hfold : (s ++ [10]).foldl (line_edit (get_buf tty ep).flags) ([], 1)
      = (s ++ [13, 10], 0) := by
    rw [List.foldl_append, f1, List.foldl_cons, List.foldl_nil, n1]
    simp
  have hlist : echo_list (get_buf tty ep).flags ([], 1) (s ++ [10]) = s ++ [13, 10] := by
    rw [echo_list_append, f2, f1]
    simp only [echo_list, n2, List.append_nil]
  refine ⟨tty1, ?_, ?_, ?_⟩
  · simpa using t1
  · rw [hfold] at t2
    exact t2.2.1
  · rw [t6, hlist, echo_fold_readable _ hecho1 _ _ [] 1 (holds_empty _ hwo hoempty)
      (by simp only [List.length_nil, List.length_append, List.length_cons]; omega)]
    simp

/-- C4 at the spec's figures: `"abc\n"` written by the master on a fresh terminal of
capacity 8 yields `"abc\r\n"` in both buffers. -/
theorem echo_round_trip_witness :
    ∃ tty1, tty_write 1 (init_tty_desc 8 0) (user_bytes ([97, 98, 99] ++ [10]))
        ((([97, 98, 99] : List Nat).length : Int) + 1) ENDPOINT_MASTER_WRITE []
        = .ret ((([97, 98, 99] : List Nat).length : Int) + 1, tty1) ∧
      readable (get_buf tty1 ENDPOINT_MASTER_WRITE) = [97, 98, 99] ++ [13, 10] ∧
      readable (get_buf tty1 (other_endpoint ENDPOINT_MASTER_WRITE)) = [97, 98, 99] ++ [13, 10] :=
  echo_round_trip (init_tty_desc 8 0) ENDPOINT_MASTER_WRITE [97, 98, 99] 0 [] (Or.inl rfl)
    (by decide) (by decide) (by decide) (by decide)
    (by decide) (by decide) (by decide) (by decide) rfl (by decide) (by decide) (by decide)

/-! ## Canonical editing -/

theorem need_le (flags : Nat) (inp : List Nat) : need flags inp ≤ 2 * inp.length := by
  induction inp with
  | nil => simp [need]
  | cons c inp ih =>
    rw [need_cons, List.length_cons]
    have : cost flags c ≤ 2 := by
      unfold cost
      split <;> omega
    omega

theorem backspace_edit (flags : Nat) (st : List Nat × Nat) (b : Nat) (hb : ordinary b)
    (hcanon : (flags &&& TTY_FLAG_CANON != 0) = true) :
    line_edit flags (line_edit flags st b) 8 = st := by
  rw [(ordinary_edit flags b st hb hcanon).1]
  unfold line_edit
  simp only [hcanon, if_true, show ((8 : Nat) == 10) = false from rfl, Bool.false_and,
    Bool.false_eq_true, if_false, beq_self_eq_true, ne_eq, Nat.add_one_ne_zero,
    not_false_eq_true, List.dropLast_concat, Nat.add_sub_cancel]

theorem erased_fold (flags : Nat) (x y : List Nat) (b : Nat) (st : List Nat × Nat)
    (hb : ordinary b) (hcanon : (flags &&& TTY_FLAG_CANON != 0) = true) :
    (x ++ [b, 8] ++ y).foldl (line_edit flags) st = (x ++ y).foldl (line_edit flags) st := by
  simp only [List.foldl_append, List.foldl_cons, List.foldl_nil]
  rw [backspace_edit flags _ b hb hcanon]

theorem holds_fresh_line (l : line_buffer) (hw : wf l) (he : AVAILABLE_READ l = 0)
    (hls : l.line_start = l.head) : holds l [] 0 := by
  obtain ⟨h1, h2, h3, _⟩ := holds_empty l hw he
  refine ⟨h1, h2, h3, fun _ => ?_⟩
  rw [hls]
  exact (cyc_eq_zero _ _ _ hw.2.1 hw.2.1).mpr rfl

/-- C5: for every Canonical buffer that is empty with `line_start == head`, in Normal
state and with enough room (more than twice the length of the request; the
space-available gate holds a permit), writing `x ++ [b, 0x08] ++ y` with `b` an ordinary
byte leaves the written buffer with the same readable content as writing `x ++ y`;
and writing `"ab\x08c\n"` leaves the readable content `"ac"` followed by `"\r\n"` when
TranslateNLtoCRLF is set and by `"\n"` when it is not. -/
theorem canonical_backspace (tty : tty_desc) (ep : Nat) (x y : List Nat) (b fuel : Nat)
    (evs : List wait_event)
    (hep : ep = ENDPOINT_MASTER_WRITE ∨ ep = ENDPOINT_SLAVE_WRITE)
    (hcanon : (get_buf tty ep).flags &&& TTY_FLAG_CANON ≠ 0)
    (hw : wf (get_buf tty ep)) (hempty : AVAILABLE_READ (get_buf tty ep) = 0)
    (hls : (get_buf tty ep).line_start = (get_buf tty ep).head)
    (hst : (get_buf tty ep).state = TTY_STATE_NORMAL)
    (hsem : 0 < (get_buf tty ep).write_sem)
    (hb : b ≠ 10 ∧ b ≠ 13 ∧ b ≠ 0 ∧ b ≠ 8)
    (hroom : 2 * (x ++ [b, 8] ++ y).length < (get_buf tty ep).len) :
    (∃ t1 t2,
      tty_write (fuel + 1) tty (user_bytes (x ++ [b, 8] ++ y))
          ((x ++ [b, 8] ++ y).length : Int) ep evs
        = .ret (((x ++ [b, 8] ++ y).length : Int), t1) ∧
      tty_write (fuel + 1) tty (user_bytes (x ++ y)) ((x ++ y).length : Int) ep evs
        = .ret (((x ++ y).length : Int), t2) ∧
      readable (get_buf t1 ep) = readable (get_buf t2 ep)) ∧
    (10 < (get_buf tty ep).len →
      ∃ t3, tty_write (fuel + 1) tty (user_bytes [97, 98, 8, 99, 10]) 5 ep evs = .ret (5, t3) ∧
        readable (get_buf t3 ep)
          = if (get_buf tty ep).flags &&& TTY_FLAG_NLCR ≠ 0 then [97, 99, 13, 10]
            else [97, 99, 10]) := by
  have hcanon1 : ((get_buf tty ep).flags &&& TTY_FLAG_CANON != 0) = true := by simpa using hcanon
  have h0 := holds_fresh_line _ hw hempty hls
  constructor
  · obtain ⟨t1, a1, a2, _⟩ := tty_write_fits tty ep (x ++ [b, 8] ++ y) [] 0 fuel evs hep h0 hst
      hsem (by have := need_le (get_buf tty ep).flags (x ++ [b, 8] ++ y)
               simp only [List.length_nil] at *; omega) (Or.inl (Nat.le_refl _))
    obtain ⟨t2, b1, b2, _⟩ := tty_write_fits tty ep (x ++ y) [] 0 fuel evs hep h0 hst
      hsem (by have := need_le (get_buf tty ep).flags (x ++ y)
               simp only [List.length_nil, List.length_append, List.length_cons] at *; omega)
      (Or.inl (Nat.le_refl _))
    refine ⟨t1, t2, a1, b1, ?_⟩
    rw [a2.2.1, b2.2.1, erased_fold _ x y b _ hb hcanon1]
  · intro hlen
    obtain ⟨t3, c1, c2, _⟩ := tty_write_fits tty ep [97, 98, 8, 99, 10] [] 0 fuel evs hep h0 hst
      hsem (by have := need_le (get_buf tty ep).flags [97, 98, 8, 99, 10]
               simp only [List.length_nil, List.length_cons] at *; omega)
      (Or.inl (Nat.le_refl _))
    refine ⟨t3, by simpa using c1, ?_⟩
    rw [c2.2.1]
    by_cases hn : ((get_buf tty ep).flags &&& TTY_FLAG_NLCR != 0) = true
    · have hn1 : (get_buf tty ep).flags &&& TTY_FLAG_NLCR ≠ 0 := by simpa using hn
      rw [if_pos hn1]
      simp [line_edit, hcanon1, hn]
    · have hn1 : ¬ ((get_buf tty ep).flags &&& TTY_FLAG_NLCR ≠ 0) := by simpa using hn
      rw [if_neg hn1]
      simp [line_edit, hcanon1, hn]

/-- C5 on a fresh terminal of capacity 16, written by the master: `"ab\x08c\n"` and
`"ac\n"` leave the same content, `"ac\r\n"`. -/
theorem canonical_backspace_witness :
    (∃ t1 t2,
      tty_write 1 (init_tty_desc 16 0) (user_bytes ([97] ++ [98, 8] ++ [99, 10]))
          ((([97] ++ [98, 8] ++ [99, 10] : List Nat).length : Int)) ENDPOINT_MASTER_WRITE []
        = .ret ((([97] ++ [98, 8] ++ [99, 10] : List Nat).length : Int), t1) ∧
      tty_write 1 (init_tty_desc 16 0) (user_bytes ([97] ++ [99, 10]))
          ((([97] ++ [99, 10] : List Nat).length : Int)) ENDPOINT_MASTER_WRITE []
        = .ret ((([97] ++ [99, 10] : List Nat).length : Int), t2) ∧
      readable (get_buf t1 ENDPOINT_MASTER_WRITE) = readable (get_buf t2 ENDPOINT_MASTER_WRITE)) ∧
    ∃ t3, tty_write 1 (init_tty_desc 16 0) (user_bytes [97, 98, 8, 99, 10]) 5
          ENDPOINT_MASTER_WRITE [] = .ret (5, t3) ∧
        readable (get_buf t3 ENDPOINT_MASTER_WRITE) = [97, 99, 13, 10] :=
  ⟨(canonical_backspace (init_tty_desc 16 0) ENDPOINT_MASTER_WRITE [97] [99, 10] 98 0 []
      (Or.inl rfl) (by decide) (by decide) (by decide) rfl rfl (by decide) (by decide)
      (by decide)).1,
   (canonical_backspace (init_tty_desc 16 0) ENDPOINT_MASTER_WRITE [97] [99, 10] 98 0 []
      (Or.inl rfl) (by decide) (by decide) (by decide) rfl rfl (by decide) (by decide)
      (by decide)).2 (by decide)⟩

/-! ## Newline translation when the buffer fills -/

theorem holds_of_wf (l : line_buffer) (hw : wf l) :
    holds l (readable l) ((readable l).length + 1) := by
  refine ⟨hw, rfl, ?_, fun h => absurd h (by omega)⟩
  rw [readable_eq l hw]
  simp

/-- C6, the failing case: on a buffer with TranslateNLtoCRLF set, in Normal state, with
exactly one free slot (and a permit on the space-available gate), `tty_write` of the
single byte `'\n'` returns 1 with only `'\r'` appended: the `'\n'` is not in the buffer
when the call returns, the state is left at `TTY_STATE_WRITE_LF`. -/
theorem newline_left_pending (tty : tty_desc) (ep fuel : Nat) (evs : List wait_event)
    (hep : ep = ENDPOINT_MASTER_WRITE ∨ ep = ENDPOINT_SLAVE_WRITE)
    (hnlcr : (get_buf tty ep).flags &&& TTY_FLAG_NLCR ≠ 0)
    (hw : wf (get_buf tty ep)) (hst : (get_buf tty ep).state = TTY_STATE_NORMAL)
    (hone : AVAILABLE_WRITE (get_buf tty ep) = 1)
    (hsem : 0 < (get_buf tty ep).write_sem) :
    ∃ tty1, tty_write (fuel + 1) tty (user_bytes [10]) 1 ep evs = .ret (1, tty1) ∧
      readable (get_buf tty1 ep) = readable (get_buf tty ep) ++ [13] ∧
      (get_buf tty1 ep).state = TTY_STATE_WRITE_LF := by
  have hn : ((get_buf tty ep).flags &&& TTY_FLAG_NLCR != 0) = true := by simpa using hnlcr
  have hh := holds_of_wf _ hw
  have hc : (readable (get_buf tty ep)).length + 2 = (get_buf tty ep).len := by
    have := AVAILABLE_WRITE_eq _ hw
    rw [hone, hh.2.2.1] at this
    omega
  have hepb : (!(ep == ENDPOINT_MASTER_WRITE || ep == ENDPOINT_SLAVE_WRITE)) = false := by
    rcases hep with rfl | rfl <;> rfl
  have hacq := sem_acquire_ready ep .write_sem tty evs hsem
  have hl0 : (wstate_load (sem_take tty ep .write_sem) ep 0 0).lbuf
      = take_write_sem (get_buf tty ep) := by
    simp only [wstate_load, sem_take, get_set_buf]
  have hh0 : holds (take_write_sem (get_buf tty ep)) (readable (get_buf tty ep))
      ((readable (get_buf tty ep)).length + 1) := hh
  have haw : (AVAILABLE_WRITE (take_write_sem (get_buf tty ep)) == 0) = false := by
    rw [AVAILABLE_WRITE_zero_iff _ _ _ hh0]
    simp only [decide_eq_false_iff_not]
    have : (take_write_sem (get_buf tty ep)).len = (get_buf tty ep).len := rfl
    omega
  have h1 := insert_holds _ 13 false _ _ hh0 (by
    have : (take_write_sem (get_buf tty ep)).len = (get_buf tty ep).len := rfl
    omega)
  have haw1 : (AVAILABLE_WRITE (tty_insert_char (take_write_sem (get_buf tty ep)) 13 false)
      == 0) = true := by
    rw [AVAILABLE_WRITE_zero_iff _ _ _ h1]
    simp only [List.length_append, List.length_singleton, insert_len, decide_eq_true_eq]
    have : (take_write_sem (get_buf tty ep)).len = (get_buf tty ep).len := rfl
    omega
  have hnaw1 : ¬ (AVAILABLE_WRITE (tty_insert_char (take_write_sem (get_buf tty ep)) 13 false)
      > 0) := by
    have : AVAILABLE_WRITE (tty_insert_char (take_write_sem (get_buf tty ep)) 13 false) = 0 := by
      simpa using haw1
    omega
  have hfl : (take_write_sem (get_buf tty ep)).flags = (get_buf tty ep).flags := rfl
  have hst0 : (take_write_sem (get_buf tty ep)).state = TTY_STATE_NORMAL := hst
  refine ⟨wstate_store (sem_take tty ep .write_sem) ep
    (set_other (set_lbuf (advance (wstate_load (sem_take tty ep .write_sem) ep 0 0))
        (set_state (tty_insert_char (take_write_sem (get_buf tty ep)) 13 false)
          TTY_STATE_WRITE_LF))
      (echo_into (get_buf tty ep)
        (wstate_load (sem_take tty ep .write_sem) ep 0 0).other_lbuf 13)), ?_, ?_, ?_⟩
  · unfold tty_write
    simp only [show ¬ ((1 : Int) < 0) by omega, if_false, show ((1 : Int) == 0) = false from rfl,
      Bool.false_eq_true, hepb]
    unfold tty_write_restart
    simp only [hacq]
    unfold tty_write_locked
    simp only [hl0, holds_wf_checks _ _ _ hh0, Bool.not_true, Bool.false_eq_true, if_false, haw,
      special_normal _ _ (show (wstate_load (sem_take tty ep .write_sem) ep 0 0).lbuf.state
        = TTY_STATE_NORMAL by rw [hl0]; exact hst0)]
    unfold tty_write_regular
    simp only [show (wstate_load (sem_take tty ep .write_sem) ep 0 0).buf_pos = 0 from rfl,
      show ((1 : Int) - 0).toNat = 1 from rfl, show (0 : Int) < 1 by omega, if_true, hl0, haw,
      Bool.false_eq_true, if_false, show (0 : Int).toNat = 0 from rfl,
      show user_bytes [10] 0 = some 10 from rfl]
    unfold tty_write_char
    simp only [advance_lbuf, hl0, hfl, hn, beq_self_eq_true, Bool.and_self, if_true, ite_self]
    unfold tty_write_special_state
    simp only [set_lbuf_lbuf, set_state_state, TTY_STATE_WRITE_CR, TTY_STATE_NORMAL, bne_iff_ne,
      ne_eq, one_ne_zero, not_false_eq_true, if_true, beq_self_eq_true, echo_eq, set_lbuf_other,
      set_other_lbuf, set_state_avail, insert_set_state, haw1, advance_other]
    unfold finish
    simp only [set_other_lbuf, set_lbuf_lbuf, set_state_avail, hnaw1, if_false,
      set_other_buf_pos, set_lbuf_buf_pos, advance_buf_pos, set_other_bytes_written,
      set_lbuf_bytes_written, advance_bytes_written, set_state_twice]
    have ef : echo_into (set_state (tty_insert_char (take_write_sem (get_buf tty ep)) 13 false)
        TTY_STATE_WRITE_LF) = echo_into (get_buf tty ep) := by
      funext o c
      exact echo_into_flags _ _ _ _ (by simp [hfl])
    rw [ef, if_neg (by simp [wstate_load])]
    rfl
  · rw [store_lbuf]
    simp only [set_other_lbuf, set_lbuf_lbuf, set_state_readable]
    exact h1.2.1
  · rw [store_lbuf]
    rfl
/-- C6 on a terminal of capacity 4: after the slave wrote `"ab"` one slot is free; its
write of `"\n"` returns 1 and leaves `"ab\r"` with the line feed pending. -/
theorem newline_left_pending_witness :
    ∃ tty1,
      tty_write 1
          (ret_tty (tty_write 1 (init_tty_desc 4 0) (user_bytes [97, 98]) 2
            ENDPOINT_SLAVE_WRITE []) (init_tty_desc 4 0))
          (user_bytes [10]) 1 ENDPOINT_SLAVE_WRITE [] = .ret (1, tty1) ∧
      readable (get_buf tty1 ENDPOINT_SLAVE_WRITE)
        = readable (get_buf
            (ret_tty (tty_write 1 (init_tty_desc 4 0) (user_bytes [97, 98]) 2
              ENDPOINT_SLAVE_WRITE []) (init_tty_desc 4 0)) ENDPOINT_SLAVE_WRITE) ++ [13] ∧
      (get_buf tty1 ENDPOINT_SLAVE_WRITE).state = TTY_STATE_WRITE_LF :=
  newline_left_pending _ ENDPOINT_SLAVE_WRITE 0 [] (Or.inr rfl) (by decide) (by decide)
    (by decide) (by decide) (by decide)

/-! ## Read -/

@[simp] theorem set_tail_tail (l : line_buffer) (t : Nat) : (set_tail l t).tail = t := rfl
@[simp] theorem set_tail_head (l : line_buffer) (t : Nat) : (set_tail l t).head = l.head := rfl
@[simp] theorem set_tail_len (l : line_buffer) (t : Nat) : (set_tail l t).len = l.len := rfl
@[simp] theorem set_tail_buffer (l : line_buffer) (t : Nat) :
    (set_tail l t).buffer = l.buffer := rfl
theorem set_tail_twice (l : line_buffer) (a b : Nat) :
    set_tail (set_tail l a) b = set_tail l b := rfl

/-- One round of the copy loop of `tty_read` when the copy succeeds. -/
theorem read_loop_step (copy_ok : Int → Int → Bool) (hok : ∀ a b, copy_ok a b = true)
    (fuel : Nat) (l : line_buffer) (n : Nat) (br : Int) (out : List Nat)
    (hn : 0 < n) (ht : l.tail < l.len) :
    tty_read_loop copy_ok (fuel + 1) l (n : Int) br out
      = tty_read_loop copy_ok fuel
          (set_tail l ((l.tail + (if l.tail + n > l.len then l.len - l.tail else n)) % l.len))
          ((n - (if l.tail + n > l.len then l.len - l.tail else n) : Nat) : Int)
          (br + ((if l.tail + n > l.len then l.len - l.tail else n : Nat) : Int))
          (out ++ (List.range (if l.tail + n > l.len then l.len - l.tail else n)).map
            (fun k => l.buffer.getD (l.tail + k) 0)) := by
  conv => lhs; unfold tty_read_loop
  have hpos : ((n : Int) > 0) := by omega
  simp only [hpos, if_true, hok]
  by_cases hwrap : l.tail + n > l.len
  · have hi : ((l.tail : Int) + (n : Int) > (l.len : Int)) := by omega
    simp only [hi, hwrap, if_true]
    have e1 : ((l.len : Int) - (l.tail : Int)).toNat = l.len - l.tail := by omega
    have e2 : ((l.tail : Int) + ((l.len : Int) - (l.tail : Int))) = (l.len : Int) := by omega
    have e3 : (n : Int) - ((l.len : Int) - (l.tail : Int)) = ((n - (l.len - l.tail) : Nat) : Int) := by
      omega
    have e4 : ((l.len - l.tail : Nat) : Int) = (l.len : Int) - (l.tail : Int) := by omega
    have e5 : l.tail + (l.len - l.tail) = l.len := by omega
    rw [e1, e2, e3, e4, e5, Int.tmod_self, Nat.mod_self]
    rfl
  · have hi : ¬ ((l.tail : Int) + (n : Int) > (l.len : Int)) := by omega
    simp only [hi, hwrap, if_false]
    have e1 : ((l.tail : Int) + (n : Int)).tmod (l.len : Int)
        = (((l.tail + n) % l.len : Nat) : Int) := by
      rw [Int.tmod_eq_emod (by omega) (by omega)]
      push_cast
      rfl
    rw [e1]
    simp only [Int.toNat_ofNat, Nat.sub_self, Int.sub_self, Nat.cast_zero]

theorem read_loop_done (copy_ok : Int → Int → Bool) (fuel : Nat) (l : line_buffer) (br : Int)
    (out : List Nat) : tty_read_loop copy_ok fuel l 0 br out = .done l br out := by
  unfold tty_read_loop
  simp

/-- The copy loop of `tty_read` delivers the `m` oldest bytes, across the wrap. -/
theorem read_loop_run (copy_ok : Int → Int → Bool) (hok : ∀ a b, copy_ok a b = true)
    (l : line_buffer) (hw : wf l) (m : Nat) (hm : 0 < m) (hmc : m < l.len) :
    tty_read_loop copy_ok m l (m : Int) 0 []
      = .done (set_tail l ((l.tail + m) % l.len)) (m : Int)
          ((List.range m).map (fun k => l.buffer.getD ((l.tail + k) % l.len) 0)) := by
  obtain ⟨h1, h2, h3, h4, h5⟩ := hw
  obtain ⟨f, rfl⟩ : ∃ f, m = f + 1 := ⟨m - 1, by omega⟩
  rw [read_loop_step copy_ok hok f l (f + 1) 0 [] hm h3]
  by_cases hwrap : l.tail + (f + 1) > l.len
  · simp only [hwrap, if_true]
    have e5 : l.tail + (l.len - l.tail) = l.len := by omega
    rw [e5, Nat.mod_self]
    obtain ⟨g, hg⟩ : ∃ g, f = g + 1 := ⟨f - 1, by omega⟩
    have hrest : 0 < f + 1 - (l.len - l.tail) := by omega
    rw [hg] at hrest ⊢
    rw [read_loop_step copy_ok hok g _ _ _ _ hrest (by simpa using h1)]
    simp only [set_tail_tail, set_tail_len, set_tail_buffer, set_tail_twice, Nat.zero_add]
    have hnw : ¬ (g + 1 + 1 - (l.len - l.tail) > l.len) := by omega
    simp only [hnw, if_false, Nat.sub_self, Nat.cast_zero, read_loop_done, List.nil_append]
    have emod : (g + 1 + 1 - (l.len - l.tail)) % l.len = (l.tail + (g + 1 + 1)) % l.len := by
      rw [Nat.mod_eq_of_lt (by omega), add_mod_cases _ _ _ h3 (by omega), if_neg (by omega)]
      omega
    have esplit : g + 1 + 1 = (l.len - l.tail) + (g + 1 + 1 - (l.len - l.tail)) := by omega
    have ebr : (0 : Int) + ((l.len - l.tail : Nat) : Int)
        + ((g + 1 + 1 - (l.len - l.tail) : Nat) : Int) = ((g + 1 + 1 : Nat) : Int) := by omega
    rw [emod, ebr]
    congr 1
    conv => rhs; rw [esplit, List.range_add, List.map_append, List.map_map]
    congr 1
    · apply List.map_congr_left
      intro k hk
      have := List.mem_range.mp hk
      rw [Nat.mod_eq_of_lt (by omega)]
    · apply List.map_congr_left
      intro k hk
      have := List.mem_range.mp hk
      simp only [Function.comp_apply]
      rw [add_mod_cases _ _ _ h3 (by omega), if_neg (by omega)]
      congr 1
      omega
  · simp only [hwrap, if_false, Nat.sub_self, Nat.cast_zero, read_loop_done, List.nil_append,
      Int.zero_add]
    congr 1
    apply List.map_congr_left
    intro k hk
    have := List.mem_range.mp hk
    rw [Nat.mod_eq_of_lt (by omega)]

/-- C7: on a well-formed buffer holding `a > 0` readable bytes (the data-available gate
holds a permit), for every requested `len > 0` with a succeeding user copy, `tty_read`
returns `m = min(len, a)`; the `m` bytes delivered are `buffer[tail]`,
`buffer[tail+1 mod C]`, ..., `buffer[tail+m-1 mod C]` in that order, which are the `m`
oldest readable bytes; `tail` advances by `m` modulo `C` and `head` is unchanged; the
read is short (`m < len`) exactly when fewer than `len` bytes were available. -/
theorem tty_read_fifo (tty : tty_desc) (ep : Nat) (copy_ok : Int → Int → Bool) (len : Int)
    (evs : List wait_event)
    (hep : ep = ENDPOINT_MASTER_READ ∨ ep = ENDPOINT_SLAVE_READ)
    (hw : wf (get_buf tty ep)) (ha : 0 < AVAILABLE_READ (get_buf tty ep)) (hlen : 0 < len)
    (hok : ∀ a b, copy_ok a b = true) (hsem : 0 < (get_buf tty ep).read_sem) :
    ∃ tty1,
      tty_read tty copy_ok len ep evs
        = .ret (min len (AVAILABLE_READ (get_buf tty ep)), tty1,
            (List.range (min len (AVAILABLE_READ (get_buf tty ep))).toNat).map
              (fun k => (get_buf tty ep).buffer.getD
                (((get_buf tty ep).tail + k) % (get_buf tty ep).len) 0)) ∧
      (List.range (min len (AVAILABLE_READ (get_buf tty ep))).toNat).map
          (fun k => (get_buf tty ep).buffer.getD
            (((get_buf tty ep).tail + k) % (get_buf tty ep).len) 0)
        = (readable (get_buf tty ep)).take (min len (AVAILABLE_READ (get_buf tty ep))).toNat ∧
      (get_buf tty1 ep).tail
        = ((get_buf tty ep).tail + (min len (AVAILABLE_READ (get_buf tty ep))).toNat)
            % (get_buf tty ep).len ∧
      (get_buf tty1 ep).head = (get_buf tty ep).head ∧
      (min len (AVAILABLE_READ (get_buf tty ep)) < len
        ↔ AVAILABLE_READ (get_buf tty ep) < len) := by
  have hAR := AVAILABLE_READ_eq _ hw
  have hcl := cyc_lt _ _ _ hw.2.1 hw.2.2.1
  obtain ⟨m, hm⟩ : ∃ m : Nat, (m : Int) = min len (AVAILABLE_READ (get_buf tty ep)) :=
    ⟨(min len (AVAILABLE_READ (get_buf tty ep))).toNat, by
      rw [Int.toNat_of_nonneg]
      omega⟩
  have hm0 : 0 < m := by omega
  have hmc : m ≤ cyc (get_buf tty ep).head (get_buf tty ep).tail (get_buf tty ep).len := by
    omega
  have hepb : (!(ep == ENDPOINT_MASTER_READ || ep == ENDPOINT_SLAVE_READ)) = false := by
    rcases hep with rfl | rfl <;> rfl
  have hacq := sem_acquire_ready ep .read_sem tty evs hsem
  have hl0 : get_buf (sem_take tty ep .read_sem) ep = take_read_sem (get_buf tty ep) := by
    simp only [sem_take, get_set_buf]
  have hw0 : wf (take_read_sem (get_buf tty ep)) := hw
  have hchk : (decide ((take_read_sem (get_buf tty ep)).len > 0)
      && decide ((take_read_sem (get_buf tty ep)).head < (take_read_sem (get_buf tty ep)).len)
      && decide ((take_read_sem (get_buf tty ep)).tail < (take_read_sem (get_buf tty ep)).len)
      && decide ((take_read_sem (get_buf tty ep)).line_start
          < (take_read_sem (get_buf tty ep)).len)) = true := by
    obtain ⟨h1, h2, h3, h4, _⟩ := hw0
    simp [h1, h2, h3, h4]
  have hAR0 : AVAILABLE_READ (take_read_sem (get_buf tty ep))
      = AVAILABLE_READ (get_buf tty ep) := rfl
  have hmin : min (AVAILABLE_READ (get_buf tty ep)) len = (m : Int) := by
    rw [hm, min_comm]
  have hrun := read_loop_run copy_ok hok _ hw0 m hm0
    (by have : (take_read_sem (get_buf tty ep)).len = (get_buf tty ep).len := rfl
        omega)
  have hmt : (min len (AVAILABLE_READ (get_buf tty ep))).toNat = m := by
    rw [← hm]; simp
  rw [← hm]
  simp only [Int.toNat_ofNat]
  refine ⟨set_buf (sem_take tty ep .read_sem) ep
    (tty_read_signal (set_tail (take_read_sem (get_buf tty ep))
      (((get_buf tty ep).tail + m) % (get_buf tty ep).len))
      (AVAILABLE_READ (get_buf tty ep))), ?_, ?_, ?_, ?_, ?_⟩
  · unfold tty_read
    simp only [show ¬ (len < 0) by omega, if_false,
      show (len == 0) = false by simp only [beq_eq_false_iff_ne, ne_eq]; omega,
      Bool.false_eq_true, hepb, hacq, hl0, hchk, Bool.not_true, hAR0, hmin,
      show decide ((m : Int) > 0) = true by simp only [decide_eq_true_eq]; omega,
      Int.toNat_ofNat, hrun]
    rfl
  · rw [readable_eq _ hw, ← List.map_take, List.take_range, Nat.min_eq_left hmc]
  · rw [get_set_buf]
    unfold tty_read_signal
    dsimp only
    split <;> split <;> rfl
  · rw [get_set_buf]
    unfold tty_read_signal
    dsimp only
    split <;> split <;> rfl
  · omega

/-- C7 on a buffer of capacity 4 whose content wraps: `tail = 3`, `head = 2`, three
bytes queued; a read of 5 bytes is short and delivers them oldest first. -/
theorem tty_read_fifo_witness :
    ∃ tty1,
      tty_read
          { init_tty_desc 4 0 with
            buf0 := { init_line_buffer 4 0 with
              head := 2, tail := 3, read_sem := 1, buffer := [98, 99, 0, 97] } }
          (fun _ _ => true) 5 ENDPOINT_SLAVE_READ []
        = .ret (3, tty1, [97, 98, 99]) ∧
      (get_buf tty1 ENDPOINT_SLAVE_READ).tail = 2 ∧
      (get_buf tty1 ENDPOINT_SLAVE_READ).head = 2 :=
  let h := tty_read_fifo
    { init_tty_desc 4 0 with
      buf0 := { init_line_buffer 4 0 with
        head := 2, tail := 3, read_sem := 1, buffer := [98, 99, 0, 97] } }
    ENDPOINT_SLAVE_READ (fun _ _ => true) 5 [] (Or.inr rfl) (by decide) (by decide) (by decide)
    (fun _ _ => rfl) (by decide)
  h.elim (fun t ht => ⟨t, ht.1, ht.2.2.1, ht.2.2.2.1⟩)

/-! ## Echo into a full buffer -/

/-- C8, what the code does: when a byte is mirrored while the opposite buffer has
`available_to_write == 0` (capacity above 1), the byte is inserted all the same: `head`
advances onto `tail`, so the opposite buffer reads as empty and its `C-1` queued bytes
are no longer readable. -/
theorem echo_overflow_wraps (s : wstate) (c : Nat)
    (hecho : s.lbuf.flags &&& TTY_FLAG_ECHO ≠ 0) (hw : wf s.other_lbuf)
    (hcap : 1 < s.other_lbuf.len) (hfull : AVAILABLE_WRITE s.other_lbuf = 0) :
    (readable s.other_lbuf).length = s.other_lbuf.len - 1 ∧
      (tty_write_echo s c true).other_lbuf.head ≠ s.other_lbuf.head ∧
      (tty_write_echo s c true).other_lbuf.head = s.other_lbuf.tail ∧
      (tty_write_echo s c true).other_lbuf.line_start = s.other_lbuf.tail ∧
      AVAILABLE_READ (tty_write_echo s c true).other_lbuf = 0 ∧
      readable (tty_write_echo s c true).other_lbuf = [] := by
  have he : (s.lbuf.flags &&& TTY_FLAG_ECHO != 0) = true := by simpa using hecho
  have hc : cyc s.other_lbuf.head s.other_lbuf.tail s.other_lbuf.len + 1 = s.other_lbuf.len := by
    have := AVAILABLE_WRITE_eq _ hw
    rw [hfull] at this
    omega
  obtain ⟨h1, h2, h3, h4, h5⟩ := hw
  have hhead : (s.other_lbuf.head + 1) % s.other_lbuf.len = s.other_lbuf.tail := by
    rw [succ_mod _ _ h2]
    unfold cyc at hc
    split at hc <;> split <;> omega
  have hne : s.other_lbuf.tail ≠ s.other_lbuf.head := by
    intro e
    rw [e] at hc
    unfold cyc at hc
    simp at hc
    omega
  have hwi := insert_wf s.other_lbuf c true ⟨h1, h2, h3, h4, h5⟩
  have har : AVAILABLE_READ (tty_insert_char s.other_lbuf c true) = 0 := by
    rw [AVAILABLE_READ_eq _ hwi, insert_head, insert_tail, insert_len, hhead]
    unfold cyc
    simp
  rw [echo_eq, set_other_other, echo_into, if_pos he]
  refine ⟨?_, ?_, ?_, ?_, har, ?_⟩
  · rw [readable_eq _ ⟨h1, h2, h3, h4, h5⟩]
    simp only [List.length_map, List.length_range]
    omega
  · rw [insert_head, hhead]
    exact hne
  · rw [insert_head, hhead]
  · rw [insert_line_start, if_pos rfl, hhead]
  · unfold readable
    rw [har]
    rfl

/-- C8 on a terminal of capacity 4: the slave has queued `"abc"` for the master (the
buffer is full); the echo of a byte written by the master empties that queue. -/
theorem echo_overflow_wraps_witness :
    (readable (get_buf (ret_tty (tty_write 1 (init_tty_desc 4 0) (user_bytes [97, 98, 99]) 3
        ENDPOINT_SLAVE_WRITE []) (init_tty_desc 4 0)) ENDPOINT_SLAVE_WRITE)).length = 4 - 1 ∧
    readable (tty_write_echo
      (wstate_load (ret_tty (tty_write 1 (init_tty_desc 4 0) (user_bytes [97, 98, 99]) 3
        ENDPOINT_SLAVE_WRITE []) (init_tty_desc 4 0)) ENDPOINT_MASTER_WRITE 0 0)
      120 true).other_lbuf = [] :=
  let h := echo_overflow_wraps
    (wstate_load (ret_tty (tty_write 1 (init_tty_desc 4 0) (user_bytes [97, 98, 99]) 3
      ENDPOINT_SLAVE_WRITE []) (init_tty_desc 4 0)) ENDPOINT_MASTER_WRITE 0 0)
    120 (by decide) (by decide) (by decide) (by decide)
  ⟨h.1, h.2.2.2.2.2⟩

/-- The whole call at the failing input of C8: on a fresh terminal of capacity 4 the
slave writes `"abc"`, then the master writes `"x"`; `tty_write` returns 1 and the
slave-to-master buffer, which held `"abc"`, reads as empty. -/
theorem echo_overflow_from_init :
    readable (get_buf (ret_tty (tty_write 1 (init_tty_desc 4 0) (user_bytes [97, 98, 99]) 3
        ENDPOINT_SLAVE_WRITE []) (init_tty_desc 4 0)) ENDPOINT_SLAVE_WRITE) = [97, 98, 99] ∧
    ∃ t2, tty_write 1 (ret_tty (tty_write 1 (init_tty_desc 4 0) (user_bytes [97, 98, 99]) 3
        ENDPOINT_SLAVE_WRITE []) (init_tty_desc 4 0)) (user_bytes [120]) 1
        ENDPOINT_MASTER_WRITE [] = .ret (1, t2) ∧
      readable (get_buf t2 ENDPOINT_SLAVE_WRITE) = [] :=
  ⟨by decide, _, rfl, by decide⟩

/-! ## Invalid arguments and cancellation -/

/-- C9: for every terminal state, `tty_read` and `tty_write` called with `len < 0` return
`ERR_INVALID_ARGS` and called with `len == 0` return 0, and `tty_ioctl` called with an op
other than get-index, get-flags and set-flags returns `ERR_INVALID_ARGS`; in all these
cases the call returns whatever the wait events are (no gate is waited on) and the
terminal, with both buffers and their semaphore counts, is unchanged. -/
theorem invalid_arguments (tty : tty_desc) (copy_ok : Int → Int → Bool)
    (buf : Nat → Option Nat) (len : Int) (ep fuel : Nat) (evs : List wait_event)
    (op copy_err : Int) (ubuf : tty_flags) :
    (len < 0 →
      tty_read tty copy_ok len ep evs = .ret (ERR_INVALID_ARGS, tty, []) ∧
      tty_write fuel tty buf len ep evs = .ret (ERR_INVALID_ARGS, tty)) ∧
    (len = 0 →
      tty_read tty copy_ok len ep evs = .ret (0, tty, []) ∧
      tty_write fuel tty buf len ep evs = .ret (0, tty)) ∧
    (op ≠ _TTY_IOCTL_GET_TTY_NUM → op ≠ _TTY_IOCTL_GET_TTY_FLAGS →
      op ≠ _TTY_IOCTL_SET_TTY_FLAGS →
      tty_ioctl tty op copy_err ubuf = (ERR_INVALID_ARGS, tty, ubuf)) := by
  refine ⟨?_, ?_, ?_⟩
  · intro h
    constructor
    · unfold tty_read
      rw [if_pos h]
    · unfold tty_write
      rw [if_pos h]
  · intro h
    subst h
    constructor
    · unfold tty_read
      simp
    · unfold tty_write
      simp
  · intro h1 h2 h3
    unfold tty_ioctl
    simp [h1, h2, h3]

/-- C9 on a fresh terminal: lengths -1 and 0 and the control op 7. -/
theorem invalid_arguments_witness :
    (tty_read (init_tty_desc 8 0) (fun _ _ => true) (-1) ENDPOINT_SLAVE_READ []
        = .ret (ERR_INVALID_ARGS, init_tty_desc 8 0, []) ∧
      tty_write 1 (init_tty_desc 8 0) (user_bytes [97]) (-1) ENDPOINT_MASTER_WRITE []
        = .ret (ERR_INVALID_ARGS, init_tty_desc 8 0)) ∧
    (tty_read (init_tty_desc 8 0) (fun _ _ => true) 0 ENDPOINT_SLAVE_READ []
        = .ret (0, init_tty_desc 8 0, []) ∧
      tty_write 1 (init_tty_desc 8 0) (user_bytes [97]) 0 ENDPOINT_MASTER_WRITE []
        = .ret (0, init_tty_desc 8 0)) ∧
    tty_ioctl (init_tty_desc 8 0) 7 0 ⟨0, 0⟩ = (ERR_INVALID_ARGS, init_tty_desc 8 0, ⟨0, 0⟩) :=
  ⟨(invalid_arguments (init_tty_desc 8 0) (fun _ _ => true) (user_bytes [97]) (-1) 0 1 [] 7 0
      ⟨0, 0⟩).1 (by decide),
    (invalid_arguments (init_tty_desc 8 0) (fun _ _ => true) (user_bytes [97]) 0 0 1 [] 7 0
      ⟨0, 0⟩).2.1 rfl,
    (invalid_arguments (init_tty_desc 8 0) (fun _ _ => true) (user_bytes [97]) 0 0 1 [] 7 0
      ⟨0, 0⟩).2.2 (by decide) (by decide) (by decide)⟩

/-- C10: when the first pass of a `tty_write` ends with the buffer full and input
remaining, the space-available gate has no permit left, and the wait for the next pass
is interrupted, the call returns `ERR_SEM_INTERRUPTED` (a negative code, not the count
of bytes consumed), and the terminal is left exactly as the first pass left it: the
bytes that pass inserted remain in the buffer. -/
theorem write_cancellation (tty : tty_desc) (buf : Nat → Option Nat) (len : Int)
    (ep fuel : Nat) (evs : List wait_event) (s1 : wstate)
    (hlen : 0 < len) (hep : ep = ENDPOINT_MASTER_WRITE ∨ ep = ENDPOINT_SLAVE_WRITE)
    (hsem : 0 < (get_buf tty ep).write_sem)
    (hpass : tty_write_locked buf len (wstate_load (sem_take tty ep .write_sem) ep 0 0)
      = .exit_loop s1)
    (hfull : AVAILABLE_WRITE s1.lbuf = 0) (hrem : s1.buf_pos < len)
    (hgate : s1.lbuf.write_sem = 0) :
    tty_write (fuel + 2) tty buf len ep (.interrupted :: evs)
        = .ret (ERR_SEM_INTERRUPTED, wstate_store (sem_take tty ep .write_sem) ep s1) ∧
      ERR_SEM_INTERRUPTED < 0 ∧
      get_buf (wstate_store (sem_take tty ep .write_sem) ep s1) ep = s1.lbuf ∧
      get_buf (wstate_store (sem_take tty ep .write_sem) ep s1) (other_endpoint ep)
        = s1.other_lbuf := by
  have hepb : (!(ep == ENDPOINT_MASTER_WRITE || ep == ENDPOINT_SLAVE_WRITE)) = false := by
    rcases hep with rfl | rfl <;> rfl
  have hacq := sem_acquire_ready ep .write_sem tty (.interrupted :: evs) hsem
  have hfin : finish s1 = s1 := by
    unfold finish
    rw [if_neg (by omega)]
  have hwait : sem_acquire_etc ep .write_sem (wstate_store (sem_take tty ep .write_sem) ep s1)
      (.interrupted :: evs)
      = .interrupted (wstate_store (sem_take tty ep .write_sem) ep s1) evs := by
    have : sem_count (wstate_store (sem_take tty ep .write_sem) ep s1) ep .write_sem = 0 := by
      simp only [sem_count, store_lbuf, hgate]
    simp [sem_acquire_etc, this]
  refine ⟨?_, by decide, store_lbuf _ _ _, store_other _ _ _ hep⟩
  unfold tty_write
  simp only [show ¬ (len < 0) by omega, if_false,
    show (len == 0) = false by simp only [beq_eq_false_iff_ne, ne_eq]; omega,
    Bool.false_eq_true, hepb]
  unfold tty_write_restart
  simp only [hacq, hpass, hfin, hrem, if_true]
  unfold tty_write_restart
  simp only [hwait]

/-- C10 on a fresh terminal of capacity 8: the slave writes nine bytes, seven fit, the
wait for room is interrupted; the call returns `ERR_SEM_INTERRUPTED` and the seven bytes
are in the buffer. -/
theorem write_cancellation_witness :
    tty_write 2 (init_tty_desc 8 0) (user_bytes [97, 98, 99, 100, 101, 102, 103, 104, 105]) 9
        ENDPOINT_SLAVE_WRITE [.interrupted]
      = .ret (ERR_SEM_INTERRUPTED,
          wstate_store (sem_take (init_tty_desc 8 0) ENDPOINT_SLAVE_WRITE .write_sem)
            ENDPOINT_SLAVE_WRITE
            (exit_state (tty_write_locked
                (user_bytes [97, 98, 99, 100, 101, 102, 103, 104, 105]) 9
                (wstate_load (sem_take (init_tty_desc 8 0) ENDPOINT_SLAVE_WRITE .write_sem)
                  ENDPOINT_SLAVE_WRITE 0 0))
              (wstate_load (init_tty_desc 8 0) ENDPOINT_SLAVE_WRITE 0 0))) ∧
    readable (exit_state (tty_write_locked
        (user_bytes [97, 98, 99, 100, 101, 102, 103, 104, 105]) 9
        (wstate_load (sem_take (init_tty_desc 8 0) ENDPOINT_SLAVE_WRITE .write_sem)
          ENDPOINT_SLAVE_WRITE 0 0))
      (wstate_load (init_tty_desc 8 0) ENDPOINT_SLAVE_WRITE 0 0)).lbuf
      = [97, 98, 99, 100, 101, 102, 103] ∧
    (exit_state (tty_write_locked
        (user_bytes [97, 98, 99, 100, 101, 102, 103, 104, 105]) 9
        (wstate_load (sem_take (init_tty_desc 8 0) ENDPOINT_SLAVE_WRITE .write_sem)
          ENDPOINT_SLAVE_WRITE 0 0))
      (wstate_load (init_tty_desc 8 0) ENDPOINT_SLAVE_WRITE 0 0)).bytes_written = 7 :=
  ⟨(write_cancellation (init_tty_desc 8 0)
      (user_bytes [97, 98, 99, 100, 101, 102, 103, 104, 105]) 9 ENDPOINT_SLAVE_WRITE 0 []
      _ (by decide) (Or.inr rfl) (by decide) (by rfl) (by decide) (by decide) (by decide)).1,
    by decide, by decide⟩

/-! ## Entering a write -/

theorem wf_checks (l : line_buffer) (h : wf l) :
    (decide (l.len > 0) && decide (l.head < l.len) && decide (l.tail < l.len)
      && decide (l.line_start < l.len)) = true := by
  obtain ⟨h1, h2, h3, h4, _⟩ := h
  simp [h1, h2, h3, h4]

theorem load_lbuf (tty : tty_desc) (ep : Nat) :
    (wstate_load (sem_take tty ep .write_sem) ep 0 0).lbuf = take_write_sem (get_buf tty ep) := by
  simp only [wstate_load, sem_take, get_set_buf]

theorem load_other (tty : tty_desc) (ep : Nat)
    (hep : ep = ENDPOINT_MASTER_WRITE ∨ ep = ENDPOINT_SLAVE_WRITE) :
    (wstate_load (sem_take tty ep .write_sem) ep 0 0).other_lbuf
      = get_buf tty (other_endpoint ep) := by
  simp only [wstate_load, sem_take, get_set_buf_other _ _ _ hep]

theorem release_take_write (l : line_buffer) (h : 0 < l.write_sem) :
    release_write_sem (take_write_sem l) = l := by
  apply line_buffer.ext <;> try rfl
  show l.write_sem - 1 + 1 = l.write_sem
  omega

theorem release_take_read (l : line_buffer) (h : 0 < l.read_sem) :
    release_read_sem (take_read_sem l) = l := by
  apply line_buffer.ext <;> try rfl
  show l.read_sem - 1 + 1 = l.read_sem
  omega

/-- The first pass of `tty_write` on a buffer with room and nothing pending goes
straight to the loop over the request. -/
theorem write_enter (tty : tty_desc) (buf : Nat → Option Nat) (len : Int) (ep fuel : Nat)
    (evs : List wait_event)
    (hep : ep = ENDPOINT_MASTER_WRITE ∨ ep = ENDPOINT_SLAVE_WRITE)
    (hlen : 0 < len) (hw : wf (get_buf tty ep))
    (hst : (get_buf tty ep).state = TTY_STATE_NORMAL)
    (haw : AVAILABLE_WRITE (get_buf tty ep) ≠ 0) (hsem : 0 < (get_buf tty ep).write_sem) :
    (∀ s1, tty_write_regular buf len len.toNat (wstate_load (sem_take tty ep .write_sem) ep 0 0)
        = .exit_loop s1 → ¬ (s1.buf_pos < len) →
      tty_write (fuel + 1) tty buf len ep evs
        = .ret (s1.bytes_written, wstate_store (sem_take tty ep .write_sem) ep (finish s1))) ∧
    (∀ s1, tty_write_regular buf len len.toNat (wstate_load (sem_take tty ep .write_sem) ep 0 0)
        = .fault s1 →
      tty_write (fuel + 1) tty buf len ep evs
        = .ret (s1.bytes_written, wstate_store (sem_take tty ep .write_sem) ep
            (set_lbuf s1 (release_write_sem s1.lbuf)))) := by
  have hepb : (!(ep == ENDPOINT_MASTER_WRITE || ep == ENDPOINT_SLAVE_WRITE)) = false := by
    rcases hep with rfl | rfl <;> rfl
  have hacq := sem_acquire_ready ep .write_sem tty evs hsem
  have hl0 := load_lbuf tty ep
  have hw0 : wf (take_write_sem (get_buf tty ep)) := hw
  have haw0 : (AVAILABLE_WRITE (take_write_sem (get_buf tty ep)) == 0) = false := by
    have : AVAILABLE_WRITE (take_write_sem (get_buf tty ep)) = AVAILABLE_WRITE (get_buf tty ep) :=
      rfl
    rw [this]
    simpa using haw
  have hlocked : tty_write_locked buf len (wstate_load (sem_take tty ep .write_sem) ep 0 0)
      = tty_write_regular buf len len.toNat
          (wstate_load (sem_take tty ep .write_sem) ep 0 0) := by
    unfold tty_write_locked
    simp only [hl0, wf_checks _ hw0, Bool.not_true, Bool.false_eq_true, if_false, haw0,
      special_normal _ _ (show (wstate_load (sem_take tty ep .write_sem) ep 0 0).lbuf.state
        = TTY_STATE_NORMAL by rw [hl0]; exact hst)]
    simp [wstate_load]
  constructor
  · intro s1 hreg hdone
    unfold tty_write
    simp only [show ¬ (len < 0) by omega, if_false,
      show (len == 0) = false by simp only [beq_eq_false_iff_ne, ne_eq]; omega,
      Bool.false_eq_true, hepb]
    unfold tty_write_restart
    simp only [hacq, hlocked, hreg, finish_buf_pos, hdone, if_false, finish_bytes_written]
  · intro s1 hreg
    unfold tty_write
    simp only [show ¬ (len < 0) by omega, if_false,
      show (len == 0) = false by simp only [beq_eq_false_iff_ne, ne_eq]; omega,
      Bool.false_eq_true, hepb]
    unfold tty_write_restart
    simp only [hacq, hlocked, hreg, set_lbuf_bytes_written]

theorem write_char_pos (s : wstate) (c : Nat) (s1 : wstate)
    (h : tty_write_char s c = .exit_loop s1) :
    s1.buf_pos = s.buf_pos ∧ s1.bytes_written = s.bytes_written := by
  unfold tty_write_char at h
  split at h
  · split at h
    · exact absurd h (by simp)
    · split at h
      · split at h <;>
        · simp only [wexit.exit_loop.injEq] at h
          rw [← h]
          simp [echo_buf_pos, echo_bytes_written]
      · split at h <;>
        · simp only [wexit.exit_loop.injEq] at h
          rw [← h]
          simp [echo_buf_pos, echo_bytes_written]
  · split at h
    · exact absurd h (by simp)
    · simp only [wexit.exit_loop.injEq] at h
      rw [← h]
      simp [echo_buf_pos, echo_bytes_written]

/-- A request of one byte that the loop body handles without a jump: `tty_write` returns 1
with the state the loop body left. -/
theorem write_single (tty : tty_desc) (c ep fuel : Nat) (evs : List wait_event) (s1 : wstate)
    (hep : ep = ENDPOINT_MASTER_WRITE ∨ ep = ENDPOINT_SLAVE_WRITE)
    (hw : wf (get_buf tty ep)) (hst : (get_buf tty ep).state = TTY_STATE_NORMAL)
    (haw : AVAILABLE_WRITE (get_buf tty ep) ≠ 0) (hsem : 0 < (get_buf tty ep).write_sem)
    (hchar : tty_write_char (advance (wstate_load (sem_take tty ep .write_sem) ep 0 0)) c
      = .exit_loop s1) :
    tty_write (fuel + 1) tty (user_bytes [c]) 1 ep evs
      = .ret (1, wstate_store (sem_take tty ep .write_sem) ep (finish s1)) := by
  obtain ⟨hp, hb⟩ := write_char_pos _ _ _ hchar
  have haw0 : (AVAILABLE_WRITE (take_write_sem (get_buf tty ep)) == 0) = false := by
    have : AVAILABLE_WRITE (take_write_sem (get_buf tty ep)) = AVAILABLE_WRITE (get_buf tty ep) :=
      rfl
    rw [this]
    simpa using haw
  have hreg : tty_write_regular (user_bytes [c]) 1 (1 : Int).toNat
      (wstate_load (sem_take tty ep .write_sem) ep 0 0) = .exit_loop s1 := by
    show tty_write_regular (user_bytes [c]) 1 1 _ = _
    unfold tty_write_regular
    simp only [show (wstate_load (sem_take tty ep .write_sem) ep 0 0).buf_pos = 0 from rfl,
      show (0 : Int) < 1 by omega, if_true, load_lbuf, haw0, Bool.false_eq_true, if_false,
      show (0 : Int).toNat = 0 from rfl, show user_bytes [c] 0 = some c from rfl, hchar]
    unfold tty_write_regular
    have : ¬ (s1.buf_pos < 1) := by
      rw [hp]
      simp [wstate_load]
    simp only [this, if_false]
  have hb1 : s1.bytes_written = 1 := by
    rw [hb]
    simp [wstate_load]
  have := (write_enter tty (user_bytes [c]) 1 ep fuel evs hep (by omega) hw hst haw hsem).1 s1
    hreg (by rw [hp]; simp [wstate_load])
  rw [hb1] at this
  exact this

/-! ## Failing user copy -/

/-- C11, what the code does: when the first `user_memcpy` of a `tty_write` (of a
`tty_read`) fails, the permit taken from the gate is released back and the buffer is
exactly as before, but the call returns the byte count so far, 0, and not a negative
error code. -/
theorem copy_fault_returns_count (tty : tty_desc) (ep : Nat) (len : Int)
    (evs : List wait_event) (hlen : 0 < len) (hw : wf (get_buf tty ep)) :
    (∀ (buf : Nat → Option Nat) (fuel : Nat),
      (ep = ENDPOINT_MASTER_WRITE ∨ ep = ENDPOINT_SLAVE_WRITE) →
      (get_buf tty ep).state = TTY_STATE_NORMAL → AVAILABLE_WRITE (get_buf tty ep) ≠ 0 →
      0 < (get_buf tty ep).write_sem → buf 0 = none →
      ∃ tty1, tty_write (fuel + 1) tty buf len ep evs = .ret (0, tty1) ∧
        get_buf tty1 ep = get_buf tty ep) ∧
    (∀ (copy_ok : Int → Int → Bool),
      (ep = ENDPOINT_MASTER_READ ∨ ep = ENDPOINT_SLAVE_READ) →
      0 < AVAILABLE_READ (get_buf tty ep) → 0 < (get_buf tty ep).read_sem →
      (∀ n, copy_ok 0 n = false) →
      ∃ tty1, tty_read tty copy_ok len ep evs = .ret (0, tty1, []) ∧
        get_buf tty1 ep = get_buf tty ep) := by
  constructor
  · intro buf fuel hep hst haw hsem hbuf
    have haw0 : (AVAILABLE_WRITE (take_write_sem (get_buf tty ep)) == 0) = false := by
      have : AVAILABLE_WRITE (take_write_sem (get_buf tty ep))
          = AVAILABLE_WRITE (get_buf tty ep) := rfl
      rw [this]
      simpa using haw
    obtain ⟨f, hf⟩ : ∃ f, len.toNat = f + 1 := ⟨len.toNat - 1, by omega⟩
    have hreg : tty_write_regular buf len len.toNat
        (wstate_load (sem_take tty ep .write_sem) ep 0 0)
        = .fault (wstate_load (sem_take tty ep .write_sem) ep 0 0) := by
      rw [hf]
      unfold tty_write_regular
      simp only [show (wstate_load (sem_take tty ep .write_sem) ep 0 0).buf_pos = 0 from rfl,
        hlen, if_true, load_lbuf, haw0, Bool.false_eq_true, if_false,
        show (0 : Int).toNat = 0 from rfl, hbuf]
    refine ⟨_, (write_enter tty buf len ep fuel evs hep hlen hw hst haw hsem).2 _ hreg, ?_⟩
    rw [store_lbuf, set_lbuf_lbuf, load_lbuf, release_take_write _ hsem]
  · intro copy_ok hep ha hsem hfail
    have hepb : (!(ep == ENDPOINT_MASTER_READ || ep == ENDPOINT_SLAVE_READ)) = false := by
      rcases hep with rfl | rfl <;> rfl
    have hacq := sem_acquire_ready ep .read_sem tty evs hsem
    have hl0 : get_buf (sem_take tty ep .read_sem) ep = take_read_sem (get_buf tty ep) := by
      simp only [sem_take, get_set_buf]
    have hw0 : wf (take_read_sem (get_buf tty ep)) := hw
    have hAR0 : AVAILABLE_READ (take_read_sem (get_buf tty ep))
        = AVAILABLE_READ (get_buf tty ep) := rfl
    have hmin : 0 < min (AVAILABLE_READ (get_buf tty ep)) len := by
      simp only [lt_min_iff]
      exact ⟨ha, hlen⟩
    obtain ⟨f, hf⟩ : ∃ f, (min (AVAILABLE_READ (get_buf tty ep)) len).toNat = f + 1 :=
      ⟨(min (AVAILABLE_READ (get_buf tty ep)) len).toNat - 1, by omega⟩
    have hloop : tty_read_loop copy_ok (min (AVAILABLE_READ (get_buf tty ep)) len).toNat
        (take_read_sem (get_buf tty ep)) (min (AVAILABLE_READ (get_buf tty ep)) len) 0 []
        = .fault (take_read_sem (get_buf tty ep)) 0 [] := by
      rw [hf]
      unfold tty_read_loop
      simp only [gt_iff_lt, hmin, if_true, hfail, Bool.false_eq_true, if_false]
    refine ⟨set_buf (sem_take tty ep .read_sem) ep
      (release_read_sem (take_read_sem (get_buf tty ep))), ?_, ?_⟩
    · unfold tty_read
      simp only [show ¬ (len < 0) by omega, if_false,
        show (len == 0) = false by simp only [beq_eq_false_iff_ne, ne_eq]; omega,
        Bool.false_eq_true, hepb, hacq, hl0, wf_checks _ hw0, Bool.not_true, hAR0,
        show decide (min (AVAILABLE_READ (get_buf tty ep)) len > 0) = true by
          simp only [gt_iff_lt, decide_eq_true_eq]; exact hmin,
        hloop]
    · rw [get_set_buf, release_take_read _ hsem]

/-- C11 on a terminal of capacity 8: a write of one byte from an unreadable address on
the fresh terminal, and a read of one byte to an unwritable address after `"a"` was
queued; both return 0. -/
theorem copy_fault_returns_count_witness :
    (∃ tty1, tty_write 1 (init_tty_desc 8 0) (fun _ => none) 1 ENDPOINT_SLAVE_WRITE []
        = .ret (0, tty1) ∧
      get_buf tty1 ENDPOINT_SLAVE_WRITE = get_buf (init_tty_desc 8 0) ENDPOINT_SLAVE_WRITE) ∧
    (∃ tty1,
      tty_read (ret_tty (tty_write 1 (init_tty_desc 8 0) (user_bytes [97]) 1
          ENDPOINT_SLAVE_WRITE []) (init_tty_desc 8 0)) (fun _ _ => false) 1
          ENDPOINT_MASTER_READ [] = .ret (0, tty1, []) ∧
      get_buf tty1 ENDPOINT_MASTER_READ
        = get_buf (ret_tty (tty_write 1 (init_tty_desc 8 0) (user_bytes [97]) 1
            ENDPOINT_SLAVE_WRITE []) (init_tty_desc 8 0)) ENDPOINT_MASTER_READ) :=
  ⟨(copy_fault_returns_count (init_tty_desc 8 0) ENDPOINT_SLAVE_WRITE 1 [] (by decide)
      (by decide)).1 (fun _ => none) 0 (Or.inr rfl) rfl (by decide) (by decide) rfl,
   (copy_fault_returns_count
      (ret_tty (tty_write 1 (init_tty_desc 8 0) (user_bytes [97]) 1
        ENDPOINT_SLAVE_WRITE []) (init_tty_desc 8 0))
      ENDPOINT_MASTER_READ 1 [] (by decide) (by decide)).2 (fun _ _ => false) (Or.inl rfl)
      (by decide) (by decide) (fun _ => rfl)⟩

/-! ## Control and occupancy -/

/-- C12: for every terminal and every pair of flag sets `(p, q)`, a set-flags ioctl whose
user copy succeeds returns 0 and replaces the flags of both buffers together, changing
nothing else (indices, translation state, contents, semaphores, the pool fields); a
get-flags ioctl that follows returns exactly `(p, q)`; a set-flags whose user copy
fails returns the error and leaves the terminal, both flag sets included, unchanged. -/
theorem flags_round_trip (tty : tty_desc) (p q : Nat) (e1 e2 : Int) (ubuf : tty_flags)
    (h1 : 0 ≤ e1) (h2 : 0 ≤ e2) :
    tty_ioctl tty _TTY_IOCTL_SET_TTY_FLAGS e1 ⟨p, q⟩ = (0, with_flags tty p q, ⟨p, q⟩) ∧
    tty_ioctl (with_flags tty p q) _TTY_IOCTL_GET_TTY_FLAGS e2 ubuf
      = (0, with_flags tty p q, ⟨p, q⟩) ∧
    (get_buf (with_flags tty p q) ENDPOINT_MASTER_WRITE
        = { get_buf tty ENDPOINT_MASTER_WRITE with flags := p } ∧
      get_buf (with_flags tty p q) ENDPOINT_SLAVE_WRITE
        = { get_buf tty ENDPOINT_SLAVE_WRITE with flags := q }) ∧
    (∀ e : Int, e < 0 →
      tty_ioctl tty _TTY_IOCTL_SET_TTY_FLAGS e ⟨p, q⟩ = (e, tty, ⟨p, q⟩)) := by
  refine ⟨?_, ?_, ⟨rfl, rfl⟩, ?_⟩
  · unfold tty_ioctl
    simp only [show (_TTY_IOCTL_SET_TTY_FLAGS == _TTY_IOCTL_GET_TTY_NUM) = false from rfl,
      show (_TTY_IOCTL_SET_TTY_FLAGS == _TTY_IOCTL_GET_TTY_FLAGS) = false from rfl,
      Bool.false_eq_true, if_false, beq_self_eq_true, if_true, show ¬ (e1 < 0) by omega]
    rfl
  · unfold tty_ioctl
    simp only [show (_TTY_IOCTL_GET_TTY_FLAGS == _TTY_IOCTL_GET_TTY_NUM) = false from rfl,
      Bool.false_eq_true, if_false, beq_self_eq_true, if_true, show ¬ (e2 < 0) by omega]
    rfl
  · intro e he
    unfold tty_ioctl
    simp only [show (_TTY_IOCTL_SET_TTY_FLAGS == _TTY_IOCTL_GET_TTY_NUM) = false from rfl,
      show (_TTY_IOCTL_SET_TTY_FLAGS == _TTY_IOCTL_GET_TTY_FLAGS) = false from rfl,
      Bool.false_eq_true, if_false, beq_self_eq_true, if_true, he]

/-- C12 on a fresh terminal with the pair `(5, 3)`. -/
theorem flags_round_trip_witness :
    tty_ioctl (init_tty_desc 8 0) _TTY_IOCTL_SET_TTY_FLAGS 0 ⟨5, 3⟩
      = (0, with_flags (init_tty_desc 8 0) 5 3, ⟨5, 3⟩) ∧
    tty_ioctl (with_flags (init_tty_desc 8 0) 5 3) _TTY_IOCTL_GET_TTY_FLAGS 0 ⟨0, 0⟩
      = (0, with_flags (init_tty_desc 8 0) 5 3, ⟨5, 3⟩) :=
  ⟨(flags_round_trip (init_tty_desc 8 0) 5 3 0 0 ⟨0, 0⟩ (by decide) (by decide)).1,
   (flags_round_trip (init_tty_desc 8 0) 5 3 0 0 ⟨0, 0⟩ (by decide) (by decide)).2.1⟩

theorem insert_all_wf (cs : List (Nat × Bool)) : ∀ (l : line_buffer), wf l →
    cs.length + cyc l.head l.tail l.len < l.len →
    wf (insert_all l cs) ∧ (insert_all l cs).tail = l.tail ∧ (insert_all l cs).len = l.len ∧
      cyc (insert_all l cs).head (insert_all l cs).tail (insert_all l cs).len
        = cyc l.head l.tail l.len + cs.length := by
  induction cs with
  | nil =>
    intro l hw _
    exact ⟨hw, rfl, rfl, rfl⟩
  | cons x cs ih =>
    intro l hw hroom
    simp only [List.length_cons] at hroom
    have h1 := insert_wf l x.1 x.2 hw
    have h2 := insert_cyc l x.1 x.2 hw (by omega)
    obtain ⟨i1, i2, i3, i4⟩ := ih (tty_insert_char l x.1 x.2) h1 (by
      rw [h2, insert_len]; omega)
    have e : insert_all l (x :: cs) = insert_all (tty_insert_char l x.1 x.2) cs := rfl
    rw [e]
    refine ⟨i1, by rw [i2, insert_tail], by rw [i3, insert_len], ?_⟩
    rw [i4, h2, List.length_cons]
    omega

/-- C14: for every capacity `C > 1` and every `k <= C-1`, after `k` calls of
`tty_insert_char` (any bytes, any `move_line_start`) on an empty well-formed buffer
`available_to_read == k` and `available_to_write == C-1-k`, their sum being `C-1`; and
for every well-formed buffer with `available_to_write > 0` one `tty_insert_char` raises
`available_to_read` by exactly 1 and leaves `tail` unchanged. -/
theorem occupancy_accounting (l : line_buffer) (hw : wf l) :
    (∀ cs : List (Nat × Bool), 1 < l.len → AVAILABLE_READ l = 0 → cs.length ≤ l.len - 1 →
      AVAILABLE_READ (insert_all l cs) = (cs.length : Int) ∧
      AVAILABLE_WRITE (insert_all l cs) = (l.len : Int) - 1 - (cs.length : Int) ∧
      AVAILABLE_READ (insert_all l cs) + AVAILABLE_WRITE (insert_all l cs)
        = (l.len : Int) - 1) ∧
    (∀ (c : Nat) (m : Bool), 0 < AVAILABLE_WRITE l →
      AVAILABLE_READ (tty_insert_char l c m) = AVAILABLE_READ l + 1 ∧
      (tty_insert_char l c m).tail = l.tail) := by
  constructor
  · intro cs hC hempty hk
    have hc0 : cyc l.head l.tail l.len = 0 := by
      have := AVAILABLE_READ_eq l hw
      omega
    obtain ⟨i1, _, i3, i4⟩ := insert_all_wf cs l hw (by omega)
    have hr : AVAILABLE_READ (insert_all l cs) = (cs.length : Int) := by
      rw [AVAILABLE_READ_eq _ i1, i4, hc0]
      simp
    refine ⟨hr, ?_, ?_⟩
    · rw [AVAILABLE_WRITE, hr, i3]
    · rw [AVAILABLE_WRITE, hr, i3]
      omega
  · intro c m haw
    have hroom : cyc l.head l.tail l.len + 1 < l.len := by
      have := AVAILABLE_WRITE_eq l hw
      omega
    refine ⟨?_, insert_tail l c m⟩
    rw [AVAILABLE_READ_eq _ (insert_wf l c m hw), insert_cyc l c m hw hroom,
      AVAILABLE_READ_eq l hw]
    simp

/-- C14 on the empty buffer of capacity 4: three insertions fill it. -/
theorem occupancy_accounting_witness :
    (AVAILABLE_READ (insert_all (init_line_buffer 4 0) [(97, false), (98, true), (99, false)])
        = 3 ∧
      AVAILABLE_WRITE (insert_all (init_line_buffer 4 0) [(97, false), (98, true), (99, false)])
        = 4 - 1 - 3) ∧
    AVAILABLE_READ (tty_insert_char (init_line_buffer 4 0) 97 false)
      = AVAILABLE_READ (init_line_buffer 4 0) + 1 :=
  ⟨⟨((occupancy_accounting (init_line_buffer 4 0) (by decide)).1
        [(97, false), (98, true), (99, false)] (by decide) (by decide) (by decide)).1,
     ((occupancy_accounting (init_line_buffer 4 0) (by decide)).1
        [(97, false), (98, true), (99, false)] (by decide) (by decide) (by decide)).2.1⟩,
   ((occupancy_accounting (init_line_buffer 4 0) (by decide)).2 97 false (by decide)).1⟩

/-! ## Backspace -/

theorem finish_fields (s : wstate) :
    (finish s).lbuf.head = s.lbuf.head ∧ (finish s).lbuf.tail = s.lbuf.tail ∧
      (finish s).lbuf.line_start = s.lbuf.line_start ∧ (finish s).lbuf.len = s.lbuf.len ∧
      (finish s).lbuf.buffer = s.lbuf.buffer ∧ (finish s).lbuf.flags = s.lbuf.flags ∧
      (finish s).lbuf.state = s.lbuf.state ∧ (finish s).lbuf.read_sem = s.lbuf.read_sem ∧
      readable (finish s).lbuf = readable s.lbuf ∧
      AVAILABLE_READ (finish s).lbuf = AVAILABLE_READ s.lbuf := by
  rcases finish_lbuf s with e | e <;> rw [e] <;> exact ⟨rfl, rfl, rfl, rfl, rfl, rfl, rfl, rfl, rfl, rfl⟩

/-- The loop body on a backspace in canonical mode. -/
theorem backspace_char (s : wstate) (hcanon : (s.lbuf.flags &&& TTY_FLAG_CANON != 0) = true) :
    tty_write_char s 8
      = .exit_loop
          (if s.lbuf.head ≠ s.lbuf.line_start then
            set_other (set_lbuf s (DEC_HEAD s.lbuf)) (echo_into s.lbuf s.other_lbuf 8)
          else s) := by
  unfold tty_write_char
  simp only [hcanon, if_true, show ((8 : Nat) == 10) = false from rfl, Bool.false_and,
    Bool.false_eq_true, if_false, beq_self_eq_true]
  by_cases hne : s.lbuf.head = s.lbuf.line_start
  · simp only [hne, bne_self_eq_false, Bool.false_eq_true, if_false, echo_false, ne_eq,
      not_true_eq_false]
  · have : (s.lbuf.head != s.lbuf.line_start) = true := by simpa using hne
    simp only [this, if_true, echo_eq, set_lbuf_lbuf, set_lbuf_other, ne_eq, hne,
      not_false_eq_true]
    congr 2

/-- C13: for every Canonical buffer (well formed, in Normal state, with room so that the
byte is processed, the gate holding a permit), a backspace byte processed by `tty_write`
is consumed (the call returns 1); `tail`, `line_start` and the stored bytes are never
changed, so nothing is inserted; when `head == line_start` also `head` and the readable
content are unchanged, and when `head != line_start` `head` retreats by exactly one
(mod `C`). -/
theorem backspace_bounded (tty : tty_desc) (ep fuel : Nat) (evs : List wait_event)
    (hep : ep = ENDPOINT_MASTER_WRITE ∨ ep = ENDPOINT_SLAVE_WRITE)
    (hcanon : (get_buf tty ep).flags &&& TTY_FLAG_CANON ≠ 0)
    (hw : wf (get_buf tty ep)) (hst : (get_buf tty ep).state = TTY_STATE_NORMAL)
    (haw : AVAILABLE_WRITE (get_buf tty ep) ≠ 0) (hsem : 0 < (get_buf tty ep).write_sem) :
    ∃ tty1, tty_write (fuel + 1) tty (user_bytes [8]) 1 ep evs = .ret (1, tty1) ∧
      (get_buf tty1 ep).tail = (get_buf tty ep).tail ∧
      (get_buf tty1 ep).line_start = (get_buf tty ep).line_start ∧
      (get_buf tty1 ep).buffer = (get_buf tty ep).buffer ∧
      (get_buf tty1 ep).len = (get_buf tty ep).len ∧
      ((get_buf tty ep).head = (get_buf tty ep).line_start →
        (get_buf tty1 ep).head = (get_buf tty ep).head ∧
        readable (get_buf tty1 ep) = readable (get_buf tty ep)) ∧
      ((get_buf tty ep).head ≠ (get_buf tty ep).line_start →
        (get_buf tty1 ep).head
          = ((((get_buf tty ep).head : Int) - 1) % ((get_buf tty ep).len : Int)).toNat ∧
        (get_buf tty1 ep).head
          = if (get_buf tty ep).head = 0 then (get_buf tty ep).len - 1
            else (get_buf tty ep).head - 1) := by
  have hc : ((advance (wstate_load (sem_take tty ep .write_sem) ep 0 0)).lbuf.flags
      &&& TTY_FLAG_CANON != 0) = true := by
    rw [advance_lbuf, load_lbuf]
    simpa using hcanon
  have hchar := backspace_char _ hc
  have hrun := write_single tty 8 ep fuel evs _ hep hw hst haw hsem hchar
  refine ⟨_, hrun, ?_⟩
  rw [store_lbuf]
  obtain ⟨f1, f2, f3, f4, f5, _, _, _, f9, _⟩ := finish_fields
    (if (advance (wstate_load (sem_take tty ep .write_sem) ep 0 0)).lbuf.head
        ≠ (advance (wstate_load (sem_take tty ep .write_sem) ep 0 0)).lbuf.line_start then
      set_other (set_lbuf (advance (wstate_load (sem_take tty ep .write_sem) ep 0 0))
          (DEC_HEAD (advance (wstate_load (sem_take tty ep .write_sem) ep 0 0)).lbuf))
        (echo_into (advance (wstate_load (sem_take tty ep .write_sem) ep 0 0)).lbuf
          (advance (wstate_load (sem_take tty ep .write_sem) ep 0 0)).other_lbuf 8)
    else advance (wstate_load (sem_take tty ep .write_sem) ep 0 0))
  rw [f1, f2, f3, f4, f5, f9]
  simp only [advance_lbuf, load_lbuf]
  have hh : (take_write_sem (get_buf tty ep)).head = (get_buf tty ep).head := rfl
  have hl : (take_write_sem (get_buf tty ep)).line_start = (get_buf tty ep).line_start := rfl
  rw [hh, hl]
  by_cases hne : (get_buf tty ep).head = (get_buf tty ep).line_start
  · simp only [hne, ne_eq, not_true_eq_false, if_false, advance_lbuf, load_lbuf]
    exact ⟨rfl, rfl, rfl, rfl, fun _ => ⟨hne, rfl⟩, fun h => h.elim⟩
  · simp only [hne, ne_eq, not_false_eq_true, if_true, set_other_lbuf, set_lbuf_lbuf]
    refine ⟨rfl, rfl, rfl, rfl, fun h => h.elim, fun _ => ⟨rfl, ?_⟩⟩
    exact dec_head_head (take_write_sem (get_buf tty ep)) hw

/-- C13 on a fresh terminal of capacity 8 after the master wrote `"a"`: a backspace
retreats `head` from 1 to 0. -/
theorem backspace_bounded_witness :
    ∃ tty1,
      tty_write 1 (ret_tty (tty_write 1 (init_tty_desc 8 0) (user_bytes [97]) 1
          ENDPOINT_MASTER_WRITE []) (init_tty_desc 8 0)) (user_bytes [8]) 1
          ENDPOINT_MASTER_WRITE [] = .ret (1, tty1) ∧
      (get_buf tty1 ENDPOINT_MASTER_WRITE).head = 0 ∧
      (get_buf tty1 ENDPOINT_MASTER_WRITE).tail = 0 ∧
      (get_buf tty1 ENDPOINT_MASTER_WRITE).line_start = 0 :=
  let h := backspace_bounded
    (ret_tty (tty_write 1 (init_tty_desc 8 0) (user_bytes [97]) 1
      ENDPOINT_MASTER_WRITE []) (init_tty_desc 8 0))
    ENDPOINT_MASTER_WRITE 0 [] (Or.inl rfl) (by decide) (by decide) (by decide) (by decide)
    (by decide)
  h.elim (fun t ht => ⟨t, ht.1, (ht.2.2.2.2.2.2 (by decide)).2, ht.2.1, ht.2.2.1⟩)

/-! ## What the echo receives -/

/-- The loop body on an ordinary byte in canonical mode. -/
theorem ordinary_char (s : wstate) (c : Nat) (hc : ordinary c)
    (hcanon : (s.lbuf.flags &&& TTY_FLAG_CANON != 0) = true) :
    tty_write_char s c
      = .exit_loop (set_other (set_lbuf s (tty_insert_char s.lbuf c false))
          (echo_into s.lbuf s.other_lbuf c)) := by
  obtain ⟨h1, h2, h3, h4⟩ := hc
  have e1 : (c == 10) = false := by simpa using h1
  have e2 : (c == 8) = false := by simpa using h4
  have e3 : (c == 13 || c == 0) = false := by simp [h2, h3]
  unfold tty_write_char
  simp only [hcanon, if_true, e1, e2, e3, Bool.false_and, Bool.false_eq_true, if_false, echo_eq,
    set_lbuf_lbuf, set_lbuf_other]
  congr 2
  exact echo_into_flags _ _ _ _ (by simp)

theorem echo_into_on (l : line_buffer) (h : (l.flags &&& TTY_FLAG_ECHO != 0) = true) :
    echo_into l = fun o c => tty_insert_char o c true := by
  funext o c
  unfold echo_into
  rw [if_pos h]

theorem holds_line_start (l : line_buffer) (hw : wf l) (hls : l.line_start = l.head) :
    holds l (readable l) 0 := by
  obtain ⟨h1, h2, h3, _⟩ := holds_of_wf l hw
  refine ⟨h1, h2, h3, fun _ => ?_⟩
  rw [hls]
  exact (cyc_eq_zero _ _ _ hw.2.1 hw.2.1).mpr rfl

/-- C16 as stated fails: on the fresh terminal the master writes `"a"`, mirrored as `"a"`;
the backspace it writes next erases the byte and puts 0x08 into the opposite buffer. -/
theorem backspace_is_echoed :
    readable (get_buf (ret_tty (tty_write 1 (init_tty_desc 8 0) (user_bytes [97]) 1
        ENDPOINT_MASTER_WRITE []) (init_tty_desc 8 0)) ENDPOINT_SLAVE_WRITE) = [97] ∧
    ∃ t1, tty_write 1 (ret_tty (tty_write 1 (init_tty_desc 8 0) (user_bytes [97]) 1
        ENDPOINT_MASTER_WRITE []) (init_tty_desc 8 0)) (user_bytes [8]) 1
        ENDPOINT_MASTER_WRITE [] = .ret (1, t1) ∧
      readable (get_buf t1 ENDPOINT_MASTER_WRITE) = [] ∧
      readable (get_buf t1 ENDPOINT_SLAVE_WRITE) = [97, 8] ∧
      get_buf t1 ENDPOINT_SLAVE_WRITE
        ≠ get_buf (ret_tty (tty_write 1 (init_tty_desc 8 0) (user_bytes [97]) 1
            ENDPOINT_MASTER_WRITE []) (init_tty_desc 8 0)) ENDPOINT_SLAVE_WRITE :=
  ⟨by decide, _, rfl, by decide, by decide, by decide⟩

/-- C16 (amended): for every `tty_write` on a Canonical+Echo buffer (well formed, in Normal
state, with room, the gate holding a permit), a backspace byte that erases nothing
(`head == line_start`) inserts nothing into the opposite buffer, and one that erases a
byte is itself mirrored: the byte 0x08 is inserted into the opposite buffer; a byte
inserted into the written buffer is mirrored; for a request that fits, the bytes mirrored
are, in order, those of `echo_list`: the inserted bytes and one 0x08 for every
erasure. -/
theorem backspace_echo (tty : tty_desc) (ep fuel : Nat) (evs : List wait_event)
    (hep : ep = ENDPOINT_MASTER_WRITE ∨ ep = ENDPOINT_SLAVE_WRITE)
    (hcanon : (get_buf tty ep).flags &&& TTY_FLAG_CANON ≠ 0)
    (hecho : (get_buf tty ep).flags &&& TTY_FLAG_ECHO ≠ 0)
    (hw : wf (get_buf tty ep)) (hst : (get_buf tty ep).state = TTY_STATE_NORMAL)
    (haw : AVAILABLE_WRITE (get_buf tty ep) ≠ 0) (hsem : 0 < (get_buf tty ep).write_sem) :
    (∃ tty1, tty_write (fuel + 1) tty (user_bytes [8]) 1 ep evs = .ret (1, tty1) ∧
      (get_buf tty1 ep).buffer = (get_buf tty ep).buffer ∧
      get_buf tty1 (other_endpoint ep)
        = if (get_buf tty ep).head ≠ (get_buf tty ep).line_start then
            tty_insert_char (get_buf tty (other_endpoint ep)) 8 true
          else get_buf tty (other_endpoint ep)) ∧
    (∀ c, c ≠ 10 ∧ c ≠ 13 ∧ c ≠ 0 ∧ c ≠ 8 →
      ∃ tty1, tty_write (fuel + 1) tty (user_bytes [c]) 1 ep evs = .ret (1, tty1) ∧
        (get_buf tty1 ep).buffer = (get_buf tty ep).buffer.set (get_buf tty ep).head c ∧
        (get_buf tty1 ep).head = ((get_buf tty ep).head + 1) % (get_buf tty ep).len ∧
        get_buf tty1 (other_endpoint ep)
          = tty_insert_char (get_buf tty (other_endpoint ep)) c true) ∧
    (∀ inp : List Nat, (get_buf tty ep).line_start = (get_buf tty ep).head →
      (readable (get_buf tty ep)).length + need (get_buf tty ep).flags inp
        < (get_buf tty ep).len →
      ∃ tty1, tty_write (fuel + 1) tty (user_bytes inp) (inp.length : Int) ep evs
          = .ret ((inp.length : Int), tty1) ∧
        get_buf tty1 (other_endpoint ep)
          = (echo_list (get_buf tty ep).flags (readable (get_buf tty ep), 0) inp).foldl
              (fun o b => tty_insert_char o b true) (get_buf tty (other_endpoint ep))) := by
  have hc : ((advance (wstate_load (sem_take tty ep .write_sem) ep 0 0)).lbuf.flags
      &&& TTY_FLAG_CANON != 0) = true := by
    rw [advance_lbuf, load_lbuf]
    simpa using hcanon
  have he : ((get_buf tty ep).flags &&& TTY_FLAG_ECHO != 0) = true := by simpa using hecho
  have he0 : echo_into (take_write_sem (get_buf tty ep)) = fun o c => tty_insert_char o c true :=
    echo_into_on _ he
  refine ⟨?_, ?_, ?_⟩
  · have hrun := write_single tty 8 ep fuel evs _ hep hw hst haw hsem (backspace_char _ hc)
    refine ⟨_, hrun, ?_, ?_⟩
    · rw [store_lbuf, (finish_fields _).2.2.2.2.1]
      split
      · simp only [set_other_lbuf, set_lbuf_lbuf, advance_lbuf, load_lbuf]
        rfl
      · simp only [advance_lbuf, load_lbuf]
        rfl
    · rw [store_other _ _ _ hep, finish_other]
      simp only [advance_lbuf, advance_other, load_lbuf, load_other _ _ hep, he0]
      have hh : (take_write_sem (get_buf tty ep)).head = (get_buf tty ep).head := rfl
      have hl : (take_write_sem (get_buf tty ep)).line_start = (get_buf tty ep).line_start :=
        rfl
      rw [hh, hl]
      split
      · simp only [set_other_other]
      · simp only [advance_other, load_other _ _ hep]
  · intro c hord
    have hrun := write_single tty c ep fuel evs _ hep hw hst haw hsem (ordinary_char _ c hord hc)
    refine ⟨_, hrun, ?_, ?_, ?_⟩
    · rw [store_lbuf, (finish_fields _).2.2.2.2.1]
      simp only [set_other_lbuf, set_lbuf_lbuf, advance_lbuf, load_lbuf, insert_buffer]
      rfl
    · rw [store_lbuf, (finish_fields _).1]
      simp only [set_other_lbuf, set_lbuf_lbuf, advance_lbuf, load_lbuf, insert_head]
      rfl
    · rw [store_other _ _ _ hep, finish_other]
      simp only [set_other_other, advance_lbuf, advance_other, load_lbuf, load_other _ _ hep, he0]
  · intro inp hls hroom
    obtain ⟨tty1, r1, _, _, _, _, r6⟩ := tty_write_fits tty ep inp (readable (get_buf tty ep)) 0
      fuel evs hep (holds_line_start _ hw hls) hst hsem hroom (Or.inl (Nat.zero_le _))
    refine ⟨tty1, r1, ?_⟩
    rw [r6, echo_into_on _ he]

/-- C16 on the fresh terminal of capacity 8 after the master wrote `"a"`: its backspace
is mirrored as 0x08. -/
theorem backspace_echo_witness :
    ∃ tty1,
      tty_write 1 (ret_tty (tty_write 1 (init_tty_desc 8 0) (user_bytes [97]) 1
          ENDPOINT_MASTER_WRITE []) (init_tty_desc 8 0)) (user_bytes [8]) 1
          ENDPOINT_MASTER_WRITE [] = .ret (1, tty1) ∧
      get_buf tty1 (other_endpoint ENDPOINT_MASTER_WRITE)
        = tty_insert_char (get_buf (ret_tty (tty_write 1 (init_tty_desc 8 0) (user_bytes [97]) 1
            ENDPOINT_MASTER_WRITE []) (init_tty_desc 8 0))
            (other_endpoint ENDPOINT_MASTER_WRITE)) 8 true :=
  let h := (backspace_echo
    (ret_tty (tty_write 1 (init_tty_desc 8 0) (user_bytes [97]) 1
      ENDPOINT_MASTER_WRITE []) (init_tty_desc 8 0))
    ENDPOINT_MASTER_WRITE 0 [] (Or.inl rfl) (by decide) (by decide) (by decide) (by decide)
    (by decide) (by decide)).1
  h.elim (fun t ht => ⟨t, ht.1, ht.2.2⟩)

/-- C17 as stated fails: on the fresh terminal the master writes the ordinary byte `"a"`;
it is inserted without moving `line_start` of the written buffer (0, with `head` at 1),
but `line_start` of the opposite buffer moved from 0 to 1. -/
theorem echo_moves_line_start_example :
    (get_buf (init_tty_desc 8 0) ENDPOINT_SLAVE_WRITE).line_start = 0 ∧
    ∃ t1, tty_write 1 (init_tty_desc 8 0) (user_bytes [97]) 1 ENDPOINT_MASTER_WRITE []
        = .ret (1, t1) ∧
      (get_buf t1 ENDPOINT_MASTER_WRITE).line_start = 0 ∧
      (get_buf t1 ENDPOINT_MASTER_WRITE).head = 1 ∧
      (get_buf t1 ENDPOINT_SLAVE_WRITE).line_start = 1 ∧
      (get_buf t1 ENDPOINT_SLAVE_WRITE).line_start
        ≠ (get_buf (init_tty_desc 8 0) ENDPOINT_SLAVE_WRITE).line_start :=
  ⟨by decide, _, rfl, by decide, by decide, by decide, by decide⟩

/-- C17 (amended): for every byte that `tty_write` inserts into a buffer with the Echo flag
set, the mirrored insertion into the opposite buffer uses `advance_line_start = true`,
whatever the original insertion used: an ordinary byte inserted in Canonical mode leaves
`line_start` of the written buffer where it was and is mirrored by
`tty_insert_char(other, c, true)`, which moves the opposite buffer's `line_start` to its
`head`; the `'\r'` and the `'\n'` of a CR/LF pair are both mirrored with `true`. -/
theorem echo_moves_line_start (tty : tty_desc) (ep fuel : Nat) (evs : List wait_event)
    (hep : ep = ENDPOINT_MASTER_WRITE ∨ ep = ENDPOINT_SLAVE_WRITE)
    (hecho : (get_buf tty ep).flags &&& TTY_FLAG_ECHO ≠ 0)
    (hw : wf (get_buf tty ep)) (hst : (get_buf tty ep).state = TTY_STATE_NORMAL)
    (haw : AVAILABLE_WRITE (get_buf tty ep) ≠ 0) (hsem : 0 < (get_buf tty ep).write_sem) :
    (∀ c, (get_buf tty ep).flags &&& TTY_FLAG_CANON ≠ 0 → c ≠ 10 ∧ c ≠ 13 ∧ c ≠ 0 ∧ c ≠ 8 →
      ∃ tty1, tty_write (fuel + 1) tty (user_bytes [c]) 1 ep evs = .ret (1, tty1) ∧
        (get_buf tty1 ep).line_start = (get_buf tty ep).line_start ∧
        get_buf tty1 (other_endpoint ep)
          = tty_insert_char (get_buf tty (other_endpoint ep)) c true ∧
        (get_buf tty1 (other_endpoint ep)).line_start
          = (get_buf tty1 (other_endpoint ep)).head) ∧
    ((get_buf tty ep).flags &&& TTY_FLAG_NLCR ≠ 0 →
      (2 : Int) ≤ AVAILABLE_WRITE (get_buf tty ep) →
      ∃ tty1, tty_write (fuel + 1) tty (user_bytes [10]) 1 ep evs = .ret (1, tty1) ∧
        readable (get_buf tty1 ep) = readable (get_buf tty ep) ++ [13, 10] ∧
        get_buf tty1 (other_endpoint ep)
          = tty_insert_char (tty_insert_char (get_buf tty (other_endpoint ep)) 13 true)
              10 true) := by
  have he : ((get_buf tty ep).flags &&& TTY_FLAG_ECHO != 0) = true := by simpa using hecho
  have he0 : echo_into (take_write_sem (get_buf tty ep)) = fun o c => tty_insert_char o c true :=
    echo_into_on _ he
  constructor
  · intro c hcanon hord
    have hc : ((advance (wstate_load (sem_take tty ep .write_sem) ep 0 0)).lbuf.flags
        &&& TTY_FLAG_CANON != 0) = true := by
      rw [advance_lbuf, load_lbuf]
      simpa using hcanon
    have hrun := write_single tty c ep fuel evs _ hep hw hst haw hsem (ordinary_char _ c hord hc)
    have ho : get_buf (wstate_store (sem_take tty ep .write_sem) ep
        (finish (set_other (set_lbuf (advance (wstate_load (sem_take tty ep .write_sem) ep 0 0))
          (tty_insert_char (advance (wstate_load (sem_take tty ep .write_sem) ep 0 0)).lbuf
            c false))
          (echo_into (advance (wstate_load (sem_take tty ep .write_sem) ep 0 0)).lbuf
            (advance (wstate_load (sem_take tty ep .write_sem) ep 0 0)).other_lbuf c))))
        (other_endpoint ep) = tty_insert_char (get_buf tty (other_endpoint ep)) c true := by
      rw [store_other _ _ _ hep, finish_other]
      simp only [set_other_other, advance_lbuf, advance_other, load_lbuf, load_other _ _ hep, he0]
    refine ⟨_, hrun, ?_, ho, ?_⟩
    · rw [store_lbuf, (finish_fields _).2.2.1]
      simp only [set_other_lbuf, set_lbuf_lbuf, advance_lbuf, load_lbuf, insert_line_start,
        Bool.false_eq_true, if_false]
      rfl
    · rw [ho, insert_line_start, if_pos rfl, insert_head]
  · intro hnlcr hroom
    have hn : ((get_buf tty ep).flags &&& TTY_FLAG_NLCR != 0) = true := by simpa using hnlcr
    have hh := holds_of_wf _ hw
    have hlen : (readable (get_buf tty ep)).length + 2 < (get_buf tty ep).len := by
      have := AVAILABLE_WRITE_eq _ hw
      rw [hh.2.2.1] at this
      omega
    obtain ⟨n1, n2, n3⟩ := newline_edit (get_buf tty ep).flags
      (readable (get_buf tty ep), (readable (get_buf tty ep)).length + 1) hn
    obtain ⟨tty1, r1, r2, _, _, _, r6⟩ := tty_write_fits tty ep [10] _ _ fuel evs hep hh hst hsem
      (by rw [need_cons, n3]; simp only [need, List.map_nil, List.sum_nil]; omega)
      (Or.inr (by decide))
    refine ⟨tty1, by simpa using r1, ?_, ?_⟩
    · rw [r2.2.1, List.foldl_cons, List.foldl_nil, n1]
    · rw [r6, echo_into_on _ he]
      simp only [echo_list, n2, List.append_nil, List.foldl_cons, List.foldl_nil]

/-- C17 on the fresh terminal of capacity 8: the byte `"a"` written by the master. -/
theorem echo_moves_line_start_witness :
    ∃ tty1, tty_write 1 (init_tty_desc 8 0) (user_bytes [97]) 1 ENDPOINT_MASTER_WRITE []
        = .ret (1, tty1) ∧
      (get_buf tty1 ENDPOINT_MASTER_WRITE).line_start
        = (get_buf (init_tty_desc 8 0) ENDPOINT_MASTER_WRITE).line_start ∧
      get_buf tty1 (other_endpoint ENDPOINT_MASTER_WRITE)
        = tty_insert_char (get_buf (init_tty_desc 8 0) (other_endpoint ENDPOINT_MASTER_WRITE))
            97 true ∧
      (get_buf tty1 (other_endpoint ENDPOINT_MASTER_WRITE)).line_start
        = (get_buf tty1 (other_endpoint ENDPOINT_MASTER_WRITE)).head :=
  (echo_moves_line_start (init_tty_desc 8 0) ENDPOINT_MASTER_WRITE 0 [] (Or.inl rfl)
    (by decide) (by decide) (by decide) (by decide) (by decide)).1 97 (by decide) (by decide)

/-! ## Line boundary and the gate -/

/-- The loop body on `'\n'` in canonical mode without translation: the `case '\n'` falls
through to `default`. -/
theorem plain_newline_char (s : wstate)
    (hcanon : (s.lbuf.flags &&& TTY_FLAG_CANON != 0) = true)
    (hnlcr : (s.lbuf.flags &&& TTY_FLAG_NLCR != 0) = false) :
    tty_write_char s 10
      = .exit_loop (set_other (set_lbuf s (tty_insert_char s.lbuf 10 false))
          (echo_into s.lbuf s.other_lbuf 10)) := by
  unfold tty_write_char
  simp only [hcanon, hnlcr, if_true, Bool.and_false, Bool.false_eq_true, if_false,
    show ((10 : Nat) == 8) = false from rfl,
    show ((10 : Nat) == 13 || (10 : Nat) == 0) = false from rfl, echo_eq, set_lbuf_lbuf,
    set_lbuf_other]
  congr 2
  exact echo_into_flags _ _ _ _ (by simp)

/-- C18, what the code does: on a buffer with Canonical set and TranslateNLtoCRLF clear
(well formed, Normal state, room, a permit on the gate), a `'\n'` processed by
`tty_write` is inserted with `move_line_start == false`: `line_start` stays where it was
while `head` advances; and when the line starts at `head`, writing `"\n"` followed by a
backspace leaves the readable content as it was: the backspace erased the `'\n'`. -/
theorem plain_newline_erasable (tty : tty_desc) (ep fuel : Nat) (evs : List wait_event)
    (hep : ep = ENDPOINT_MASTER_WRITE ∨ ep = ENDPOINT_SLAVE_WRITE)
    (hcanon : (get_buf tty ep).flags &&& TTY_FLAG_CANON ≠ 0)
    (hnlcr : (get_buf tty ep).flags &&& TTY_FLAG_NLCR = 0)
    (hw : wf (get_buf tty ep)) (hst : (get_buf tty ep).state = TTY_STATE_NORMAL)
    (hsem : 0 < (get_buf tty ep).write_sem) :
    (AVAILABLE_WRITE (get_buf tty ep) ≠ 0 →
      ∃ tty1, tty_write (fuel + 1) tty (user_bytes [10]) 1 ep evs = .ret (1, tty1) ∧
        (get_buf tty1 ep).line_start = (get_buf tty ep).line_start ∧
        (get_buf tty1 ep).head = ((get_buf tty ep).head + 1) % (get_buf tty ep).len) ∧
    ((get_buf tty ep).line_start = (get_buf tty ep).head →
      (2 : Int) ≤ AVAILABLE_WRITE (get_buf tty ep) →
      ∃ tty1, tty_write (fuel + 1) tty (user_bytes [10, 8]) 2 ep evs = .ret (2, tty1) ∧
        readable (get_buf tty1 ep) = readable (get_buf tty ep)) := by
  have hc0 : ((get_buf tty ep).flags &&& TTY_FLAG_CANON != 0) = true := by simpa using hcanon
  have hn0 : ((get_buf tty ep).flags &&& TTY_FLAG_NLCR != 0) = false := by simpa using hnlcr
  constructor
  · intro haw
    have hc : ((advance (wstate_load (sem_take tty ep .write_sem) ep 0 0)).lbuf.flags
        &&& TTY_FLAG_CANON != 0) = true := by
      rw [advance_lbuf, load_lbuf]
      exact hc0
    have hn : ((advance (wstate_load (sem_take tty ep .write_sem) ep 0 0)).lbuf.flags
        &&& TTY_FLAG_NLCR != 0) = false := by
      rw [advance_lbuf, load_lbuf]
      exact hn0
    have hrun := write_single tty 10 ep fuel evs _ hep hw hst haw hsem
      (plain_newline_char _ hc hn)
    refine ⟨_, hrun, ?_, ?_⟩
    · rw [store_lbuf, (finish_fields _).2.2.1]
      simp only [set_other_lbuf, set_lbuf_lbuf, advance_lbuf, load_lbuf, insert_line_start,
        Bool.false_eq_true, if_false]
      rfl
    · rw [store_lbuf, (finish_fields _).1]
      simp only [set_other_lbuf, set_lbuf_lbuf, advance_lbuf, load_lbuf, insert_head]
      rfl
  · intro hls hroom
    have hh := holds_line_start _ hw hls
    have hlen : (readable (get_buf tty ep)).length + 2 < (get_buf tty ep).len := by
      have := AVAILABLE_WRITE_eq _ hw
      rw [hh.2.2.1] at this
      omega
    have hcost : need (get_buf tty ep).flags [10, 8] = 2 := by
      simp [need, cost, hn0]
    obtain ⟨tty1, r1, r2, _⟩ := tty_write_fits tty ep [10, 8] _ 0 fuel evs hep hh hst hsem
      (by rw [hcost]; exact hlen) (Or.inl (Nat.zero_le _))
    refine ⟨tty1, by simpa using r1, ?_⟩
    rw [r2.2.1]
    simp [line_edit, hc0, hn0]

/-- C18 on the fresh terminal of capacity 8 whose master-to-slave flags were set to
Canonical alone: the master writes `"\n"` followed by a backspace; the buffer is empty
again. -/
theorem plain_newline_erasable_witness :
    ∃ tty1,
      tty_write 1 (with_flags (init_tty_desc 8 0) TTY_FLAG_CANON TTY_FLAG_NLCR)
          (user_bytes [10, 8]) 2 ENDPOINT_MASTER_WRITE [] = .ret (2, tty1) ∧
      readable (get_buf tty1 ENDPOINT_MASTER_WRITE)
        = readable (get_buf (with_flags (init_tty_desc 8 0) TTY_FLAG_CANON TTY_FLAG_NLCR)
            ENDPOINT_MASTER_WRITE) :=
  (plain_newline_erasable (with_flags (init_tty_desc 8 0) TTY_FLAG_CANON TTY_FLAG_NLCR)
    ENDPOINT_MASTER_WRITE 0 [] (Or.inl rfl) (by decide) (by decide) (by decide) (by decide)
    (by decide)).2 (by decide) (by decide)

/-- The whole scenario at the failing input of C18: set-flags makes the master-to-slave
buffer Canonical without translation; the master writes `"a\n"`, after which
`line_start` is still 0 with `head` at 2, and then a backspace, which erases the
`'\n'`. -/
theorem plain_newline_erased_from_init :
    tty_ioctl (init_tty_desc 8 0) _TTY_IOCTL_SET_TTY_FLAGS 0 ⟨TTY_FLAG_CANON, TTY_FLAG_NLCR⟩
      = (0, with_flags (init_tty_desc 8 0) TTY_FLAG_CANON TTY_FLAG_NLCR,
          ⟨TTY_FLAG_CANON, TTY_FLAG_NLCR⟩) ∧
    (∃ t1, tty_write 1 (with_flags (init_tty_desc 8 0) TTY_FLAG_CANON TTY_FLAG_NLCR)
        (user_bytes [97, 10]) 2 ENDPOINT_MASTER_WRITE [] = .ret (2, t1) ∧
      readable (get_buf t1 ENDPOINT_MASTER_WRITE) = [97, 10] ∧
      (get_buf t1 ENDPOINT_MASTER_WRITE).line_start = 0 ∧
      (get_buf t1 ENDPOINT_MASTER_WRITE).head = 2 ∧
      ∃ t2, tty_write 1 t1 (user_bytes [8]) 1 ENDPOINT_MASTER_WRITE [] = .ret (1, t2) ∧
        readable (get_buf t2 ENDPOINT_MASTER_WRITE) = [97]) :=
  ⟨by decide, _, rfl, by decide, by decide, by decide, _, rfl, by decide⟩

/-- C15 at the failing input: on the fresh terminal of capacity 8 the master writes `"a"`
followed by a backspace; the call completes, the master-to-slave buffer is empty
(`available_to_read == 0`) and its data-available gate holds a permit; the slave's
`tty_read` passes the gate, finds no byte and halts in `ASSERT(len > 0)`. -/
theorem gate_permit_on_empty_buffer :
    (∃ t1, tty_write 1 (init_tty_desc 8 0) (user_bytes [97, 8]) 2 ENDPOINT_MASTER_WRITE []
        = .ret (2, t1) ∧
      AVAILABLE_READ (get_buf t1 ENDPOINT_SLAVE_READ) = 0 ∧
      (get_buf t1 ENDPOINT_SLAVE_READ).read_sem = 1 ∧
      tty_read t1 (fun _ _ => true) 1 ENDPOINT_SLAVE_READ [] = .panic) :=
  ⟨_, rfl, by decide, by decide, by decide⟩

/-- C20, what the code does: `tty_read` moves `tail` and never `line_start`, so after a
reader drained a Canonical buffer whose line was still open, `line_start` lies outside
the live data; on such a buffer (empty, `head != line_start`, capacity above 1, Normal
state, a permit on the gate) a backspace processed by `tty_write` retreats `head` behind
`tail`, and the buffer that was empty reads as holding `C-1` bytes. -/
theorem backspace_after_drain (tty : tty_desc) (ep fuel : Nat) (evs : List wait_event)
    (hep : ep = ENDPOINT_MASTER_WRITE ∨ ep = ENDPOINT_SLAVE_WRITE)
    (hcanon : (get_buf tty ep).flags &&& TTY_FLAG_CANON ≠ 0)
    (hw : wf (get_buf tty ep)) (hst : (get_buf tty ep).state = TTY_STATE_NORMAL)
    (hsem : 0 < (get_buf tty ep).write_sem) (hcap : 1 < (get_buf tty ep).len)
    (hempty : AVAILABLE_READ (get_buf tty ep) = 0)
    (hne : (get_buf tty ep).head ≠ (get_buf tty ep).line_start) :
    ∃ tty1, tty_write (fuel + 1) tty (user_bytes [8]) 1 ep evs = .ret (1, tty1) ∧
      AVAILABLE_READ (get_buf tty1 ep) = ((get_buf tty ep).len : Int) - 1 ∧
      AVAILABLE_READ (get_buf tty1 ep) ≠ 0 ∧
      (readable (get_buf tty1 ep)).length = (get_buf tty ep).len - 1 := by
  have hc : ((advance (wstate_load (sem_take tty ep .write_sem) ep 0 0)).lbuf.flags
      &&& TTY_FLAG_CANON != 0) = true := by
    rw [advance_lbuf, load_lbuf]
    simpa using hcanon
  have haw : AVAILABLE_WRITE (get_buf tty ep) ≠ 0 := by
    rw [AVAILABLE_WRITE, hempty]
    omega
  have hrun := write_single tty 8 ep fuel evs _ hep hw hst haw hsem (backspace_char _ hc)
  have hht : (get_buf tty ep).head = (get_buf tty ep).tail := by
    have := AVAILABLE_READ_eq _ hw
    rw [hempty] at this
    exact (cyc_eq_zero _ _ _ hw.2.1 hw.2.2.1).mp (by omega)
  have hne0 : (advance (wstate_load (sem_take tty ep .write_sem) ep 0 0)).lbuf.head
      ≠ (advance (wstate_load (sem_take tty ep .write_sem) ep 0 0)).lbuf.line_start := by
    rw [advance_lbuf, load_lbuf]
    exact hne
  rw [if_pos hne0] at hrun
  have har : AVAILABLE_READ (DEC_HEAD (take_write_sem (get_buf tty ep)))
      = ((get_buf tty ep).len : Int) - 1 := by
    have hw0 : wf (take_write_sem (get_buf tty ep)) := hw
    have hd := dec_head_head _ hw0
    obtain ⟨h1, h2, h3, _, _⟩ := hw
    unfold AVAILABLE_READ
    rw [hd]
    show ((((if (get_buf tty ep).head = 0 then (get_buf tty ep).len - 1
      else (get_buf tty ep).head - 1 : Nat) : Int)) - ((get_buf tty ep).tail : Int))
      % ((get_buf tty ep).len : Int) = _
    rw [emod_cyc _ _ _ (by split <;> omega) h3, ← hht]
    unfold cyc
    split <;> split <;> omega
  have har1 : AVAILABLE_READ (get_buf (wstate_store (sem_take tty ep .write_sem) ep
      (finish (set_other (set_lbuf (advance (wstate_load (sem_take tty ep .write_sem) ep 0 0))
        (DEC_HEAD (advance (wstate_load (sem_take tty ep .write_sem) ep 0 0)).lbuf))
        (echo_into (advance (wstate_load (sem_take tty ep .write_sem) ep 0 0)).lbuf
          (advance (wstate_load (sem_take tty ep .write_sem) ep 0 0)).other_lbuf 8)))) ep)
      = ((get_buf tty ep).len : Int) - 1 := by
    rw [store_lbuf, (finish_fields _).2.2.2.2.2.2.2.2.2]
    simp only [set_other_lbuf, set_lbuf_lbuf, advance_lbuf, load_lbuf]
    exact har
  refine ⟨_, hrun, har1, ?_, ?_⟩
  · rw [har1]
    omega
  · unfold readable
    rw [har1]
    simp only [List.length_map, List.length_range]
    omega

/-- C20 at the failing input: on the fresh terminal of capacity 8 the master writes
`"ab"` and the slave reads both bytes, which leaves the buffer empty with `tail` and
`head` at 2 and `line_start` at 0; after the master's backspace it reads as holding 7
bytes. -/
theorem backspace_after_drain_witness :
    ∃ tty1,
      tty_write 1
          (ret_tty_read (tty_read (ret_tty (tty_write 1 (init_tty_desc 8 0) (user_bytes [97, 98])
            2 ENDPOINT_MASTER_WRITE []) (init_tty_desc 8 0)) (fun _ _ => true) 2
            ENDPOINT_SLAVE_READ []) (init_tty_desc 8 0))
          (user_bytes [8]) 1 ENDPOINT_MASTER_WRITE [] = .ret (1, tty1) ∧
      AVAILABLE_READ (get_buf tty1 ENDPOINT_MASTER_WRITE) = 8 - 1 :=
  let h := backspace_after_drain
    (ret_tty_read (tty_read (ret_tty (tty_write 1 (init_tty_desc 8 0) (user_bytes [97, 98])
      2 ENDPOINT_MASTER_WRITE []) (init_tty_desc 8 0)) (fun _ _ => true) 2
      ENDPOINT_SLAVE_READ []) (init_tty_desc 8 0))
    ENDPOINT_MASTER_WRITE 0 [] (Or.inl rfl) (by decide) (by decide) (by decide) (by decide)
    (by decide) (by decide) (by decide)
  h.elim (fun t ht => ⟨t, ht.1, ht.2.1⟩)

/-- The state of C20's failing input, reached by two completed calls: the buffer is empty
and `line_start` (0) is outside the interval from `tail` (2) to `head` (2). -/
theorem line_start_outside_from_init :
    ∃ t1 t2, tty_write 1 (init_tty_desc 8 0) (user_bytes [97, 98]) 2 ENDPOINT_MASTER_WRITE []
        = .ret (2, t1) ∧
      tty_read t1 (fun _ _ => true) 2 ENDPOINT_SLAVE_READ [] = .ret (2, t2, [97, 98]) ∧
      (get_buf t2 ENDPOINT_MASTER_WRITE).tail = 2 ∧
      (get_buf t2 ENDPOINT_MASTER_WRITE).head = 2 ∧
      (get_buf t2 ENDPOINT_MASTER_WRITE).line_start = 0 :=
  ⟨_, _, rfl, rfl, by decide, by decide, by decide⟩

/-! ## Pending translation -/

/-- The first round of the loop at `tty_write_special_state` in state
`TTY_STATE_WRITE_CR`. -/
theorem special_cr_step (s : wstate) (hst : s.lbuf.state = TTY_STATE_WRITE_CR) :
    tty_write_special_state 2 s
      = if AVAILABLE_WRITE (tty_insert_char s.lbuf 13 false) == 0 then
          .exit_loop (set_other
            (set_lbuf s (set_state (tty_insert_char s.lbuf 13 false) TTY_STATE_WRITE_LF))
            (echo_into s.lbuf s.other_lbuf 13))
        else
          tty_write_special_state 1 (set_other
            (set_lbuf s (set_state (tty_insert_char s.lbuf 13 false) TTY_STATE_WRITE_LF))
            (echo_into s.lbuf s.other_lbuf 13)) := by
  have ef : echo_into (set_state (tty_insert_char s.lbuf 13 false) TTY_STATE_WRITE_LF)
      s.other_lbuf 13 = echo_into s.lbuf s.other_lbuf 13 := echo_into_flags _ _ _ _ (by simp)
  conv => lhs; unfold tty_write_special_state
  simp only [hst, TTY_STATE_WRITE_CR, TTY_STATE_NORMAL, bne_iff_ne, ne_eq, one_ne_zero,
    not_false_eq_true, if_true, beq_self_eq_true, echo_eq, set_lbuf_lbuf, set_lbuf_other,
    set_other_lbuf, set_state_avail]
  rw [ef]

/-- One attempt on a buffer with room for a byte enters the loop at
`tty_write_special_state` before the loop over the request.  Left in `PendingLF`, that
loop inserts `'\n'`, moves `line_start` to `head` and returns the state to Normal; left
in `PendingCR`, it inserts `'\r'` without moving `line_start` and moves to `PendingLF`,
where it stops if the buffer is full and otherwise inserts the `'\n'` as before.  In
both cases `buf_pos` is unchanged: no byte of the request is consumed before. -/
theorem special_pending (s : wstate) (data : List Nat) (k : Nat) (buf : Nat → Option Nat)
    (len : Int) (h : holds s.lbuf data k) (hroom : data.length + 1 < s.lbuf.len) :
    (tty_write_locked buf len s
      = match tty_write_special_state 2 s with
        | .fallthrough s1 => tty_write_regular buf len (len - s1.buf_pos).toNat s1
        | r => r) ∧
    (s.lbuf.state = TTY_STATE_WRITE_LF →
      ∃ s1, (tty_write_special_state 2 s = .fallthrough s1 ∨
          (tty_write_special_state 2 s = .exit_loop s1 ∧ AVAILABLE_WRITE s1.lbuf = 0)) ∧
        readable s1.lbuf = data ++ [10] ∧ s1.lbuf.line_start = s1.lbuf.head ∧
        s1.lbuf.state = TTY_STATE_NORMAL ∧ s1.buf_pos = s.buf_pos ∧
        s1.bytes_written = s.bytes_written) ∧
    (s.lbuf.state = TTY_STATE_WRITE_CR →
      ∃ s1, readable s1.lbuf = data ++ [13] ∧ s1.lbuf.line_start = s.lbuf.line_start ∧
        s1.lbuf.state = TTY_STATE_WRITE_LF ∧ s1.buf_pos = s.buf_pos ∧
        ((AVAILABLE_WRITE s1.lbuf = 0 ∧ tty_write_special_state 2 s = .exit_loop s1) ∨
          (AVAILABLE_WRITE s1.lbuf ≠ 0 ∧
            ∃ s2, (tty_write_special_state 2 s = .fallthrough s2 ∨
                (tty_write_special_state 2 s = .exit_loop s2 ∧ AVAILABLE_WRITE s2.lbuf = 0)) ∧
              readable s2.lbuf = data ++ [13, 10] ∧ s2.lbuf.line_start = s2.lbuf.head ∧
              s2.lbuf.state = TTY_STATE_NORMAL ∧ s2.buf_pos = s.buf_pos ∧
              s2.bytes_written = s.bytes_written))) := by
  have haw : (AVAILABLE_WRITE s.lbuf == 0) = false := by
    rw [AVAILABLE_WRITE_zero_iff _ _ _ h]
    simp only [decide_eq_false_iff_not]
    omega
  have lf : ∀ (n : Nat) (t : wstate) (d : List Nat) (j : Nat), holds t.lbuf d j →
      t.lbuf.state = TTY_STATE_WRITE_LF → d.length + 1 < t.lbuf.len →
      ∃ s1, (tty_write_special_state (n + 1) t = .fallthrough s1 ∨
          (tty_write_special_state (n + 1) t = .exit_loop s1 ∧ AVAILABLE_WRITE s1.lbuf = 0)) ∧
        readable s1.lbuf = d ++ [10] ∧ s1.lbuf.line_start = s1.lbuf.head ∧
        s1.lbuf.state = TTY_STATE_NORMAL ∧ s1.buf_pos = t.buf_pos ∧
        s1.bytes_written = t.bytes_written := by
    intro n t d j ht hst hr
    obtain ⟨s1, hs1, hs1e⟩ := special_lf n t d j ht hst hr
    have hi := insert_holds t.lbuf 10 true d j ht hr
    have hz := AVAILABLE_WRITE_zero_iff _ _ _ hi
    simp only [List.length_append, List.length_singleton, insert_len] at hz
    refine ⟨s1, ?_, ?_, ?_, ?_, ?_, ?_⟩
    · rcases hs1 with h1 | ⟨h1, h2⟩
      · exact Or.inl h1
      · refine Or.inr ⟨h1, ?_⟩
        rw [hs1e]
        simp only [set_other_lbuf, set_lbuf_lbuf, set_state_avail]
        have : (AVAILABLE_WRITE (tty_insert_char t.lbuf 10 true) == 0) = true := by
          rw [hz]
          simp only [decide_eq_true_eq]
          omega
        simpa using this
    · rw [hs1e]
      simp only [set_other_lbuf, set_lbuf_lbuf, set_state_readable]
      exact hi.2.1
    · rw [hs1e]
      simp only [set_other_lbuf, set_lbuf_lbuf, set_state_line_start, set_state_head,
        insert_line_start, insert_head, if_true]
    · rw [hs1e]
      rfl
    · rw [hs1e]
      rfl
    · rw [hs1e]
      rfl
  refine ⟨?_, ?_, ?_⟩
  · unfold tty_write_locked
    simp only [holds_wf_checks _ _ _ h, Bool.not_true, Bool.false_eq_true, if_false, haw]
  · intro hst
    exact lf 1 s data k h hst hroom
  · intro hst
    have hi := insert_holds s.lbuf 13 false data k h hroom
    have hz := AVAILABLE_WRITE_zero_iff _ _ _ hi
    simp only [List.length_append, List.length_singleton, insert_len] at hz
    have hstep := special_cr_step s hst
    refine ⟨set_other
      (set_lbuf s (set_state (tty_insert_char s.lbuf 13 false) TTY_STATE_WRITE_LF))
      (echo_into s.lbuf s.other_lbuf 13), ?_, ?_, rfl, rfl, ?_⟩
    · simp only [set_other_lbuf, set_lbuf_lbuf, set_state_readable]
      exact hi.2.1
    · simp only [set_other_lbuf, set_lbuf_lbuf, set_state_line_start, insert_line_start,
        Bool.false_eq_true, if_false]
    · simp only [set_other_lbuf, set_lbuf_lbuf, set_state_avail]
      by_cases hfull : data.length + 1 + 1 = s.lbuf.len
      · left
        have hb : (AVAILABLE_WRITE (tty_insert_char s.lbuf 13 false) == 0) = true := by
          rw [hz]
          simpa using hfull
        refine ⟨by simpa using hb, ?_⟩
        rw [hstep, if_pos hb]
      · right
        have hb : (AVAILABLE_WRITE (tty_insert_char s.lbuf 13 false) == 0) = false := by
          rw [hz]
          simpa using hfull
        refine ⟨by simpa using hb, ?_⟩
        obtain ⟨s2, g1, g2, g3, g4, g5, g6⟩ := lf 0
          (set_other
            (set_lbuf s (set_state (tty_insert_char s.lbuf 13 false) TTY_STATE_WRITE_LF))
            (echo_into s.lbuf s.other_lbuf 13))
          (data ++ [13]) _ (set_state_holds _ TTY_STATE_WRITE_LF _ _ hi) rfl
          (by simp only [List.length_append, List.length_singleton, set_other_lbuf,
                set_lbuf_lbuf, set_state_len, insert_len]; omega)
        refine ⟨s2, ?_, by simpa using g2, g3, g4, g5, g6⟩
        rw [hstep, if_neg (by simp [hb])]
        exact g1

/-- A write split inside one call: on the fresh terminal of capacity 4 the slave writes
`"ab\nc"`; the first attempt stops after `'\r'` with the buffer full, the master reads
`"ab\r"` while the writer waits, and the second attempt inserts `'\n'` and then `'c'`. -/
theorem split_newline_from_init :
    (∃ t0, tty_write 3 (init_tty_desc 4 0) (user_bytes [97, 98, 10, 99]) 4
        ENDPOINT_SLAVE_WRITE [] = .blocked (3, t0) ∧
      readable (get_buf t0 ENDPOINT_SLAVE_WRITE) = [97, 98, 13] ∧
      (get_buf t0 ENDPOINT_SLAVE_WRITE).state = TTY_STATE_WRITE_LF) ∧
    (∃ t1, tty_write 3 (init_tty_desc 4 0) (user_bytes [97, 98, 10, 99]) 4
        ENDPOINT_SLAVE_WRITE
        [.wake (fun t => ret_tty_read (tty_read t (fun _ _ => true) 3 ENDPOINT_MASTER_READ []) t)]
        = .ret (4, t1) ∧
      readable (get_buf t1 ENDPOINT_SLAVE_WRITE) = [10, 99] ∧
      (get_buf t1 ENDPOINT_SLAVE_WRITE).state = TTY_STATE_NORMAL) :=
  ⟨⟨_, rfl, by decide, by decide⟩, ⟨_, rfl, by decide, by decide⟩⟩

/-! ## A write split into attempts -/

theorem translate_append (flags : Nat) (a b : List Nat) :
    translate flags (a ++ b) = translate flags a ++ translate flags b := by
  induction a with
  | nil => rfl
  | cons c cs ih =>
    show translate_char flags c ++ translate flags (cs ++ b) = _
    rw [ih]
    show _ = (translate_char flags c ++ translate flags cs) ++ translate flags b
    rw [List.append_assoc]

theorem translate_take_succ (flags : Nat) (c : Nat) (rest : List Nat) (q : Nat) :
    translate flags ((c :: rest).take (q + 1))
      = translate_char flags c ++ translate flags (rest.take q) := rfl

theorem queued_holds (l : line_buffer) (data : List Nat) (k : Nat) (h : holds l data k)
    (hr : data ≠ [] → 0 < l.read_sem) : queued l data :=
  ⟨⟨h.1, h.2.1, h.2.2.1, fun hk => absurd hk (by omega)⟩, hr⟩

/-- An insertion into a buffer with room keeps the content known and the data-available
gate open. -/
theorem insert_queued (l : line_buffer) (c : Nat) (m : Bool) (data : List Nat)
    (h : queued l data) (hroom : data.length + 1 < l.len) :
    queued (tty_insert_char l c m) (data ++ [c]) := by
  refine queued_holds _ _ _ (insert_holds l c m data _ h.1 hroom) ?_
  intro _
  rw [insert_read_sem]
  by_cases hd : data = []
  · have hw := h.1.1
    have hc := h.1.2.2.1
    rw [hd] at hc
    simp only [List.length_nil] at hc
    have h0 : AVAILABLE_READ l = 0 := by rw [AVAILABLE_READ_eq l hw, hc]; rfl
    have hwi : wf (INC_HEAD l) := by
      obtain ⟨w1, w2, w3, w4, w5⟩ := hw
      exact ⟨w1, Nat.mod_lt _ w1, w3, w4, w5⟩
    have hci : cyc (INC_HEAD l).head (INC_HEAD l).tail (INC_HEAD l).len = 1 := by
      have := insert_cyc l c m hw (by rw [hc]; rw [hd] at hroom; simpa using hroom)
      rw [hc] at this
      simpa using this
    have h1 : AVAILABLE_READ (INC_HEAD l) > 0 := by
      rw [AVAILABLE_READ_eq _ hwi, hci]
      decide
    simp only [h0, beq_self_eq_true, h1, decide_True, Bool.and_self, if_true]
    omega
  · have := h.2 hd
    split <;> omega
/-- The round of the loop at `tty_write_special_state` in state `TTY_STATE_WRITE_LF`. -/
theorem special_lf_step (n : Nat) (s : wstate) (hst : s.lbuf.state = TTY_STATE_WRITE_LF) :
    tty_write_special_state (n + 1) s
      = if AVAILABLE_WRITE (tty_insert_char s.lbuf 10 true) == 0 then
          .exit_loop (set_other
            (set_lbuf s (set_state (tty_insert_char s.lbuf 10 true) TTY_STATE_NORMAL))
            (echo_into s.lbuf s.other_lbuf 10))
        else
          .fallthrough (set_other
            (set_lbuf s (set_state (tty_insert_char s.lbuf 10 true) TTY_STATE_NORMAL))
            (echo_into s.lbuf s.other_lbuf 10)) := by
  have ef : echo_into (set_state (tty_insert_char s.lbuf 10 true) TTY_STATE_NORMAL)
      s.other_lbuf 10 = echo_into s.lbuf s.other_lbuf 10 := echo_into_flags _ _ _ _ (by simp)
  conv => lhs; unfold tty_write_special_state
  simp only [hst, TTY_STATE_WRITE_LF, TTY_STATE_WRITE_CR, TTY_STATE_NORMAL, bne_iff_ne, ne_eq,
    OfNat.ofNat_ne_zero, not_false_eq_true, if_true, echo_eq, beq_self_eq_true,
    OfNat.ofNat_ne_one, beq_iff_eq, if_false, set_lbuf_lbuf, set_lbuf_other, set_other_lbuf,
    set_state_avail]
  rw [show (0 : Nat) = TTY_STATE_NORMAL from rfl, ef]
  split
  · rfl
  · exact special_normal _ _ rfl

theorem pending_normal : pending TTY_STATE_NORMAL = [] := rfl
theorem pending_lf : pending TTY_STATE_WRITE_LF = [10] := rfl
theorem pending_cr : pending TTY_STATE_WRITE_CR = [13, 10] := rfl

theorem queued_full (l : line_buffer) (data : List Nat) (h : queued l data) :
    (AVAILABLE_WRITE l == 0) = decide (data.length + 1 = l.len) :=
  AVAILABLE_WRITE_zero_iff l data _ h.1

theorem queued_set_state (l : line_buffer) (st : Nat) (data : List Nat) (h : queued l data) :
    queued (set_state l st) data := h

/-- The loop at `tty_write_special_state` on a buffer with room for a byte: it ends with
nothing pending and room left, or it stops on the full buffer; the bytes inserted and
the bytes still pending are together the bytes that were pending. -/
theorem special_queued (s : wstate) (cur : List Nat) (h : queued s.lbuf cur)
    (hroom : cur.length + 1 < s.lbuf.len)
    (hst : s.lbuf.state = TTY_STATE_NORMAL ∨ s.lbuf.state = TTY_STATE_WRITE_CR
      ∨ s.lbuf.state = TTY_STATE_WRITE_LF) :
    ∃ s1 cur1, queued s1.lbuf cur1 ∧
      cur1 ++ pending s1.lbuf.state = cur ++ pending s.lbuf.state ∧
      s1.buf_pos = s.buf_pos ∧ s1.bytes_written = s.bytes_written ∧
      s1.lbuf.flags = s.lbuf.flags ∧ s1.lbuf.len = s.lbuf.len ∧
      s1.lbuf.write_sem = s.lbuf.write_sem ∧
      ((tty_write_special_state 2 s = .fallthrough s1 ∧ s1.lbuf.state = TTY_STATE_NORMAL ∧
          cur1.length + 1 < s1.lbuf.len) ∨
        (tty_write_special_state 2 s = .exit_loop s1 ∧ cur1.length + 1 = s1.lbuf.len ∧
          (s1.lbuf.state = TTY_STATE_NORMAL ∨ s1.lbuf.state = TTY_STATE_WRITE_LF))) := by
  have lf : ∀ (n : Nat) (t : wstate) (d : List Nat), queued t.lbuf d →
      d.length + 1 < t.lbuf.len → t.lbuf.state = TTY_STATE_WRITE_LF →
      ∃ s1, queued s1.lbuf (d ++ [10]) ∧ s1.lbuf.state = TTY_STATE_NORMAL ∧
        s1.buf_pos = t.buf_pos ∧ s1.bytes_written = t.bytes_written ∧
        s1.lbuf.flags = t.lbuf.flags ∧ s1.lbuf.len = t.lbuf.len ∧
        s1.lbuf.write_sem = t.lbuf.write_sem ∧
        ((tty_write_special_state (n + 1) t = .fallthrough s1 ∧
            (d ++ [10]).length + 1 < s1.lbuf.len) ∨
          (tty_write_special_state (n + 1) t = .exit_loop s1 ∧
            (d ++ [10]).length + 1 = s1.lbuf.len)) := by
    intro n t d ht hr hs
    have hi := insert_queued t.lbuf 10 true d ht hr
    have hz := queued_full _ _ hi
    simp only [insert_len] at hz
    refine ⟨set_other
      (set_lbuf t (set_state (tty_insert_char t.lbuf 10 true) TTY_STATE_NORMAL))
      (echo_into t.lbuf t.other_lbuf 10), queued_set_state _ _ _ hi, rfl, rfl, rfl, ?_, ?_, ?_,
      ?_⟩
    · simp only [set_other_lbuf, set_lbuf_lbuf, set_state_flags, insert_flags]
    · simp only [set_other_lbuf, set_lbuf_lbuf, set_state_len, insert_len]
    · simp only [set_other_lbuf, set_lbuf_lbuf, set_state_write_sem, insert_write_sem]
    · rw [special_lf_step n t hs, hz]
      simp only [set_other_lbuf, set_lbuf_lbuf, set_state_len, insert_len]
      have hlen : (d ++ [10]).length + 1 ≤ t.lbuf.len := by
        simp only [List.length_append, List.length_singleton]
        omega
      by_cases hf : (d ++ [10]).length + 1 = t.lbuf.len
      · right
        simp only [hf, decide_True, if_true, and_self]
      · left
        simp only [hf, decide_False, Bool.false_eq_true, if_false, true_and]
        omega
  rcases hst with hst | hst | hst
  · refine ⟨s, cur, h, rfl, rfl, rfl, rfl, rfl, rfl, Or.inl ⟨special_normal _ _ hst, hst, hroom⟩⟩
  · have hi := insert_queued s.lbuf 13 false cur h hroom
    have hz := queued_full _ _ hi
    simp only [insert_len] at hz
    have hstep := special_cr_step s hst
    rw [hz] at hstep
    have hlen : (cur ++ [13]).length + 1 ≤ s.lbuf.len := by
      simp only [List.length_append, List.length_singleton]
      omega
    by_cases hf : (cur ++ [13]).length + 1 = s.lbuf.len
    · simp only [hf, decide_True, if_true] at hstep
      refine ⟨set_other
          (set_lbuf s (set_state (tty_insert_char s.lbuf 13 false) TTY_STATE_WRITE_LF))
          (echo_into s.lbuf s.other_lbuf 13),
        cur ++ [13], queued_set_state _ TTY_STATE_WRITE_LF _ hi, ?_, rfl, rfl, ?_, ?_,
        ?_, Or.inr ⟨hstep, ?_, Or.inr rfl⟩⟩
      · rw [hst]
        simp only [set_other_lbuf, set_lbuf_lbuf, set_state_state, pending_lf, pending_cr,
          List.append_assoc, List.singleton_append]
      · simp only [set_other_lbuf, set_lbuf_lbuf, set_state_flags, insert_flags]
      · simp only [set_other_lbuf, set_lbuf_lbuf, set_state_len, insert_len]
      · simp only [set_other_lbuf, set_lbuf_lbuf, set_state_write_sem, insert_write_sem]
      · simp only [set_other_lbuf, set_lbuf_lbuf, set_state_len, insert_len]
        exact hf
    · simp only [hf, decide_False, Bool.false_eq_true, if_false] at hstep
      obtain ⟨s1, q1, q2, q3, q4, q5, q6, q7, q8⟩ := lf 0
        (set_other
          (set_lbuf s (set_state (tty_insert_char s.lbuf 13 false) TTY_STATE_WRITE_LF))
          (echo_into s.lbuf s.other_lbuf 13))
        (cur ++ [13]) (queued_set_state _ TTY_STATE_WRITE_LF _ hi)
        (by simp only [set_other_lbuf, set_lbuf_lbuf, set_state_len, insert_len]; omega) rfl
      simp only [set_other_lbuf, set_lbuf_lbuf, set_state_len, insert_len, set_state_flags,
        insert_flags, set_state_write_sem, insert_write_sem, set_other_buf_pos,
        set_lbuf_buf_pos, set_other_bytes_written, set_lbuf_bytes_written] at q3 q4 q5 q6 q7 q8
      refine ⟨s1, (cur ++ [13]) ++ [10], q1, ?_, q3, q4, q5, q6, q7, ?_⟩
      · rw [q2, hst]
        simp only [pending_normal, pending_cr, List.append_nil, List.append_assoc,
          List.singleton_append]
      · rw [hstep]
        rcases q8 with ⟨r1, r2⟩ | ⟨r1, r2⟩
        · exact Or.inl ⟨r1, q2, r2⟩
        · exact Or.inr ⟨r1, r2, Or.inl q2⟩
  · obtain ⟨s1, q1, q2, q3, q4, q5, q6, q7, q8⟩ := lf 1 s cur h hroom hst
    refine ⟨s1, cur ++ [10], q1, ?_, q3, q4, q5, q6, q7, ?_⟩
    · rw [q2, hst]
      simp only [pending_normal, pending_lf, List.append_nil]
    · rcases q8 with ⟨r1, r2⟩ | ⟨r1, r2⟩
      · exact Or.inl ⟨r1, q2, r2⟩
      · exact Or.inr ⟨r1, r2, Or.inl q2⟩
/-- The three ways the loop body of `tty_write` treats a byte that is no backspace. -/
theorem write_char_cases (s : wstate) (c : Nat)
    (hbs : s.lbuf.flags &&& TTY_FLAG_CANON ≠ 0 → c ≠ 8) :
    (translate_char s.lbuf.flags c = [13, 10] ∧
      tty_write_char s c = .fallthrough (set_lbuf s (set_state s.lbuf TTY_STATE_WRITE_CR))) ∨
    (translate_char s.lbuf.flags c = [] ∧ tty_write_char s c = .exit_loop s) ∨
    (translate_char s.lbuf.flags c = [c] ∧
      ∃ o m, tty_write_char s c
        = .exit_loop (set_other (set_lbuf s (tty_insert_char s.lbuf c m)) o)) := by
  unfold tty_write_char translate_char
  by_cases hA : (c == 10 && s.lbuf.flags &&& TTY_FLAG_NLCR != 0) = true
  · left
    simp only [hA, if_true, ite_self, and_self]
  · right
    simp only [hA, Bool.false_eq_true, if_false]
    by_cases hC : (s.lbuf.flags &&& TTY_FLAG_CANON != 0) = true
    · have h8 : (c == 8) = false := by
        have := hbs (by simpa using hC)
        simpa using this
      simp only [hC, if_true, h8, Bool.false_eq_true, if_false, Bool.true_and]
      by_cases hE : (c == 13 || c == 0) = true
      · left
        simp only [hE, if_true, echo_false, and_self]
      · right
        simp only [hE, Bool.false_eq_true, if_false, echo_eq, true_and]
        exact ⟨_, false, rfl⟩
    · right
      simp only [hC, Bool.false_eq_true, if_false, Bool.false_and, echo_eq, true_and]
      exact ⟨_, true, rfl⟩

/-- One round of the loop `while(buf_pos < len)` on a buffer with room for a byte: the
byte at `buf_pos` is consumed, and the bytes inserted and pending afterwards are what the
byte translates to; the loop goes on, or it stops on the full buffer. -/
theorem regular_step (inp : List Nat) (p fuel : Nat) (s : wstate) (c : Nat)
    (rest cur : List Nat) (hdrop : inp.drop p = c :: rest) (hpos : s.buf_pos = (p : Int))
    (h : queued s.lbuf cur) (hroom : cur.length + 1 < s.lbuf.len)
    (hst : s.lbuf.state = TTY_STATE_NORMAL)
    (hbs : s.lbuf.flags &&& TTY_FLAG_CANON ≠ 0 → c ≠ 8) :
    ∃ s1 cur1, queued s1.lbuf cur1 ∧
      cur1 ++ pending s1.lbuf.state = cur ++ translate_char s.lbuf.flags c ∧
      s1.buf_pos = ((p + 1 : Nat) : Int) ∧ s1.bytes_written = s.bytes_written + 1 ∧
      s1.lbuf.flags = s.lbuf.flags ∧ s1.lbuf.len = s.lbuf.len ∧
      s1.lbuf.write_sem = s.lbuf.write_sem ∧
      ((tty_write_regular (user_bytes inp) (inp.length : Int) (fuel + 1) s
            = tty_write_regular (user_bytes inp) (inp.length : Int) fuel s1 ∧
          s1.lbuf.state = TTY_STATE_NORMAL ∧ cur1.length + 1 ≤ s1.lbuf.len) ∨
        (tty_write_regular (user_bytes inp) (inp.length : Int) (fuel + 1) s = .exit_loop s1 ∧
          cur1.length + 1 = s1.lbuf.len ∧
          (s1.lbuf.state = TTY_STATE_NORMAL ∨ s1.lbuf.state = TTY_STATE_WRITE_LF))) := by
  obtain ⟨hc, _, hp⟩ := user_bytes_drop inp p c rest hdrop
  have haw : (AVAILABLE_WRITE s.lbuf == 0) = false := by
    rw [queued_full _ _ h]
    simp only [decide_eq_false_iff_not]
    omega
  have hunf : tty_write_regular (user_bytes inp) (inp.length : Int) (fuel + 1) s
      = match tty_write_char (advance s) c with
        | .exit_loop s => tty_write_regular (user_bytes inp) (inp.length : Int) fuel s
        | .fallthrough s =>
          match tty_write_special_state 2 s with
          | .fallthrough s => tty_write_regular (user_bytes inp) (inp.length : Int) fuel s
          | r => r
        | r => r := by
    conv => lhs; unfold tty_write_regular
    simp only [hpos, show ((p : Int) < (inp.length : Int)) by omega, if_true, haw,
      Bool.false_eq_true, if_false, Int.toNat_ofNat, hc]
  have hap : (advance s).buf_pos = ((p + 1 : Nat) : Int) := by
    rw [advance_buf_pos, hpos]
    push_cast
    rfl
  rcases write_char_cases (advance s) c (by rw [advance_lbuf]; exact hbs) with
    ⟨t1, t2⟩ | ⟨t1, t2⟩ | ⟨t1, o, m, t2⟩
  · rw [advance_lbuf] at t1 t2
    obtain ⟨s1, cur1, q1, q2, q3, q4, q5, q6, q7, q8⟩ := special_queued
      (set_lbuf (advance s) (set_state s.lbuf TTY_STATE_WRITE_CR)) cur
      (queued_set_state _ _ _ h) hroom (Or.inr (Or.inl rfl))
    simp only [set_lbuf_lbuf, set_state_state, set_state_flags, set_state_len,
      set_state_write_sem, set_lbuf_buf_pos, set_lbuf_bytes_written,
      advance_bytes_written] at q2 q3 q4 q5 q6 q7
    refine ⟨s1, cur1, q1, ?_, q3.trans hap, q4, q5, q6, q7, ?_⟩
    · rw [q2, t1, pending_cr]
    · rw [hunf, t2]
      rcases q8 with ⟨r1, r2, r3⟩ | ⟨r1, r2, r3⟩
      · left
        simp only [r1]
        exact ⟨trivial, r2, by omega⟩
      · right
        simp only [r1]
        exact ⟨trivial, r2, r3⟩
  · rw [advance_lbuf] at t1
    refine ⟨advance s, cur, h, ?_, hap, advance_bytes_written s, rfl, rfl, rfl, Or.inl ⟨?_, hst, ?_⟩⟩
    · rw [t1, advance_lbuf, hst, pending_normal]
    · rw [hunf, t2]
    · rw [advance_lbuf]
      omega
  · rw [advance_lbuf] at t1 t2
    have hi := insert_queued s.lbuf c m cur h hroom
    refine ⟨set_other (set_lbuf (advance s) (tty_insert_char s.lbuf c m)) o, cur ++ [c], hi,
      ?_, hap, advance_bytes_written s, ?_, ?_, ?_, Or.inl ⟨?_, ?_, ?_⟩⟩
    · rw [t1]
      simp only [set_other_lbuf, set_lbuf_lbuf, insert_state, hst, pending_normal,
        List.append_nil]
    · simp only [set_other_lbuf, set_lbuf_lbuf, insert_flags]
    · simp only [set_other_lbuf, set_lbuf_lbuf, insert_len]
    · simp only [set_other_lbuf, set_lbuf_lbuf, insert_write_sem]
    · rw [hunf, t2]
    · simp only [set_other_lbuf, set_lbuf_lbuf, insert_state, hst]
    · simp only [set_other_lbuf, set_lbuf_lbuf, insert_len, List.length_append,
        List.length_singleton]
      omega
/-- The loop `while(buf_pos < len)` on a buffer that may fill: it consumes `q` bytes of
the request and stops at its end or on the full buffer; the bytes inserted and pending
are the translation of the bytes consumed. -/
theorem regular_fill (inp : List Nat) : ∀ (rest : List Nat) (p fuel : Nat) (s : wstate)
    (cur : List Nat), inp.drop p = rest → s.buf_pos = (p : Int) →
    s.bytes_written = (p : Int) → queued s.lbuf cur → cur.length + 1 ≤ s.lbuf.len →
    s.lbuf.state = TTY_STATE_NORMAL → (s.lbuf.flags &&& TTY_FLAG_CANON ≠ 0 → 8 ∉ rest) →
    rest.length ≤ fuel →
    ∃ s1 cur1 q, q ≤ rest.length ∧
      tty_write_regular (user_bytes inp) (inp.length : Int) fuel s = .exit_loop s1 ∧
      queued s1.lbuf cur1 ∧
      cur1 ++ pending s1.lbuf.state = cur ++ translate s.lbuf.flags (rest.take q) ∧
      s1.buf_pos = ((p + q : Nat) : Int) ∧ s1.bytes_written = ((p + q : Nat) : Int) ∧
      s1.lbuf.flags = s.lbuf.flags ∧ s1.lbuf.len = s.lbuf.len ∧
      s1.lbuf.write_sem = s.lbuf.write_sem ∧
      (q = rest.length ∨ cur1.length + 1 = s1.lbuf.len) ∧
      (s1.lbuf.state = TTY_STATE_NORMAL ∨ s1.lbuf.state = TTY_STATE_WRITE_LF) := by
  intro rest
  induction rest with
  | nil =>
    intro p fuel s cur hdrop hpos hbw h _ hst _ _
    have hp : inp.length ≤ p := List.drop_eq_nil_iff.mp hdrop
    refine ⟨s, cur, 0, Nat.le_refl _, ?_, h, ?_, hpos, hbw, rfl, rfl, rfl, Or.inl rfl,
      Or.inl hst⟩
    · unfold tty_write_regular
      simp only [hpos, show ¬ ((p : Int) < (inp.length : Int)) by omega, if_false]
    · rw [hst, pending_normal]
      rfl
  | cons c rest ih =>
    intro p fuel s cur hdrop hpos hbw h hle hst hbs hfuel
    obtain ⟨hc, hdrop1, hp⟩ := user_bytes_drop inp p c rest hdrop
    obtain ⟨f, rfl⟩ : ∃ f, fuel = f + 1 :=
      ⟨fuel - 1, by simp only [List.length_cons] at hfuel; omega⟩
    simp only [List.length_cons] at hfuel
    by_cases hfull : cur.length + 1 = s.lbuf.len
    · have haw : (AVAILABLE_WRITE s.lbuf == 0) = true := by
        rw [queued_full _ _ h]
        simpa using hfull
      refine ⟨s, cur, 0, Nat.zero_le _, ?_, h, ?_, hpos, hbw, rfl, rfl, rfl, Or.inr hfull,
        Or.inl hst⟩
      · unfold tty_write_regular
        simp only [hpos, show ((p : Int) < (inp.length : Int)) by omega, if_true, haw]
      · rw [hst, pending_normal]
        rfl
    · obtain ⟨s1, cur1, q1, q2, q3, q4, q5, q6, q7, q8⟩ := regular_step inp p f s c rest cur
        hdrop hpos h (by omega) hst (fun hcn => by
          have := hbs hcn
          intro h8
          exact this (by rw [h8]; exact List.mem_cons_self _ _))
      rcases q8 with ⟨r1, r2, r3⟩ | ⟨r1, r2, r3⟩
      · obtain ⟨s2, cur2, q, g1, g2, g3, g4, g5, g6, g7, g8, g9, g10, g11⟩ :=
          ih (p + 1) f s1 cur1 hdrop1 q3 (by rw [q4, hbw]; push_cast; rfl) q1 r3 r2
            (fun hcn => by
              have := hbs (by rw [← q5]; exact hcn)
              exact fun h8 => this (List.mem_cons_of_mem _ h8))
            (by omega)
        refine ⟨s2, cur2, q + 1, by simp only [List.length_cons]; omega, r1.trans g2, g3, ?_,
          ?_, ?_, g7.trans q5, g8.trans q6, g9.trans q7, ?_, g11⟩
        · rw [g4, translate_take_succ, ← List.append_assoc, ← q2, r2, pending_normal,
            List.append_nil, q5]
        · rw [g5]
          congr 1
          omega
        · rw [g6]
          congr 1
          omega
        · rcases g10 with g10 | g10
          · left
            simp only [List.length_cons]
            omega
          · exact Or.inr g10
      · refine ⟨s1, cur1, 1, by simp only [List.length_cons]; omega, r1, q1, ?_, q3, ?_, q5, q6,
          q7, Or.inr r2, r3⟩
        · rw [q2]
          show _ = cur ++ (translate_char s.lbuf.flags c ++ translate s.lbuf.flags (rest.take 0))
          simp only [List.take_zero, translate, List.append_nil]
        · rw [q4, hbw]
          push_cast
          rfl

/-- One attempt of `tty_write` between `mutex_lock` and the label `exit_loop`, on a
buffer with room for a byte: what is pending is resolved first, then bytes of the
request are consumed up to its end or until the buffer is full. -/
theorem locked_fill (inp rest : List Nat) (p : Nat) (s : wstate) (cur : List Nat)
    (hdrop : inp.drop p = rest) (hpos : s.buf_pos = (p : Int))
    (hbw : s.bytes_written = (p : Int)) (h : queued s.lbuf cur)
    (hroom : cur.length + 1 < s.lbuf.len)
    (hst : s.lbuf.state = TTY_STATE_NORMAL ∨ s.lbuf.state = TTY_STATE_WRITE_CR
      ∨ s.lbuf.state = TTY_STATE_WRITE_LF)
    (hbs : s.lbuf.flags &&& TTY_FLAG_CANON ≠ 0 → 8 ∉ rest) :
    ∃ s1 cur1 q, q ≤ rest.length ∧
      tty_write_locked (user_bytes inp) (inp.length : Int) s = .exit_loop s1 ∧
      queued s1.lbuf cur1 ∧
      cur1 ++ pending s1.lbuf.state
        = cur ++ pending s.lbuf.state ++ translate s.lbuf.flags (rest.take q) ∧
      s1.buf_pos = ((p + q : Nat) : Int) ∧ s1.bytes_written = ((p + q : Nat) : Int) ∧
      s1.lbuf.flags = s.lbuf.flags ∧ s1.lbuf.len = s.lbuf.len ∧
      s1.lbuf.write_sem = s.lbuf.write_sem ∧
      (q = rest.length ∨ cur1.length + 1 = s1.lbuf.len) ∧
      (s1.lbuf.state = TTY_STATE_NORMAL ∨ s1.lbuf.state = TTY_STATE_WRITE_LF) := by
  have haw : (AVAILABLE_WRITE s.lbuf == 0) = false := by
    rw [queued_full _ _ h]
    simp only [decide_eq_false_iff_not]
    omega
  have hunf : tty_write_locked (user_bytes inp) (inp.length : Int) s
      = match tty_write_special_state 2 s with
        | .fallthrough s1 =>
          tty_write_regular (user_bytes inp) (inp.length : Int)
            ((inp.length : Int) - s1.buf_pos).toNat s1
        | r => r := by
    unfold tty_write_locked
    simp only [holds_wf_checks _ _ _ h.1, Bool.not_true, Bool.false_eq_true, if_false, haw]
  have hrl : rest.length = inp.length - p := by rw [← hdrop, List.length_drop]
  obtain ⟨s0, cur0, q1, q2, q3, q4, q5, q6, q7, q8⟩ := special_queued s cur h hroom hst
  rcases q8 with ⟨r1, r2, r3⟩ | ⟨r1, r2, r3⟩
  · obtain ⟨s2, cur2, q, g1, g2, g3, g4, g5, g6, g7, g8, g9, g10, g11⟩ :=
      regular_fill inp rest p ((inp.length : Int) - s0.buf_pos).toNat s0 cur0 hdrop
        (q3.trans hpos) (q4.trans hbw) q1 (by omega) r2
        (fun hcn => hbs (by rw [← q5]; exact hcn))
        (by rw [q3, hpos]; omega)
    refine ⟨s2, cur2, q, g1, ?_, g3, ?_, g5, g6, g7.trans q5, g8.trans q6, g9.trans q7, g10,
      g11⟩
    · rw [hunf, r1]
      exact g2
    · rw [g4, ← q2, r2, pending_normal, List.append_nil, q5]
  · refine ⟨s0, cur0, 0, Nat.zero_le _, ?_, q1, ?_, q3.trans hpos, q4.trans hbw, q5, q6, q7,
      Or.inr r2, r3⟩
    · rw [hunf, r1]
    · rw [q2]
      simp only [List.take_zero, translate, List.append_nil]
/-- Moving `tail` forward by `j` over queued bytes leaves the bytes behind them. -/
theorem drain_holds (l : line_buffer) (data : List Nat) (k j : Nat) (h : holds l data k)
    (hj : j ≤ data.length) :
    holds (set_tail l ((l.tail + j) % l.len)) (data.drop j) ((data.drop j).length + 1) := by
  obtain ⟨hw, hr, hc, _⟩ := h
  obtain ⟨w1, w2, w3, w4, w5⟩ := hw
  have hcl := cyc_lt l.head l.tail l.len w2 w3
  have hwn : wf (set_tail l ((l.tail + j) % l.len)) := ⟨w1, w2, Nat.mod_lt _ w1, w4, w5⟩
  have hcn : cyc l.head ((l.tail + j) % l.len) l.len = cyc l.head l.tail l.len - j := by
    rw [add_mod_cases l.tail j l.len w3 (by omega)]
    rw [← hc] at hj
    unfold cyc at hj ⊢
    split at hj <;> split <;> split <;> omega
  refine ⟨hwn, ?_, ?_, fun hk => absurd hk (by omega)⟩
  · rw [readable_eq _ hwn, ← hr, readable_eq l ⟨w1, w2, w3, w4, w5⟩]
    simp only [set_tail_head, set_tail_tail, set_tail_len, set_tail_buffer, hcn]
    have hsplit : cyc l.head l.tail l.len = j + (cyc l.head l.tail l.len - j) := by omega
    conv => rhs; rw [hsplit, List.range_add, List.map_append]
    rw [List.drop_left' (by simp only [List.length_map, List.length_range]), List.map_map]
    apply List.map_congr_left
    intro i _
    simp only [Function.comp_apply]
    rw [Nat.mod_add_mod, Nat.add_assoc]
  · simp only [set_tail_head, set_tail_tail, set_tail_len, hcn, List.length_drop, hc]

theorem read_signal_holds (l : line_buffer) (d : Int) (data : List Nat) (k : Nat)
    (h : holds l data k) : holds (tty_read_signal l d) data k := by
  unfold tty_read_signal
  dsimp only
  split <;> split <;> exact h

/-- A reader on a full buffer: `tty_read` of up to `m > 0` bytes delivers the
`min(m, C-1)` oldest bytes, leaves the others queued and releases the space-available
gate. -/
theorem reader_drains (t : tty_desc) (ep m : Nat) (cur : List Nat)
    (hep : ep = ENDPOINT_MASTER_WRITE ∨ ep = ENDPOINT_SLAVE_WRITE)
    (h : queued (get_buf t ep) cur) (hfull : cur.length + 1 = (get_buf t ep).len)
    (hcap : 1 < (get_buf t ep).len) (hm : 0 < m) :
    ∃ t1, tty_read t (fun _ _ => true) (m : Int) ep []
        = .ret (((min m ((get_buf t ep).len - 1) : Nat) : Int), t1,
            cur.take (min m ((get_buf t ep).len - 1))) ∧
      queued (get_buf t1 ep) (cur.drop (min m ((get_buf t ep).len - 1))) ∧
      (get_buf t1 ep).flags = (get_buf t ep).flags ∧
      (get_buf t1 ep).len = (get_buf t ep).len ∧
      (get_buf t1 ep).state = (get_buf t ep).state ∧
      (get_buf t1 ep).write_sem = (get_buf t ep).write_sem + 1 := by
  obtain ⟨hh, hrs⟩ := h
  have hw := hh.1
  have hc := hh.2.2.1
  have hAR : AVAILABLE_READ (get_buf t ep) = ((get_buf t ep).len : Int) - 1 := by
    rw [AVAILABLE_READ_eq _ hw, hc]
    omega
  have hne : cur ≠ [] := by
    intro e
    rw [e] at hfull
    simp only [List.length_nil] at hfull
    omega
  have hsem := hrs hne
  have hepb : (!(ep == ENDPOINT_MASTER_READ || ep == ENDPOINT_SLAVE_READ)) = false := by
    rcases hep with rfl | rfl <;> rfl
  have hacq := sem_acquire_ready ep .read_sem t [] hsem
  have hl0 : get_buf (sem_take t ep .read_sem) ep = take_read_sem (get_buf t ep) := by
    simp only [sem_take, get_set_buf]
  have hw0 : wf (take_read_sem (get_buf t ep)) := hw
  have hAR0 : AVAILABLE_READ (take_read_sem (get_buf t ep))
      = AVAILABLE_READ (get_buf t ep) := rfl
  have hj0 : 0 < min m ((get_buf t ep).len - 1) := by
    simp only [lt_min_iff]
    omega
  have hjc : min m ((get_buf t ep).len - 1) ≤ cur.length := by
    have := Nat.min_le_right m ((get_buf t ep).len - 1)
    omega
  have hmin : min (AVAILABLE_READ (get_buf t ep)) (m : Int)
      = ((min m ((get_buf t ep).len - 1) : Nat) : Int) := by
    rw [hAR]
    omega
  have hrun := read_loop_run (fun _ _ => true) (fun _ _ => rfl) _ hw0
    (min m ((get_buf t ep).len - 1)) hj0
    (by have : (take_read_sem (get_buf t ep)).len = (get_buf t ep).len := rfl
        have := Nat.min_le_right m ((get_buf t ep).len - 1)
        omega)
  have hd : holds (set_tail (take_read_sem (get_buf t ep))
      (((get_buf t ep).tail + min m ((get_buf t ep).len - 1)) % (get_buf t ep).len))
      (cur.drop (min m ((get_buf t ep).len - 1)))
      ((cur.drop (min m ((get_buf t ep).len - 1))).length + 1) :=
    drain_holds (take_read_sem (get_buf t ep)) cur _
      (min m ((get_buf t ep).len - 1)) hh hjc
  refine ⟨set_buf (sem_take t ep .read_sem) ep
    (tty_read_signal (set_tail (take_read_sem (get_buf t ep))
      (((get_buf t ep).tail + min m ((get_buf t ep).len - 1)) % (get_buf t ep).len))
      (AVAILABLE_READ (get_buf t ep))), ?_, ?_, ?_, ?_, ?_, ?_⟩
  · unfold tty_read
    simp only [show ¬ ((m : Int) < 0) by omega, if_false,
      show ((m : Int) == 0) = false by simp only [beq_eq_false_iff_ne, ne_eq]; omega,
      Bool.false_eq_true, hepb, hacq, hl0, wf_checks _ hw0, Bool.not_true, hAR0, hmin,
      show decide (((min m ((get_buf t ep).len - 1) : Nat) : Int) > 0) = true by
        simp only [decide_eq_true_eq]; omega,
      Int.toNat_ofNat, hrun]
    congr 3
    rw [← hh.2.1, readable_eq _ hw, ← List.map_take, List.take_range, hc,
      Nat.min_eq_left hjc]
    rfl
  · rw [get_set_buf]
    refine ⟨read_signal_holds _ _ _ _ hd, ?_⟩
    intro hne2
    have hpos : AVAILABLE_READ (set_tail (take_read_sem (get_buf t ep))
        (((get_buf t ep).tail + min m ((get_buf t ep).len - 1)) % (get_buf t ep).len)) > 0 := by
      rw [AVAILABLE_READ_eq _ hd.1, hd.2.2.1]
      have : 0 < (cur.drop (min m ((get_buf t ep).len - 1))).length :=
        List.length_pos.mpr hne2
      omega
    unfold tty_read_signal
    dsimp only
    rw [if_pos hpos]
    split
    · show 0 < (take_read_sem (get_buf t ep)).read_sem + 1
      omega
    · show 0 < (take_read_sem (get_buf t ep)).read_sem + 1
      omega
  · rw [get_set_buf]
    unfold tty_read_signal
    dsimp only
    split <;> split <;> rfl
  · rw [get_set_buf]
    unfold tty_read_signal
    dsimp only
    split <;> split <;> rfl
  · rw [get_set_buf]
    unfold tty_read_signal
    dsimp only
    split <;> split <;> rfl
  · rw [get_set_buf]
    unfold tty_read_signal
    dsimp only
    have e : (AVAILABLE_READ (get_buf t ep) ==
        (((if AVAILABLE_READ (set_tail (take_read_sem (get_buf t ep))
            (((get_buf t ep).tail + min m ((get_buf t ep).len - 1)) % (get_buf t ep).len)) > 0
          then release_read_sem (set_tail (take_read_sem (get_buf t ep))
            (((get_buf t ep).tail + min m ((get_buf t ep).len - 1)) % (get_buf t ep).len))
          else set_tail (take_read_sem (get_buf t ep))
            (((get_buf t ep).tail + min m ((get_buf t ep).len - 1)) % (get_buf t ep).len)).len
          : Nat) : Int) - 1) = true := by
      rw [hAR]
      split <;> simp only [beq_iff_eq] <;> rfl
    rw [if_pos e]
    split <;> rfl
/-- A thread that wakes the waiting writer: the wait is tried again on the terminal as
the thread left it. -/
theorem restart_wake (buf : Nat → Option Nat) (len : Int) (ep fuel : Nat) (tty : tty_desc)
    (bp bw : Int) (f : tty_desc → tty_desc) (evs : List wait_event)
    (h : (get_buf tty ep).write_sem = 0) :
    tty_write_restart buf len ep (fuel + 1) tty bp bw (.wake f :: evs)
      = tty_write_restart buf len ep (fuel + 1) (f tty) bp bw evs := by
  have e : sem_acquire_etc ep .write_sem tty (.wake f :: evs)
      = sem_acquire_etc ep .write_sem (f tty) evs := by
    conv => lhs; unfold sem_acquire_etc
    simp only [sem_count, h, gt_iff_lt, lt_self_iff_false, if_false]
  conv => lhs; unfold tty_write_restart
  conv => rhs; unfold tty_write_restart
  simp only [e]

/-- One attempt of `tty_write` from the label `restart` on a buffer with room for a byte
and a permit on the space-available gate. -/
theorem restart_attempt (inp : List Nat) (ep : Nat) (fuel p : Nat) (tty : tty_desc)
    (cur : List Nat) (evs : List wait_event)
    (hp : p < inp.length) (h : queued (get_buf tty ep) cur)
    (hroom : cur.length + 1 < (get_buf tty ep).len)
    (hst : (get_buf tty ep).state = TTY_STATE_NORMAL
      ∨ (get_buf tty ep).state = TTY_STATE_WRITE_CR
      ∨ (get_buf tty ep).state = TTY_STATE_WRITE_LF)
    (hsem : (get_buf tty ep).write_sem = 1)
    (hbs : (get_buf tty ep).flags &&& TTY_FLAG_CANON ≠ 0 → 8 ∉ inp.drop p) :
    ∃ tty1 cur1 q, p + q ≤ inp.length ∧ queued (get_buf tty1 ep) cur1 ∧
      cur1 ++ pending (get_buf tty1 ep).state
        = cur ++ pending (get_buf tty ep).state
            ++ translate (get_buf tty ep).flags ((inp.drop p).take q) ∧
      (get_buf tty1 ep).flags = (get_buf tty ep).flags ∧
      (get_buf tty1 ep).len = (get_buf tty ep).len ∧
      ((get_buf tty1 ep).state = TTY_STATE_NORMAL
        ∨ (get_buf tty1 ep).state = TTY_STATE_WRITE_LF) ∧
      ((p + q = inp.length ∧
          tty_write_restart (user_bytes inp) (inp.length : Int) ep (fuel + 1) tty
            (p : Int) (p : Int) evs = .ret ((inp.length : Int), tty1)) ∨
        (p + q < inp.length ∧ cur1.length + 1 = (get_buf tty1 ep).len ∧
          (get_buf tty1 ep).write_sem = 0 ∧
          tty_write_restart (user_bytes inp) (inp.length : Int) ep (fuel + 1) tty
            (p : Int) (p : Int) evs
            = tty_write_restart (user_bytes inp) (inp.length : Int) ep fuel tty1
                ((p + q : Nat) : Int) ((p + q : Nat) : Int) evs)) := by
  have hacq := sem_acquire_ready ep .write_sem tty evs
    (by show 0 < (get_buf tty ep).write_sem; omega)
  have hl : (wstate_load (sem_take tty ep .write_sem) ep (p : Int) (p : Int)).lbuf
      = take_write_sem (get_buf tty ep) := by
    show get_buf (sem_take tty ep .write_sem) ep = _
    simp only [sem_take, get_set_buf]
  have hq0 : queued (wstate_load (sem_take tty ep .write_sem) ep (p : Int) (p : Int)).lbuf
      cur := by
    rw [hl]
    exact h
  obtain ⟨s1, cur1, q, g1, g2, g3, g4, g5, g6, g7, g8, g9, g10, g11⟩ :=
    locked_fill inp (inp.drop p) p
      (wstate_load (sem_take tty ep .write_sem) ep (p : Int) (p : Int)) cur rfl rfl rfl hq0
      (by rw [hl]; exact hroom) (by rw [hl]; exact hst) (by rw [hl]; exact hbs)
  rw [hl] at g4 g7 g8 g9
  have hws : s1.lbuf.write_sem = 0 := by
    rw [g9]
    show (get_buf tty ep).write_sem - 1 = 0
    omega
  have hrl : (inp.drop p).length = inp.length - p := List.length_drop _ _
  obtain ⟨f1, f2, f3, f4, f5, f6, f7, f8, f9, f10⟩ := finish_fields s1
  have hunf : tty_write_restart (user_bytes inp) (inp.length : Int) ep (fuel + 1) tty
      (p : Int) (p : Int) evs
      = if (finish s1).buf_pos < (inp.length : Int) then
          tty_write_restart (user_bytes inp) (inp.length : Int) ep fuel
            (wstate_store (sem_take tty ep .write_sem) ep (finish s1))
            (finish s1).buf_pos (finish s1).bytes_written evs
        else .ret ((finish s1).bytes_written,
          wstate_store (sem_take tty ep .write_sem) ep (finish s1)) := by
    conv => lhs; unfold tty_write_restart
    simp only [hacq, g2]
  rw [finish_buf_pos, finish_bytes_written, g5, g6] at hunf
  by_cases hend : p + q = inp.length
  · refine ⟨wstate_store (sem_take tty ep .write_sem) ep (finish s1), cur1, q, by omega, ?_, ?_,
      ?_, ?_, ?_, Or.inl ⟨hend, ?_⟩⟩
    · rw [store_lbuf]
      rcases finish_lbuf s1 with e | e <;> rw [e] <;> exact g3
    · rw [store_lbuf, f7]
      exact g4
    · rw [store_lbuf, f6]
      exact g7
    · rw [store_lbuf, f4]
      exact g8
    · rw [store_lbuf, f7]
      exact g11
    · rw [hunf, if_neg (by omega), hend]
  · have hlt : p + q < inp.length := by omega
    have hfull : cur1.length + 1 = s1.lbuf.len := by
      rcases g10 with g10 | g10
      · omega
      · exact g10
    have haw : ¬ (AVAILABLE_WRITE s1.lbuf > 0) := by
      have := queued_full _ _ g3
      simp only [hfull, decide_True, beq_iff_eq] at this
      omega
    have hfin : finish s1 = s1 := by
      unfold finish
      rw [if_neg haw]
    rw [hfin] at hunf
    refine ⟨wstate_store (sem_take tty ep .write_sem) ep s1, cur1, q, by omega, ?_, ?_, ?_, ?_,
      ?_, Or.inr ⟨hlt, ?_, ?_, ?_⟩⟩
    · rw [store_lbuf]
      exact g3
    · rw [store_lbuf]
      exact g4
    · rw [store_lbuf]
      exact g7
    · rw [store_lbuf]
      exact g8
    · rw [store_lbuf]
      exact g11
    · rw [store_lbuf]
      exact hfull
    · rw [store_lbuf]
      exact hws
    · rw [hunf, if_pos (by omega)]
/-- The function `tty_write` from the label `restart` on, with readers that run while it
waits on the full buffer: whatever the split into attempts, the bytes queued and pending
at the end are the bytes queued and pending at the start followed by the translation of
the bytes consumed, less the bytes the readers took. -/
theorem restart_split (inp : List Nat) (ep : Nat)
    (hep : ep = ENDPOINT_MASTER_WRITE ∨ ep = ENDPOINT_SLAVE_WRITE) :
    ∀ (ms : List Nat) (fuel p : Nat) (tty : tty_desc) (cur : List Nat),
      (∀ m ∈ ms, 0 < m) → ms.length + 1 < fuel → p < inp.length →
      queued (get_buf tty ep) cur → cur.length + 1 < (get_buf tty ep).len →
      ((get_buf tty ep).state = TTY_STATE_NORMAL
        ∨ (get_buf tty ep).state = TTY_STATE_WRITE_CR
        ∨ (get_buf tty ep).state = TTY_STATE_WRITE_LF) →
      (get_buf tty ep).write_sem = 1 →
      ((get_buf tty ep).flags &&& TTY_FLAG_CANON ≠ 0 → 8 ∉ inp.drop p) →
      ∃ j p1 tty1, j ≤ ms.length ∧ p ≤ p1 ∧
        ((tty_write_restart (user_bytes inp) (inp.length : Int) ep fuel tty (p : Int) (p : Int)
              (ms.map (reader ep)) = .ret ((inp.length : Int), tty1) ∧ p1 = inp.length) ∨
          (tty_write_restart (user_bytes inp) (inp.length : Int) ep fuel tty (p : Int) (p : Int)
              (ms.map (reader ep)) = .blocked ((p1 : Int), tty1) ∧ j = ms.length ∧
            p1 < inp.length ∧
            (readable (get_buf tty1 ep)).length + 1 = (get_buf tty1 ep).len)) ∧
        readable (get_buf tty1 ep) ++ pending (get_buf tty1 ep).state
          = (cur ++ pending (get_buf tty ep).state
              ++ translate (get_buf tty ep).flags ((inp.drop p).take (p1 - p))).drop
              (drained (get_buf tty ep).len (ms.take j)) ∧
        (get_buf tty1 ep).len = (get_buf tty ep).len ∧
        (get_buf tty1 ep).flags = (get_buf tty ep).flags := by
  intro ms
  induction ms with
  | nil =>
    intro fuel p tty cur _ hfuel hp h hroom hst hsem hbs
    obtain ⟨f, rfl⟩ : ∃ f, fuel = f + 1 + 1 := ⟨fuel - 2, by
      simp only [List.length_nil] at hfuel; omega⟩
    obtain ⟨tty1, cur1, q, a1, a2, a3, a4, a5, a6, a7⟩ :=
      restart_attempt inp ep (f + 1) p tty cur [] hp h hroom hst hsem hbs
    rcases a7 with ⟨b1, b2⟩ | ⟨b1, b2, b3, b4⟩
    · refine ⟨0, inp.length, tty1, Nat.le_refl _, by omega, Or.inl ⟨b2, rfl⟩, ?_, a5, a4⟩
      rw [a2.1.2.1, a3, show inp.length - p = q by omega]
      rfl
    · refine ⟨0, p + q, tty1, Nat.le_refl _, by omega, Or.inr ⟨?_, rfl, b1, ?_⟩, ?_, a5, a4⟩
      · rw [List.map_nil, b4]
        unfold tty_write_restart
        simp only [sem_acquire_etc, sem_count, b3, gt_iff_lt, lt_self_iff_false, if_false]
      · rw [a2.1.2.1]
        exact b2
      · rw [a2.1.2.1, a3, show p + q - p = q by omega]
        rfl
  | cons m ms ih =>
    intro fuel p tty cur hms hfuel hp h hroom hst hsem hbs
    obtain ⟨f, rfl⟩ : ∃ f, fuel = f + 1 + 1 := ⟨fuel - 2, by
      simp only [List.length_cons] at hfuel; omega⟩
    simp only [List.length_cons] at hfuel
    obtain ⟨tty1, cur1, q, a1, a2, a3, a4, a5, a6, a7⟩ :=
      restart_attempt inp ep (f + 1) p tty cur ((m :: ms).map (reader ep)) hp h hroom hst hsem
        hbs
    rcases a7 with ⟨b1, b2⟩ | ⟨b1, b2, b3, b4⟩
    · refine ⟨0, inp.length, tty1, Nat.zero_le _, by omega, Or.inl ⟨b2, rfl⟩, ?_, a5, a4⟩
      rw [a2.1.2.1, a3, show inp.length - p = q by omega]
      rfl
    · have hcap : 1 < (get_buf tty1 ep).len := by rw [a5]; omega
      obtain ⟨t2, r1, r2, r3, r4, r5, r6⟩ :=
        reader_drains tty1 ep m cur1 hep a2 b2 hcap (hms m (List.mem_cons_self _ _))
      have hjm : min m ((get_buf tty1 ep).len - 1) ≤ cur1.length := by
        have := Nat.min_le_right m ((get_buf tty1 ep).len - 1)
        omega
      have hjm0 : 0 < min m ((get_buf tty1 ep).len - 1) := by
        have := hms m (List.mem_cons_self _ _)
        simp only [lt_min_iff]
        omega
      have hwake : tty_write_restart (user_bytes inp) (inp.length : Int) ep (f + 1) tty1
          ((p + q : Nat) : Int) ((p + q : Nat) : Int) ((m :: ms).map (reader ep))
          = tty_write_restart (user_bytes inp) (inp.length : Int) ep (f + 1) t2
              ((p + q : Nat) : Int) ((p + q : Nat) : Int) (ms.map (reader ep)) := by
        rw [List.map_cons]
        show tty_write_restart _ _ _ _ _ _ _ (.wake _ :: _) = _
        rw [restart_wake _ _ _ _ _ _ _ _ _ b3]
        simp only [r1, ret_tty_read]
      obtain ⟨j, p1, tty3, c1, c2, c3, c4, c5, c6⟩ :=
        ih (f + 1) (p + q) t2 (cur1.drop (min m ((get_buf tty1 ep).len - 1)))
          (fun x hx => hms x (List.mem_cons_of_mem _ hx)) (by omega) b1 r2
          (by rw [r4, List.length_drop]; omega)
          (by rw [r5]; rcases a6 with a6 | a6
              · exact Or.inl a6
              · exact Or.inr (Or.inr a6))
          (by rw [r6, b3])
          (fun hcn => by
            have := hbs (by rw [← a4, ← r3]; exact hcn)
            intro h8
            apply this
            rw [← List.drop_drop] at h8
            exact List.mem_of_mem_drop h8)
      refine ⟨j + 1, p1, tty3, by simp only [List.length_cons]; omega, by omega, ?_, ?_,
        c5.trans (r4.trans a5), c6.trans (r3.trans a4)⟩
      · rcases c3 with ⟨d1, d2⟩ | ⟨d1, d2, d3, d4⟩
        · exact Or.inl ⟨by rw [b4, hwake]; exact d1, d2⟩
        · exact Or.inr ⟨by rw [b4, hwake]; exact d1, by simp only [List.length_cons]; omega, d3,
            d4⟩
      · rw [a5] at hjm
        have hsplit : (inp.drop p).take (p1 - p)
            = (inp.drop p).take q ++ (inp.drop (p + q)).take (p1 - (p + q)) := by
          rw [show p1 - p = q + (p1 - (p + q)) by omega, List.take_add, List.drop_drop]
        have hdr : drained (get_buf tty ep).len ((m :: ms).take (j + 1))
            = min m ((get_buf tty ep).len - 1) + drained (get_buf tty ep).len (ms.take j) := by
          simp only [List.take_succ_cons, drained, List.map_cons, List.sum_cons]
        have key : ∀ (D : Nat) (Y : List Nat),
            List.drop (min m ((get_buf tty ep).len - 1) + D) (cur1 ++ Y)
              = List.drop D (cur1.drop (min m ((get_buf tty ep).len - 1)) ++ Y) := by
          intro D Y
          rw [← List.drop_drop, List.drop_append_of_le_length hjm]
        rw [c4, r5, r3, a4, r4, a5, hsplit, translate_append,
          ← List.append_assoc (cur ++ pending (get_buf tty ep).state), ← a3, hdr,
          List.append_assoc cur1, key, List.append_assoc]
/-- The write of C19's witness evaluated: the call returns 4 after one reader took
`"ab\r"`; the buffer then holds `"\nc"`, the rest of `"ab\r\nc"`. -/
theorem split_newline_stream :
    ∃ t1, tty_write 3 (init_tty_desc 4 0) (user_bytes [97, 98, 10, 99]) 4
        ENDPOINT_SLAVE_WRITE ([3].map (reader ENDPOINT_SLAVE_WRITE)) = .ret (4, t1) ∧
      readable (get_buf t1 ENDPOINT_SLAVE_WRITE) = [10, 99] ∧
      translate (get_buf (init_tty_desc 4 0) ENDPOINT_SLAVE_WRITE).flags [97, 98, 10, 99]
        = [97, 98, 13, 10, 99] ∧
      drained 4 [3] = 3 :=
  ⟨_, rfl, by decide, by decide, by decide⟩

end Tty
